import Mathlib

/-!
# go-api-scaffold: the module code generator (`cmd/gen/main.go`)

A shallow embedding of the generator's naming utilities (`splitWords`,
`toPascalCase`, `toCamelCase`, `toSnakeCase`, `toKebabCase`, `toPlural`), of the
naming record built by `main`, of the two marker injections (`appendRoute`,
`appendMigration`), of `detectModulePath`, of `generateFile` and of `main`
itself, followed by theorems about them.

Modelling conventions.
* A Go `string` is modelled as the list of its Unicode code points (`GoString`).
  For valid UTF-8 text this carries the same information as the byte sequence;
  byte offsets produced by `range` are only ever compared with `0` in the source,
  and the one byte-indexed read (`toPlural`) compares against ASCII letters.
* Go's `unicode` tables are not part of the repository. They are a parameter
  (`UnicodeTables`) whose values on ASCII are fixed to what Go computes there.
* The file system is explicit state: a map from paths to contents, to which
  `generateFile` and `main` add the set of directories. Paths are told apart by
  their spelling, and writes to an existing or creatable file succeed.
* `text/template`, `path/filepath` and `os.MkdirAll` are not part of the
  repository either. They are a parameter (`StdLib`); `miniLib` is a small
  instance used in examples.
* Of what `main` prints only which statement printed and with which values is
  kept (`Message`).
-/

namespace GoApiScaffold

/-- A Go string as a sequence of Unicode code points. -/
abbrev GoString := List Char

/-- The functions of Go's `unicode` package used (directly or through `strings`)
by the generator. On ASCII runes Go computes them by explicit range tests, which
the `_ascii` fields record; on other runes they are table lookups, about which
only two facts are recorded: a case mapping never sends a non-ASCII rune to an
ASCII rune of the wrong kind. -/
structure UnicodeTables where
  /-- The function `unicode.IsUpper`. -/
  IsUpper : Char → Bool
  /-- The function `unicode.ToLower`. -/
  ToLower : Char → Char
  /-- The function `unicode.ToTitle`. -/
  ToTitle : Char → Char
  /-- The function `unicode.IsLetter`. -/
  IsLetter : Char → Bool
  /-- The function `unicode.IsDigit`. -/
  IsDigit : Char → Bool
  /-- The function `unicode.IsSpace`. -/
  IsSpace : Char → Bool
  isUpper_ascii : ∀ c : Char, c.toNat < 128 → IsUpper c = c.isUpper
  toLower_ascii : ∀ c : Char, c.toNat < 128 → ToLower c = c.toLower
  toTitle_ascii : ∀ c : Char, c.toNat < 128 → ToTitle c = c.toUpper
  isSpace_ascii : ∀ c : Char, c.toNat < 128 →
    IsSpace c = (c == '\t' || c == '\n' || c.toNat == 11 || c.toNat == 12 || c == '\r' || c == ' ')
  toLower_nonascii : ∀ c : Char, 128 ≤ c.toNat → (ToLower c).toNat < 128 → (ToLower c).isLower = true
  toTitle_nonascii : ∀ c : Char, 128 ≤ c.toNat → (ToTitle c).toNat < 128 → (ToTitle c).isUpper = true

/-- The tables restricted to ASCII: every rune outside ASCII is caseless, not a
letter, digit or space. They agree with Go on every ASCII string. -/
def asciiTables : UnicodeTables where
  IsUpper := Char.isUpper
  ToLower := Char.toLower
  ToTitle := Char.toUpper
  IsLetter := Char.isAlpha
  IsDigit := Char.isDigit
  IsSpace := fun c => c == '\t' || c == '\n' || c.toNat == 11 || c.toNat == 12 || c == '\r' || c == ' '
  isUpper_ascii := fun _ _ => rfl
  toLower_ascii := fun _ _ => rfl
  toTitle_ascii := fun _ _ => rfl
  isSpace_ascii := fun _ _ => rfl
  toLower_nonascii := by
    intro c hc hl
    have h1 : ¬ (c.toNat ≥ 65 ∧ c.toNat ≤ 90) := by omega
    have h5 : c.toLower = c := by simp only [Char.toLower, h1, if_false]
    rw [h5] at hl
    omega
  toTitle_nonascii := by
    intro c hc hl
    have h1 : ¬ (c.toNat ≥ 97 ∧ c.toNat ≤ 122) := by omega
    have h5 : c.toUpper = c := by simp only [Char.toUpper, h1, if_false]
    rw [h5] at hl
    omega

/-! ## The `strings` and `fmt` functions the generator calls -/

namespace strings

/-- `strings.ToLower(s)`: every rune mapped by `unicode.ToLower`. -/
def ToLower (U : UnicodeTables) (s : GoString) : GoString := s.map U.ToLower

/-- The unexported `strings.isSeparator` used by `strings.Title`. -/
def isSeparator (U : UnicodeTables) (r : Char) : Bool :=
  if r.toNat ≤ 0x7F then
    if '0' ≤ r ∧ r ≤ '9' then false
    else if 'a' ≤ r ∧ r ≤ 'z' then false
    else if 'A' ≤ r ∧ r ≤ 'Z' then false
    else if r = '_' then false
    else true
  else if U.IsLetter r || U.IsDigit r then false
  else U.IsSpace r

/-- The loop of `strings.Title`: `prev` is the previously seen rune. -/
def titleFrom (U : UnicodeTables) : Char → GoString → GoString
  | _, [] => []
  | prev, r :: rs => (if isSeparator U prev then U.ToTitle r else r) :: titleFrom U r rs

/-- `strings.Title(s)`: the runes that begin words are mapped to title case. -/
def Title (U : UnicodeTables) (s : GoString) : GoString := titleFrom U ' ' s

/-- `strings.Join(parts, sep)`. -/
def Join (parts : List GoString) (sep : GoString) : GoString := sep.intercalate parts

/-- `strings.ReplaceAll(s, old, new)` for one-rune `old` and `new`. -/
def ReplaceAll (s : GoString) (old new : Char) : GoString :=
  s.map fun c => if c = old then new else c

/-- `strings.Split(s, sep)` for a one-rune separator: the pieces between the
separators, one more than there are separators. -/
def Split : GoString → Char → List GoString
  | [], _ => [[]]
  | c :: cs, sep =>
    if c = sep then [] :: Split cs sep
    else
      match Split cs sep with
      | [] => [[c]]
      | p :: ps => (c :: p) :: ps

/-- `strings.HasSuffix(s, suffix)`. -/
def HasSuffix (s suffix : GoString) : Bool := suffix.isSuffixOf s

/-- `strings.HasPrefix(s, p)`. -/
def HasPrefix (s p : GoString) : Bool := p.isPrefixOf s

/-- `strings.TrimPrefix(s, p)`. -/
def TrimPrefix (s p : GoString) : GoString := if HasPrefix s p then s.drop p.length else s

/-- `strings.TrimSpace(s)`: leading and trailing white space removed. -/
def TrimSpace (U : UnicodeTables) (s : GoString) : GoString :=
  ((s.dropWhile U.IsSpace).reverse.dropWhile U.IsSpace).reverse

/-- `strings.Contains(s, substr)`. -/
def Contains : GoString → GoString → Bool
  | [], substr => substr.isPrefixOf []
  | c :: cs, substr => substr.isPrefixOf (c :: cs) || Contains cs substr

/-- `strings.Replace(s, old, new, 1)`: the leftmost occurrence of `old` replaced
by `new`; `s` itself when `old` does not occur. -/
def ReplaceFirst : GoString → GoString → GoString → GoString
  | [], old, new => if old.isPrefixOf [] then new else []
  | c :: cs, old, new =>
    if old.isPrefixOf (c :: cs) then new ++ (c :: cs).drop old.length
    else c :: ReplaceFirst cs old new

end strings

namespace fmt

/-- `fmt.Sprintf(format, args...)` for formats whose only verbs are `%s` and
`%%` and whose arguments are strings, no more of them than there are `%s`: each
`%s` is replaced by the next argument. -/
def Sprintf : GoString → List GoString → GoString
  | [], _ => []
  | '%' :: '%' :: rest, args => '%' :: Sprintf rest args
  | '%' :: 's' :: rest, a :: args => a ++ Sprintf rest args
  | '%' :: 's' :: rest, [] => "%!s(MISSING)".toList ++ Sprintf rest []
  | c :: rest, args => c :: Sprintf rest args

end fmt

/-! ## Naming conversion utilities -/

/-- The inner loop of `splitWords` over the runes of one part: `i` is the offset
of the rune, `result` the words emitted so far, `current` the word being built. -/
def splitWordsLoop (U : UnicodeTables) :
    GoString → Nat → List GoString → GoString → List GoString × GoString
  | [], _, result, current => (result, current)
  | r :: rs, i, result, current =>
    if U.IsUpper r && decide (i > 0) then
      splitWordsLoop U rs (i + 1) (result ++ [current]) [r]
    else
      splitWordsLoop U rs (i + 1) result (current ++ [r])

/-- The body of the outer loop of `splitWords` for one part `p`. -/
def splitWordsPart (U : UnicodeTables) (result : List GoString) (p : GoString) :
    List GoString :=
  let (result, current) := splitWordsLoop U p 0 result []
  if current.length > 0 then result ++ [current] else result

/-- The function `splitWords`. -/
def splitWords (U : UnicodeTables) (s : GoString) : List GoString :=
  let s := strings.ReplaceAll s '-' '_'
  let parts := strings.Split s '_'
  parts.foldl (splitWordsPart U) []

/-- The function `toPascalCase`. -/
def toPascalCase (U : UnicodeTables) (s : GoString) : GoString :=
  let parts := splitWords U s
  let parts := parts.map fun p => strings.Title U (strings.ToLower U p)
  strings.Join parts []

/-- The function `toCamelCase`. -/
def toCamelCase (U : UnicodeTables) (s : GoString) : GoString :=
  match toPascalCase U s with
  | [] => []
  | r :: runes => U.ToLower r :: runes

/-- The function `toSnakeCase`. -/
def toSnakeCase (U : UnicodeTables) (s : GoString) : GoString :=
  let parts := splitWords U s
  let parts := parts.map fun p => strings.ToLower U p
  strings.Join parts ['_']

/-- The function `toKebabCase`. -/
def toKebabCase (U : UnicodeTables) (s : GoString) : GoString :=
  let parts := splitWords U s
  let parts := parts.map fun p => strings.ToLower U p
  strings.Join parts ['-']

/-- The function `toPlural`. The source reads the byte `s[len(s)-2]` and compares
it with ASCII vowels; on valid UTF-8 that is the comparison of the rune before
the final `y`. -/
def toPlural (s : GoString) : GoString :=
  if strings.HasSuffix s ['s'] || strings.HasSuffix s ['x'] || strings.HasSuffix s ['c', 'h']
      || strings.HasSuffix s ['s', 'h'] then
    s ++ ['e', 's']
  else if strings.HasSuffix s ['y'] && decide (s.length > 1) then
    let prev := s.getD (s.length - 2) ' '
    if prev ≠ 'a' ∧ prev ≠ 'e' ∧ prev ≠ 'i' ∧ prev ≠ 'o' ∧ prev ≠ 'u' then
      s.take (s.length - 1) ++ ['i', 'e', 's']
    else s ++ ['s']
  else s ++ ['s']

/-! ## File system, naming record and marker injection -/

/-- The file system: the content of each readable file, by path. -/
abbrev FS := GoString → Option GoString

/-- The file system after `data` has been written to `path`. -/
def FS.write (fs : FS) (path data : GoString) : FS :=
  fun p => if p = path then some data else fs p

/-- A Go `error` value: one coming from the operating system, one built by
`fmt.Errorf` with the given message, or one built by `fmt.Errorf` with a format
ending in `%w` around another error. -/
inductive GoError where
  | os (op : String) (path : GoString)
  | errorf (msg : String)
  | wrapf (format : String) (err : GoError)
  deriving DecidableEq, Repr

namespace os

/-- `os.ReadFile(name)`: the content, or an error when the file cannot be read. -/
def ReadFile (fs : FS) (name : GoString) : Except GoError GoString :=
  match fs name with
  | some content => .ok content
  | none => .error (.os "open" name)

/-- `os.WriteFile(name, data, perm)`: the file holds `data` afterwards. The write
itself is taken to succeed. -/
def WriteFile (fs : FS) (name data : GoString) : Except GoError Unit × FS :=
  (.ok (), fs.write name data)

end os

/-- The struct `ModuleData`. -/
structure ModuleData where
  Name : GoString
  PascalName : GoString
  CamelName : GoString
  SnakeName : GoString
  KebabName : GoString
  PluralName : GoString
  ChineseName : GoString
  ModulePath : GoString
  deriving DecidableEq, Repr

/-- The function `detectModulePath`. -/
def detectModulePath (U : UnicodeTables) (fs : FS) : GoString :=
  match os.ReadFile fs "go.mod".toList with
  | .error _ => "go-api-scaffold".toList
  | .ok content =>
    match (strings.Split content '\n').find? fun line => strings.HasPrefix line "module ".toList with
    | some line => strings.TrimSpace U (strings.TrimPrefix line "module ".toList)
    | none => "go-api-scaffold".toList

/-- The naming record `data` built by `main` from the three flags, after the
check that `name` is not empty. -/
def mainModuleData (U : UnicodeTables) (fs : FS) (name cn modulePath : GoString) : ModuleData :=
  let cn := if cn = [] then name else cn
  let modulePath := if modulePath = [] then detectModulePath U fs else modulePath
  { Name := strings.ToLower U name
    PascalName := toPascalCase U name
    CamelName := toCamelCase U name
    SnakeName := toSnakeCase U name
    KebabName := toKebabCase U name
    PluralName := toPlural (strings.ToLower U name)
    ChineseName := cn
    ModulePath := modulePath }

/-- The path `routerFile` of `appendRoute`. -/
def routerFile : GoString := "internal/handler/router.go".toList

/-- The `marker` of `appendRoute`. -/
def routeMarker : GoString :=
  "// GEN:ROUTE_REGISTER - Auto-appended by code generator, do not remove".toList

/-- The format string of `routeCode` in `appendRoute`. -/
def routeFormat : GoString :=
  ("\t\t\t// %s module\n" ++
   "\t\t\t%sHandler := New%sHandler(%sSvc)\n" ++
   "\t\t\t%s := authorized.Group(\"/%s\")\n" ++
   "\t\t\t\x7b\n" ++
   "\t\t\t\t%s.GET(\"\", %sHandler.List)\n" ++
   "\t\t\t\t%s.POST(\"\", %sHandler.Create)\n" ++
   "\t\t\t\t%s.GET(\"/:id\", %sHandler.Get)\n" ++
   "\t\t\t\t%s.PUT(\"/:id\", %sHandler.Update)\n" ++
   "\t\t\t\t%s.DELETE(\"/:id\", %sHandler.Delete)\n" ++
   "\t\t\t\x7d\n" ++
   "\n" ++
   "\t\t\t").toList

/-- The snippet `routeCode` of `appendRoute`. -/
def routeCode (data : ModuleData) : GoString :=
  fmt.Sprintf routeFormat
    [data.PascalName,
     data.CamelName, data.PascalName, data.CamelName,
     data.PluralName, data.PluralName,
     data.PluralName, data.CamelName,
     data.PluralName, data.CamelName,
     data.PluralName, data.CamelName,
     data.PluralName, data.CamelName,
     data.PluralName, data.CamelName]

/-- The function `appendRoute`: the returned error (if any) and the file system
it leaves behind. -/
def appendRoute (data : ModuleData) (fs : FS) : Except GoError Unit × FS :=
  match os.ReadFile fs routerFile with
  | .error err => (.error err, fs)
  | .ok content =>
    let marker := routeMarker
    let newContent := strings.ReplaceFirst content marker (routeCode data ++ marker)
    if newContent = content then
      (.error (.errorf "route marker comment not found"), fs)
    else
      os.WriteFile fs routerFile newContent

/-- The path `storeFile` of `appendMigration`. -/
def storeFile : GoString := "internal/store/store.go".toList

/-- The `marker` of `appendMigration`. -/
def migrationMarker : GoString :=
  "// GEN:MODEL_MIGRATE - Auto-appended by code generator, do not remove".toList

/-- The snippet `migrationCode` of `appendMigration`. -/
def migrationCode (data : ModuleData) : GoString :=
  fmt.Sprintf "\t\t&model.%s\x7b\x7d,\n\t\t".toList [data.PascalName]

/-- The import line `appendMigration` looks for: the model package under the
default module path. -/
def modelImport : GoString := "\"go-api-scaffold/internal/model\"".toList

/-- The import line `appendMigration` looks for: the model package under the
module path of the naming record. -/
def modelImportOf (data : ModuleData) : GoString :=
  fmt.Sprintf "\"%s/internal/model\"".toList [data.ModulePath]

/-- The import line `appendMigration` replaces. -/
def loggerImport : GoString := "\"go-api-scaffold/pkg/logger\"".toList

/-- The text `appendMigration` puts in place of the logger import. The source
writes it as a raw (backquoted) string, in which `\n` and `\t` are a backslash
followed by a letter. -/
def loggerImportReplacement : GoString :=
  fmt.Sprintf "\"go-api-scaffold/internal/model\"\\n\\t\"go-api-scaffold/pkg/logger\"".toList []

/-- The first half of `appendMigration` after the read: the migration snippet
put in front of the leftmost marker. -/
def insertMigration (data : ModuleData) (content : GoString) : GoString :=
  let marker := migrationMarker
  strings.ReplaceFirst content marker (migrationCode data ++ marker)

/-- The step "Ensure model package is imported" of `appendMigration`. -/
def ensureModelImport (data : ModuleData) (newContent : GoString) : GoString :=
  if !strings.Contains newContent modelImport
      && !strings.Contains newContent (modelImportOf data) then
    strings.ReplaceFirst newContent loggerImport loggerImportReplacement
  else newContent

/-- The function `appendMigration`: the returned error (if any) and the file
system it leaves behind. -/
def appendMigration (data : ModuleData) (fs : FS) : Except GoError Unit × FS :=
  match os.ReadFile fs storeFile with
  | .error err => (.error err, fs)
  | .ok content =>
    let newContent := insertMigration data content
    if newContent = content then
      (.error (.errorf "migration marker comment not found"), fs)
    else
      let newContent := ensureModelImport data newContent
      os.WriteFile fs storeFile newContent

/-! ## Template rendering and the command entry point -/

/-- The disk: the regular files with their contents, and the directories. Paths
are told apart by their spelling. -/
structure Disk where
  files : FS
  dirs : GoString → Bool

namespace os

/-- `os.Stat(name)`: whether it returns a nil error, which it does exactly when a
file or a directory exists at `name`. -/
def Stat (d : Disk) (name : GoString) : Bool := (d.files name).isSome || d.dirs name

/-- `os.Create(name)`: the file exists and is empty afterwards; it fails on a
directory. -/
def Create (d : Disk) (name : GoString) : Except GoError Unit × Disk :=
  if d.dirs name then (.error (.os "open" name), d)
  else (.ok (), { d with files := d.files.write name [] })

end os

/-- The parts of Go's standard library that `generateFile` calls and that are
not part of the repository: `text/template`, `path/filepath` and `os.MkdirAll`.
Executing a template yields the bytes it wrote to its writer and the error it
stopped with, if any. Creating directories never creates or changes a regular
file. -/
structure StdLib where
  /-- The type `*template.Template`. -/
  Template : Type
  /-- The call `template.New(name).Parse(text)`. -/
  Parse : GoString → GoString → Except GoError Template
  /-- The call `t.Execute(w, data)`: what was written to `w`, and the error. -/
  Execute : Template → ModuleData → GoString × Option GoError
  /-- The function `filepath.Base`. -/
  Base : GoString → GoString
  /-- The function `filepath.Dir`. -/
  Dir : GoString → GoString
  /-- The call `os.MkdirAll(path, 0o755)`. -/
  MkdirAll : Disk → GoString → Except GoError Unit × Disk
  mkdirAll_files : ∀ (d : Disk) (path : GoString), (MkdirAll d path).2.files = d.files

/-- The function `generateFile`: the returned error (if any) and the disk it
leaves behind. -/
def generateFile (L : StdLib) (tmplPath outPath : GoString) (data : ModuleData) (d : Disk) :
    Except GoError Unit × Disk :=
  if os.Stat d outPath then
    (.error (.errorf ("file already exists: " ++ String.mk outPath)), d)
  else
    match os.ReadFile d.files tmplPath with
    | .error err => (.error (.wrapf "read template: %w" err), d)
    | .ok tmplContent =>
      match L.Parse (L.Base tmplPath) tmplContent with
      | .error err => (.error (.wrapf "parse template: %w" err), d)
      | .ok t =>
        match L.MkdirAll d (L.Dir outPath) with
        | (.error err, d) => (.error err, d)
        | (.ok (), d) =>
          match os.Create d outPath with
          | (.error err, d) => (.error err, d)
          | (.ok (), d) =>
            match L.Execute t data with
            | (written, some err) =>
              (.error err, { d with files := d.files.write outPath written })
            | (written, none) =>
              (.ok (), { d with files := d.files.write outPath written })

/-- The list `files` of `main`: each template path with its output path. -/
def outputFiles (data : ModuleData) : List (GoString × GoString) :=
  [("templates/handler.go.tmpl".toList,
      fmt.Sprintf "internal/handler/%s_handler.go".toList [data.SnakeName]),
   ("templates/service.go.tmpl".toList,
      fmt.Sprintf "internal/service/%s_service.go".toList [data.SnakeName]),
   ("templates/model.go.tmpl".toList,
      fmt.Sprintf "internal/model/%s.go".toList [data.SnakeName]),
   ("templates/store.go.tmpl".toList,
      fmt.Sprintf "internal/store/%s_repo.go".toList [data.SnakeName])]

/-- What `main` prints, one constructor for each print statement (or group of
adjacent ones) with the values it prints; `emitFailed`, `routeFailed`,
`migrationFailed` and `nameRequired` go to the error stream. -/
inductive Message where
  | nameRequired
  | generating (pascalName chineseName : GoString)
  | emitFailed (out : GoString) (err : GoError)
  | emitted (out : GoString)
  | routeFailed (err : GoError)
  | routeRegistered
  | migrationFailed (err : GoError)
  | migrationRegistered
  | generated (pascalName : GoString)
  | nextSteps (snakeName : GoString)
  deriving DecidableEq, Repr

/-- How a run of the command ends: its exit status, the disk, what it printed. -/
structure RunResult where
  exitCode : Nat
  disk : Disk
  output : List Message

/-- The loop "Generate files" of `main` over the remaining `files`: either the
run has exited (status 1) or the loop is done. -/
def emitLoop (L : StdLib) (data : ModuleData) :
    List (GoString × GoString) → Disk → List Message → Except RunResult (Disk × List Message)
  | [], d, output => .ok (d, output)
  | (tmpl, out) :: files, d, output =>
    match generateFile L tmpl out data d with
    | (.error err, d) => .error ⟨1, d, output ++ [.emitFailed out err]⟩
    | (.ok (), d) => emitLoop L data files d (output ++ [.emitted out])

/-- The function `main`, given the values of the flags `-name`, `-cn` and
`-module` and the disk it starts on. -/
def main (U : UnicodeTables) (L : StdLib) (name cn modulePath : GoString) (d : Disk) :
    RunResult :=
  if name = [] then ⟨1, d, [.nameRequired]⟩
  else
    let data := mainModuleData U d.files name cn modulePath
    let output := [Message.generating data.PascalName data.ChineseName]
    match emitLoop L data (outputFiles data) d output with
    | .error exited => exited
    | .ok (d, output) =>
      let (routeErr, files) := appendRoute data d.files
      let output := output ++
        [match routeErr with
          | .error err => Message.routeFailed err
          | .ok () => Message.routeRegistered]
      let (migrationErr, files) := appendMigration data files
      let output := output ++
        [match migrationErr with
          | .error err => Message.migrationFailed err
          | .ok () => Message.migrationRegistered]
      ⟨0, { d with files := files }, output ++
        [.generated data.PascalName, .nextSteps data.SnakeName]⟩

/-! ## Notions used to state the properties -/

/-- The condition of the first rule of pluralisation: `s` ends in "s", "x", "ch" or "sh". -/
def EndsSibilant (s : GoString) : Prop :=
  ['s'] <:+ s ∨ ['x'] <:+ s ∨ ['c', 'h'] <:+ s ∨ ['s', 'h'] <:+ s

/-- The condition of the second rule: `s` ends in "y" and the rune before it
exists and is not a vowel. -/
def EndsConsonantY (s : GoString) : Prop :=
  ∃ (t : GoString) (c : Char), s = t ++ [c, 'y'] ∧
    c ≠ 'a' ∧ c ≠ 'e' ∧ c ≠ 'i' ∧ c ≠ 'o' ∧ c ≠ 'u'

/-- The words the scan of `splitWords` yields from the runes `rs` that follow a
word `cur` already begun: a new word starts at every uppercase rune. -/
def chunks (U : UnicodeTables) : GoString → GoString → List GoString
  | cur, [] => [cur]
  | cur, r :: rs => if U.IsUpper r then cur :: chunks U [r] rs else chunks U (cur ++ [r]) rs

/-- The words `splitWords` takes from one part. -/
def partWords (U : UnicodeTables) : GoString → List GoString
  | [] => []
  | r :: rs => chunks U [r] rs

/-- A rune that `splitWords` treats as a word separator. -/
def IsSep (c : Char) : Prop := c = '_' ∨ c = '-'

instance (c : Char) : Decidable (IsSep c) := by unfold IsSep; infer_instance

/-- A non-empty word of lowercase ASCII letters. -/
def LowerWord (w : GoString) : Prop := w ≠ [] ∧ ∀ c ∈ w, c.isLower = true

instance (w : GoString) : Decidable (LowerWord w) := by unfold LowerWord; infer_instance

/-- A word with its first letter made uppercase. -/
def capitalise : GoString → GoString
  | [] => []
  | c :: cs => c.toUpper :: cs

/-- A string with its first letter made lowercase. -/
def lowerFirst : GoString → GoString
  | [] => []
  | c :: cs => c.toLower :: cs

/-- The snake spelling of a word list: the words joined by `_`. -/
def snakeSpelling (ws : List GoString) : GoString := ['_'].intercalate ws

/-- The kebab spelling of a word list: the words joined by `-`. -/
def kebabSpelling (ws : List GoString) : GoString := ['-'].intercalate ws

/-- The Pascal spelling of a word list: each word capitalised, concatenated. -/
def pascalSpelling (ws : List GoString) : GoString := (ws.map capitalise).flatten

/-- The camel spelling of a word list: the Pascal spelling with its first letter
lowercased. -/
def camelSpelling (ws : List GoString) : GoString := lowerFirst (pascalSpelling ws)

/-- The offsets at which the words after the first begin when the words of `ws`
are laid end to end starting at offset `off`. -/
def cutPositionsFrom : Nat → List GoString → List Nat
  | _, [] => []
  | _, [_] => []
  | off, w :: w' :: ws => (off + w.length) :: cutPositionsFrom (off + w.length) (w' :: ws)

/-- The positions at which a list of words cuts its concatenation. -/
def cutPositions (ws : List GoString) : List Nat := cutPositionsFrom 0 ws

/-- The positions `i > 0` of `t` at which `b` holds of the rune before position
`i` and the rune at position `i`. -/
def boundaries (b : Char → Char → Bool) (t : GoString) : List Nat :=
  (List.range t.length).filter fun i => decide (0 < i) && b (t.getD (i - 1) ' ') (t.getD i ' ')

/-- The leftmost occurrence of `marker` in `content` is the one between `pre`
and `post`: no occurrence begins at an offset inside `pre`. -/
def FirstOccurrence (content pre marker post : GoString) : Prop :=
  content = pre ++ marker ++ post ∧ ∀ k < pre.length, ¬ marker <+: content.drop k

/-- The number of offsets of `s` at which an occurrence of `pat` begins. -/
def countOccurrences : GoString → GoString → Nat
  | [], pat => if pat.isPrefixOf [] then 1 else 0
  | c :: cs, pat => (if pat.isPrefixOf (c :: cs) then 1 else 0) + countOccurrences cs pat

/-- Whether somewhere in `l` the rune `_` is immediately followed by the rune `y`. -/
def underscoreBefore (y : Char) : GoString → Bool
  | a :: b :: rest => (a == '_' && b == y) || underscoreBefore y (b :: rest)
  | _ => false

/-- An example naming record: the one `main` builds for `-name payment` when
`go.mod` cannot be read. -/
def paymentData : ModuleData :=
  mainModuleData asciiTables (fun _ => none) "payment".toList [] []

/-- An example `router.go`: one line, the route marker, one line. -/
def sampleRouter : GoString :=
  "\t\tauthorized.Use(auth)\n\t\t".toList ++ routeMarker ++ "\n\treturn r\n".toList

/-- An example `store.go` that imports the logger package but not the model
package, and holds the migration marker. -/
def sampleStore : GoString :=
  "import (\n\t\"go-api-scaffold/pkg/logger\"\n)\n\t\t".toList ++ migrationMarker ++ "\n".toList

/-- An example `store.go` that imports the model package and holds the migration marker. -/
def sampleStoreWithModel : GoString :=
  "import (\n\t\"go-api-scaffold/internal/model\"\n)\n\t\t".toList ++ migrationMarker
    ++ "\n".toList

/-- A file system holding only `content` at `path`. -/
def singleFile (path content : GoString) : FS := fun p => if p = path then some content else none

/-- A node of a parsed example template: literal text, or the action
`.Field` between double braces. -/
inductive MiniNode where
  | text (s : GoString)
  | field (name : GoString)
  deriving DecidableEq, Repr

/-- The parser of the example templates: `inAction` tells whether the scan is
between the opening and the closing double braces, `cur` is the text or the
action read so far. An action that is not closed, or is not a dot followed by a
name, is a parse error. -/
def miniParse : GoString → Bool → GoString → List MiniNode → Except GoError (List MiniNode)
  | [], false, cur, nodes => .ok (nodes ++ [.text cur])
  | [], true, _, _ => .error (.errorf "template: unclosed action")
  | '\x7b' :: '\x7b' :: rest, false, cur, nodes => miniParse rest true [] (nodes ++ [.text cur])
  | '\x7d' :: '\x7d' :: rest, true, cur, nodes =>
    match cur with
    | '.' :: name => miniParse rest false [] (nodes ++ [.field name])
    | _ => .error (.errorf "template: unexpected action")
  | c :: rest, inAction, cur, nodes => miniParse rest inAction (cur ++ [c]) nodes

/-- The field of `ModuleData` with the given name, if there is one. -/
def miniField (data : ModuleData) (name : GoString) : Option GoString :=
  if name = "Name".toList then some data.Name
  else if name = "PascalName".toList then some data.PascalName
  else if name = "CamelName".toList then some data.CamelName
  else if name = "SnakeName".toList then some data.SnakeName
  else if name = "KebabName".toList then some data.KebabName
  else if name = "PluralName".toList then some data.PluralName
  else if name = "ChineseName".toList then some data.ChineseName
  else if name = "ModulePath".toList then some data.ModulePath
  else none

/-- The execution of an example template: the nodes are written in order to the
output `written`, and execution stops at a field the record does not have. -/
def miniExecute (data : ModuleData) : List MiniNode → GoString → GoString × Option GoError
  | [], written => (written, none)
  | .text s :: nodes, written => miniExecute data nodes (written ++ s)
  | .field name :: nodes, written =>
    match miniField data name with
    | some value => miniExecute data nodes (written ++ value)
    | none => (written, some (.errorf "template: can't evaluate field"))

/-- An example standard library. Its templates are literal text with actions of
the shape `.Field` between double braces, on which it behaves as
`text/template` does; its paths are relative and slash-separated, and creating
a directory marks the path and the slash-terminated paths above it as
directories. -/
def miniLib : StdLib where
  Template := List MiniNode
  Parse := fun _ text => miniParse text false [] []
  Execute := fun t data => miniExecute data t []
  Base := fun path => ((strings.Split path '/').getLast?).getD []
  Dir := fun path => ['/'].intercalate (strings.Split path '/').dropLast
  MkdirAll := fun d path =>
    if (d.files path).isSome then (.error (.os "mkdir" path), d)
    else (.ok (), { d with dirs := fun q => d.dirs q || decide (q = path)
                                     || (q ++ ['/']).isPrefixOf path })
  mkdirAll_files := by
    intro d path
    dsimp only
    split <;> rfl

/-- An example disk: the given files and no directory. -/
def diskOf (files : FS) : Disk := ⟨files, fun _ => false⟩

/-- An example template body whose action names a field that `ModuleData` does
not have. -/
def badFieldTemplate : GoString := "package model\n\n// \x7b\x7b.Title\x7d\x7d\n".toList

/-- An example template body whose action is not closed. -/
def unclosedTemplate : GoString := "package model\n\n// \x7b\x7b.PascalName\n".toList

/-- An example template body. -/
def goodTemplate : GoString :=
  "package model\n\ntype \x7b\x7b.PascalName\x7d\x7d struct\n".toList

/-- An example disk: every file under `templates/` holds `goodTemplate`, except
the model template, which holds `body`; nothing else exists. -/
def templatesDisk (body : GoString) : Disk :=
  diskOf fun p =>
    if p = "templates/model.go.tmpl".toList then some body
    else if p.take 10 = "templates/".toList then some goodTemplate
    else none

/-- The string `t` is `s` with its surrounding white space removed: `s` is `t`
between two runs of white space, and `t` neither begins nor ends with white
space. -/
def IsTrimOf (U : UnicodeTables) (t s : GoString) : Prop :=
  (∃ l r : GoString, s = l ++ t ++ r ∧ (∀ c ∈ l, U.IsSpace c = true) ∧ (∀ c ∈ r, U.IsSpace c = true))
    ∧ (∀ c ∈ t.head?, U.IsSpace c = false) ∧ (∀ c ∈ t.getLast?, U.IsSpace c = false)

/-- The route snippet expected for the module "payment". -/
def paymentRouteSnippet : GoString :=
  ("\t\t\t// Payment module\n" ++
   "\t\t\tpaymentHandler := NewPaymentHandler(paymentSvc)\n" ++
   "\t\t\tpayments := authorized.Group(\"/payments\")\n" ++
   "\t\t\t\x7b\n" ++
   "\t\t\t\tpayments.GET(\"\", paymentHandler.List)\n" ++
   "\t\t\t\tpayments.POST(\"\", paymentHandler.Create)\n" ++
   "\t\t\t\tpayments.GET(\"/:id\", paymentHandler.Get)\n" ++
   "\t\t\t\tpayments.PUT(\"/:id\", paymentHandler.Update)\n" ++
   "\t\t\t\tpayments.DELETE(\"/:id\", paymentHandler.Delete)\n" ++
   "\t\t\t\x7d\n" ++
   "\n" ++
   "\t\t\t").toList

/-- The migration snippet expected for the module "payment". -/
def paymentMigrationSnippet : GoString := "\t\t&model.Payment\x7b\x7d,\n\t\t".toList

/-- An example disk for a whole run: the templates of `templatesDisk`, the
example router file and the example store file that imports the model package. -/
def paymentDisk : Disk :=
  diskOf fun p =>
    if p = routerFile then some sampleRouter
    else if p = storeFile then some sampleStoreWithModel
    else if p.take 10 = "templates/".toList then some goodTemplate
    else none

/-! ## Theorems -/

/-! ### Pluralisation -/

theorem hasSuffix_iff (s t : GoString) : strings.HasSuffix s t = true ↔ t <:+ s := by
  unfold strings.HasSuffix
  exact List.isSuffixOf_iff_suffix

theorem toPlural_sibilant (s : GoString) (h : EndsSibilant s) : toPlural s = s ++ ['e', 's'] := by
  unfold toPlural
  rw [if_pos]
  simp only [Bool.or_eq_true, hasSuffix_iff]
  unfold EndsSibilant at h
  tauto

theorem ends_y_split (s : GoString) (h1 : ['y'] <:+ s) (h2 : s.length > 1) :
    ∃ (t : GoString) (c : Char), s = t ++ [c, 'y'] := by
  obtain ⟨u, rfl⟩ := h1
  rcases List.eq_nil_or_concat u with rfl | ⟨t, c, rfl⟩
  · simp at h2
  · exact ⟨t, c, by simp⟩

theorem getD_penultimate (t : GoString) (c d : Char) :
    (t ++ [c, d]).getD ((t ++ [c, d]).length - 2) ' ' = c := by
  have h : (t ++ [c, d]).length - 2 = t.length := by simp
  rw [h, List.getD_append_right _ _ _ _ (le_refl _)]
  simp

theorem toPlural_consonantY (s : GoString) (h0 : ¬ EndsSibilant s) (h : EndsConsonantY s) :
    toPlural s = s.dropLast ++ ['i', 'e', 's'] := by
  obtain ⟨t, c, rfl, hc⟩ := h
  unfold toPlural
  rw [if_neg, if_pos]
  · simp only [getD_penultimate]
    rw [if_pos hc]
    congr 1
    rw [List.dropLast_eq_take]
  · simp only [Bool.and_eq_true, hasSuffix_iff, decide_eq_true_eq]
    refine ⟨⟨t ++ [c], by simp⟩, by simp⟩
  · simp only [Bool.or_eq_true, hasSuffix_iff]
    unfold EndsSibilant at h0
    tauto

theorem toPlural_other (s : GoString) (h0 : ¬ EndsSibilant s) (h : ¬ EndsConsonantY s) :
    toPlural s = s ++ ['s'] := by
  unfold toPlural
  rw [if_neg]
  · split
    · rename_i hy
      simp only [Bool.and_eq_true, hasSuffix_iff, decide_eq_true_eq] at hy
      obtain ⟨t, c, rfl⟩ := ends_y_split s hy.1 hy.2
      simp only [getD_penultimate]
      rw [if_neg]
      intro hc
      exact h ⟨t, c, rfl, hc⟩
    · rfl
  · simp only [Bool.or_eq_true, hasSuffix_iff]
    unfold EndsSibilant at h0
    tauto

/-- C3: `toPlural s` is `s + "es"` when `s` ends in "s", "x", "ch" or "sh";
otherwise, when `s` ends in "y" and the rune before that "y" exists and is not a
vowel, it is `s` without the final "y" followed by "ies"; otherwise it is
`s + "s"`. In particular "order", "box", "category", "day", "bus" give
"orders", "boxes", "categories", "days", "buses". -/
theorem toPlural_rule (s : GoString) :
    (EndsSibilant s → toPlural s = s ++ "es".toList) ∧
    (¬ EndsSibilant s → EndsConsonantY s → toPlural s = s.dropLast ++ "ies".toList) ∧
    (¬ EndsSibilant s → ¬ EndsConsonantY s → toPlural s = s ++ "s".toList) ∧
    toPlural "order".toList = "orders".toList ∧
    toPlural "box".toList = "boxes".toList ∧
    toPlural "category".toList = "categories".toList ∧
    toPlural "day".toList = "days".toList ∧
    toPlural "bus".toList = "buses".toList :=
  ⟨toPlural_sibilant s, toPlural_consonantY s, toPlural_other s,
    by decide, by decide, by decide, by decide, by decide⟩

theorem chunks_ne_nil (U : UnicodeTables) (rs cur : GoString) : chunks U cur rs ≠ [] := by
  induction rs generalizing cur with
  | nil => simp [chunks]
  | cons r rs ih =>
    unfold chunks
    split
    · simp
    · exact ih _

theorem splitWordsLoop_eq (U : UnicodeTables) (rs : GoString) (i : Nat) (hi : 0 < i)
    (result : List GoString) (cur : GoString) (hcur : cur ≠ []) :
    ∃ (a : List GoString) (b : GoString), splitWordsLoop U rs i result cur = (result ++ a, b)
      ∧ a ++ [b] = chunks U cur rs ∧ b ≠ [] := by
  induction rs generalizing i result cur with
  | nil => exact ⟨[], cur, by simp [splitWordsLoop], by simp [chunks], hcur⟩
  | cons r rs ih =>
    unfold splitWordsLoop chunks
    by_cases hr : U.IsUpper r = true
    · obtain ⟨a, b, h1, h2, h3⟩ := ih (i + 1) (by omega) (result ++ [cur]) [r] (by simp)
      refine ⟨cur :: a, b, ?_, ?_, h3⟩
      · simp [hr, hi, h1]
      · simp [hr, h2]
    · obtain ⟨a, b, h1, h2, h3⟩ := ih (i + 1) (by omega) result (cur ++ [r]) (by simp)
      refine ⟨a, b, ?_, ?_, h3⟩
      · simp [hr, h1]
      · simp [hr, h2]

theorem splitWordsPart_eq (U : UnicodeTables) (result : List GoString) (p : GoString) :
    splitWordsPart U result p = result ++ partWords U p := by
  cases p with
  | nil => simp [splitWordsPart, splitWordsLoop, partWords]
  | cons r rs =>
    obtain ⟨a, b, h1, h2, h3⟩ := splitWordsLoop_eq U rs 1 (by omega) result [r] (by simp)
    have h0 : splitWordsLoop U (r :: rs) 0 result [] = splitWordsLoop U rs 1 result [r] := by
      simp [splitWordsLoop]
    simp only [splitWordsPart, h0, h1, partWords, ← h2]
    have : 0 < b.length := List.length_pos.mpr h3
    simp [this]

theorem foldl_splitWordsPart (U : UnicodeTables) (parts : List GoString) (acc : List GoString) :
    parts.foldl (splitWordsPart U) acc = acc ++ (parts.map (partWords U)).flatten := by
  induction parts generalizing acc with
  | nil => simp
  | cons p ps ih => simp [ih, splitWordsPart_eq]

theorem splitWords_eq (U : UnicodeTables) (s : GoString) :
    splitWords U s
      = ((strings.Split (strings.ReplaceAll s '-' '_') '_').map (partWords U)).flatten := by
  simp [splitWords, foldl_splitWordsPart]

theorem split_ne_nil (s : GoString) (sep : Char) : strings.Split s sep ≠ [] := by
  cases s with
  | nil => simp [strings.Split]
  | cons c cs =>
    unfold strings.Split
    split
    · simp
    · split <;> simp

theorem split_token (t : GoString) (sep : Char) (h : sep ∉ t) : strings.Split t sep = [t] := by
  induction t with
  | nil => rfl
  | cons c cs ih =>
    have hc : c ≠ sep := fun e => h (by simp [e])
    have hcs : sep ∉ cs := fun e => h (by simp [e])
    simp [strings.Split, hc, ih hcs]

theorem split_token_sep (t rest : GoString) (sep : Char) (h : sep ∉ t) :
    strings.Split (t ++ sep :: rest) sep = t :: strings.Split rest sep := by
  induction t with
  | nil => simp [strings.Split]
  | cons c cs ih =>
    have hc : c ≠ sep := fun e => h (by simp [e])
    have hcs : sep ∉ cs := fun e => h (by simp [e])
    simp [strings.Split, hc, ih hcs]

theorem replaceAll_token (t : GoString) (h : ∀ c ∈ t, ¬ IsSep c) :
    strings.ReplaceAll t '-' '_' = t ∧ '_' ∉ t := by
  constructor
  · unfold strings.ReplaceAll
    conv_rhs => rw [← List.map_id t]
    apply List.map_congr_left
    intro c hc
    have := h c hc
    simp only [IsSep, not_or] at this
    simp [this.2]
  · intro hm
    exact h _ hm (Or.inl rfl)

theorem replaceAll_append (a b : GoString) :
    strings.ReplaceAll (a ++ b) '-' '_' = strings.ReplaceAll a '-' '_' ++ strings.ReplaceAll b '-' '_' := by
  simp [strings.ReplaceAll]

theorem splitWords_token (U : UnicodeTables) (t : GoString) (h : ∀ c ∈ t, ¬ IsSep c) :
    splitWords U t = partWords U t := by
  obtain ⟨h1, h2⟩ := replaceAll_token t h
  rw [splitWords_eq, h1, split_token t '_' h2]
  simp

theorem splitWords_token_sep (U : UnicodeTables) (t rest : GoString) (sep : Char)
    (h : ∀ c ∈ t, ¬ IsSep c) (hsep : IsSep sep) :
    splitWords U (t ++ sep :: rest) = partWords U t ++ splitWords U rest := by
  obtain ⟨h1, h2⟩ := replaceAll_token t h
  have h3 : strings.ReplaceAll (sep :: rest) '-' '_' = '_' :: strings.ReplaceAll rest '-' '_' := by
    rcases hsep with rfl | rfl <;> simp [strings.ReplaceAll]
  rw [splitWords_eq, splitWords_eq, replaceAll_append, h1, h3, split_token_sep _ _ _ h2]
  simp

/-! ### ASCII facts -/

theorem ascii_forall (P : Char → Prop) (h : ∀ n : Fin 128, P (Char.ofNat n.val)) (c : Char)
    (hc : c.toNat < 128) : P c := by
  have := h ⟨c.toNat, hc⟩
  simpa using this

theorem isLower_lt (c : Char) (h : c.isLower = true) : c.toNat < 128 := by
  simp only [Char.isLower, Bool.and_eq_true, decide_eq_true_eq] at h
  have h3 : c.val.toNat ≤ 122 := h.2
  have h4 : c.toNat = c.val.toNat := rfl
  omega

theorem isUpper_lt (c : Char) (h : c.isUpper = true) : c.toNat < 128 := by
  simp only [Char.isUpper, Bool.and_eq_true, decide_eq_true_eq] at h
  have h3 : c.val.toNat ≤ 90 := h.2
  have h4 : c.toNat = c.val.toNat := rfl
  omega

theorem isAlpha_lt (c : Char) (h : c.isAlpha = true) : c.toNat < 128 := by
  simp only [Char.isAlpha, Bool.or_eq_true] at h
  rcases h with h | h
  · exact isUpper_lt c h
  · exact isLower_lt c h

theorem lower_facts (c : Char) (h : c.isLower = true) :
    c.isUpper = false ∧ c.toLower = c ∧ c.toUpper.isUpper = true ∧ c.toUpper.toLower = c
      ∧ c.toUpper.toNat < 128 ∧ ¬ IsSep c ∧ ¬ IsSep c.toUpper :=
  ascii_forall (fun c => c.isLower = true →
    c.isUpper = false ∧ c.toLower = c ∧ c.toUpper.isUpper = true ∧ c.toUpper.toLower = c
      ∧ c.toUpper.toNat < 128 ∧ ¬ IsSep c ∧ ¬ IsSep c.toUpper) (by decide) c (isLower_lt c h) h

theorem alpha_facts (c : Char) (h : c.isAlpha = true) :
    c.toLower.isLower = true ∧ ¬ IsSep c :=
  ascii_forall (fun c => c.isAlpha = true → c.toLower.isLower = true ∧ ¬ IsSep c)
    (by decide) c (isAlpha_lt c h) h

theorem ascii_facts (c : Char) (h : c.toNat < 128) :
    c.toLower.toNat < 128 ∧ c.toUpper.toNat < 128 ∧ c.toLower.toLower = c.toLower
      ∧ c.toLower.toUpper.toLower = c.toLower ∧ (¬ IsSep c → ¬ IsSep c.toLower)
      ∧ (c ≠ '_' → c.toLower ≠ '_') ∧ (c ≠ '_' → c.toUpper ≠ '_') :=
  ascii_forall (fun c => c.toLower.toNat < 128 ∧ c.toUpper.toNat < 128
      ∧ c.toLower.toLower = c.toLower
      ∧ c.toLower.toUpper.toLower = c.toLower ∧ (¬ IsSep c → ¬ IsSep c.toLower)
      ∧ (c ≠ '_' → c.toLower ≠ '_') ∧ (c ≠ '_' → c.toUpper ≠ '_')) (by decide) c h

/-! ### The scan of one part -/

theorem chunks_notUpper (U : UnicodeTables) (a rest cur : GoString)
    (h : ∀ c ∈ a, U.IsUpper c = false) :
    chunks U cur (a ++ rest) = chunks U (cur ++ a) rest := by
  induction a generalizing cur with
  | nil => simp
  | cons c a ih =>
    have hc : U.IsUpper c = false := h c (by simp)
    have ha : ∀ d ∈ a, U.IsUpper d = false := fun d hd => h d (by simp [hd])
    have e : chunks U cur (c :: (a ++ rest)) = chunks U (cur ++ [c]) (a ++ rest) := by
      simp [chunks, hc]
    rw [List.cons_append, e, ih _ ha]
    simp

theorem chunks_upper (U : UnicodeTables) (r : Char) (rest cur : GoString)
    (h : U.IsUpper r = true) : chunks U cur (r :: rest) = cur :: chunks U [r] rest := by
  simp [chunks, h]

theorem chunks_flatten (U : UnicodeTables) (rs cur : GoString) :
    (chunks U cur rs).flatten = cur ++ rs := by
  induction rs generalizing cur with
  | nil => simp [chunks]
  | cons r rs ih =>
    unfold chunks
    split <;> simp [ih]

theorem chunks_nonempty (U : UnicodeTables) (rs cur : GoString) (hcur : cur ≠ []) :
    ∀ w ∈ chunks U cur rs, w ≠ [] := by
  induction rs generalizing cur with
  | nil => simp [chunks, hcur]
  | cons r rs ih =>
    unfold chunks
    split
    · intro w hw
      rcases List.mem_cons.mp hw with rfl | hw
      · exact hcur
      · exact ih [r] (by simp) w hw
    · exact ih _ (by simp)

theorem partWords_flatten (U : UnicodeTables) (p : GoString) : (partWords U p).flatten = p := by
  cases p with
  | nil => rfl
  | cons r rs => simp [partWords, chunks_flatten]

theorem partWords_nonempty (U : UnicodeTables) (p : GoString) : ∀ w ∈ partWords U p, w ≠ [] := by
  cases p with
  | nil => simp [partWords]
  | cons r rs => exact chunks_nonempty U rs [r] (by simp)

/-! ### Induction over the separators of a string -/

theorem sep_decompose (s : GoString) :
    (∀ c ∈ s, ¬ IsSep c) ∨
      ∃ (t : GoString) (sep : Char) (rest : GoString),
        s = t ++ sep :: rest ∧ (∀ c ∈ t, ¬ IsSep c) ∧ IsSep sep := by
  induction s with
  | nil => left; simp
  | cons c cs ih =>
    by_cases hc : IsSep c
    · right; exact ⟨[], c, cs, rfl, by simp, hc⟩
    · rcases ih with h | ⟨t, sep, rest, rfl, ht, hsep⟩
      · left
        intro d hd
        rcases List.mem_cons.mp hd with rfl | hd
        · exact hc
        · exact h d hd
      · right
        refine ⟨c :: t, sep, rest, rfl, ?_, hsep⟩
        intro d hd
        rcases List.mem_cons.mp hd with rfl | hd
        · exact hc
        · exact ht d hd

theorem sep_induction (P : GoString → Prop)
    (h1 : ∀ t : GoString, (∀ c ∈ t, ¬ IsSep c) → P t)
    (h2 : ∀ (t : GoString) (sep : Char) (rest : GoString),
      (∀ c ∈ t, ¬ IsSep c) → IsSep sep → P rest → P (t ++ sep :: rest))
    (s : GoString) : P s := by
  have key : ∀ (n : Nat) (s : GoString), s.length ≤ n → P s := by
    intro n
    induction n with
    | zero =>
      intro s hs
      have : s = [] := List.length_eq_zero.mp (by omega)
      subst this
      exact h1 [] (by simp)
    | succ n ih =>
      intro s hs
      rcases sep_decompose s with h | ⟨t, sep, rest, rfl, ht, hsep⟩
      · exact h1 s h
      · refine h2 t sep rest ht hsep (ih rest ?_)
        simp only [List.length_append, List.length_cons] at hs
        omega
  exact key s.length s (le_refl _)

theorem splitWords_flatten (U : UnicodeTables) (s : GoString) :
    (splitWords U s).flatten = s.filter fun c => ¬ IsSep c := by
  induction s using sep_induction with
  | h1 t ht =>
    rw [splitWords_token U t ht, partWords_flatten]
    exact (List.filter_eq_self.mpr (by simpa using ht)).symm
  | h2 t sep rest ht hsep ih =>
    rw [splitWords_token_sep U t rest sep ht hsep, List.flatten_append, partWords_flatten, ih,
      List.filter_append, List.filter_cons]
    simp only [hsep, not_true_eq_false, decide_False, Bool.false_eq_true, if_false]
    congr 1
    exact (List.filter_eq_self.mpr (by simpa using ht)).symm

theorem splitWords_nonempty (U : UnicodeTables) (s : GoString) :
    ∀ w ∈ splitWords U s, w ≠ [] := by
  induction s using sep_induction with
  | h1 t ht =>
    rw [splitWords_token U t ht]
    exact partWords_nonempty U t
  | h2 t sep rest ht hsep ih =>
    rw [splitWords_token_sep U t rest sep ht hsep]
    intro w hw
    rcases List.mem_append.mp hw with hw | hw
    · exact partWords_nonempty U t w hw
    · exact ih w hw

theorem splitWords_mem (U : UnicodeTables) (s : GoString) :
    ∀ w ∈ splitWords U s, ∀ c ∈ w, c ∈ s ∧ ¬ IsSep c := by
  intro w hw c hc
  have h1 : c ∈ (splitWords U s).flatten := List.mem_flatten.mpr ⟨w, hw, hc⟩
  rw [splitWords_flatten] at h1
  simpa using h1

theorem intercalate_cons_cons (sep w w' : GoString) (rest : List GoString) :
    sep.intercalate (w :: w' :: rest) = w ++ sep ++ sep.intercalate (w' :: rest) := by
  simp [List.intercalate, List.intersperse]

theorem intercalate_singleton (sep w : GoString) : sep.intercalate [w] = w := by
  simp [List.intercalate, List.intersperse]

theorem join_nil_sep (parts : List GoString) : strings.Join parts [] = parts.flatten := by
  unfold strings.Join
  induction parts with
  | nil => rfl
  | cons w rest ih =>
    cases rest with
    | nil => simp [intercalate_singleton]
    | cons w' rest => rw [intercalate_cons_cons, ih]; simp

/-! ### Words of lowercase letters -/

theorem lowerWord_notUpper (U : UnicodeTables) (w : GoString) (h : ∀ c ∈ w, c.isLower = true) :
    ∀ c ∈ w, U.IsUpper c = false := by
  intro c hc
  rw [U.isUpper_ascii c (isLower_lt c (h c hc))]
  exact (lower_facts c (h c hc)).1

theorem lowerWord_notSep (w : GoString) (h : ∀ c ∈ w, c.isLower = true) :
    ∀ c ∈ w, ¬ IsSep c := fun c hc => (lower_facts c (h c hc)).2.2.2.2.2.1

theorem toLower_lower (U : UnicodeTables) (w : GoString) (h : ∀ c ∈ w, c.isLower = true) :
    strings.ToLower U w = w := by
  unfold strings.ToLower
  conv_rhs => rw [← List.map_id w]
  apply List.map_congr_left
  intro c hc
  rw [U.toLower_ascii c (isLower_lt c (h c hc))]
  exact (lower_facts c (h c hc)).2.1

theorem toLower_capitalise (U : UnicodeTables) (w : GoString) (h : ∀ c ∈ w, c.isLower = true) :
    strings.ToLower U (capitalise w) = w := by
  cases w with
  | nil => rfl
  | cons c cs =>
    have hc := lower_facts c (h c (by simp))
    have hcs := toLower_lower U cs (fun d hd => h d (by simp [hd]))
    unfold strings.ToLower at hcs
    simp only [capitalise, strings.ToLower, List.map_cons, hcs]
    rw [U.toLower_ascii _ hc.2.2.2.2.1, hc.2.2.2.1]

theorem isSeparator_ascii (U : UnicodeTables) (c : Char) (h : c.toNat < 128) :
    strings.isSeparator U c = strings.isSeparator asciiTables c := by
  have h1 : c.toNat ≤ 0x7F := by omega
  simp only [strings.isSeparator, h1, if_true]

theorem isSeparator_lower (U : UnicodeTables) (c : Char) (h : c.isLower = true) :
    strings.isSeparator U c = false := by
  rw [isSeparator_ascii U c (isLower_lt c h)]
  exact ascii_forall (fun c => c.isLower = true → strings.isSeparator asciiTables c = false)
    (by decide) c (isLower_lt c h) h

theorem titleFrom_lower (U : UnicodeTables) (prev : Char) (w : GoString)
    (hp : prev.isLower = true) (h : ∀ c ∈ w, c.isLower = true) :
    strings.titleFrom U prev w = w := by
  induction w generalizing prev with
  | nil => rfl
  | cons c cs ih =>
    simp only [strings.titleFrom, isSeparator_lower U prev hp, Bool.false_eq_true, if_false]
    rw [ih c (h c (by simp)) (fun d hd => h d (by simp [hd]))]

theorem title_lower (U : UnicodeTables) (w : GoString) (h : ∀ c ∈ w, c.isLower = true) :
    strings.Title U w = capitalise w := by
  cases w with
  | nil => rfl
  | cons c cs =>
    have hsp : strings.isSeparator U ' ' = true := by
      rw [isSeparator_ascii U ' ' (by decide)]
      decide
    simp only [strings.Title, strings.titleFrom, hsp, if_true, capitalise]
    rw [titleFrom_lower U c cs (h c (by simp)) (fun d hd => h d (by simp [hd])),
      U.toTitle_ascii c (isLower_lt c (h c (by simp)))]

/-! ### Splitting the four spellings -/

theorem partWords_lowerWord (U : UnicodeTables) (w : GoString) (h : LowerWord w) :
    partWords U w = [w] := by
  obtain ⟨hne, hl⟩ := h
  cases w with
  | nil => exact absurd rfl hne
  | cons c cs =>
    have := chunks_notUpper U cs [] [c] (lowerWord_notUpper U cs (fun d hd => hl d (by simp [hd])))
    simp only [List.append_nil] at this
    simp [partWords, this, chunks]

theorem splitWords_intercalate (U : UnicodeTables) (sep : Char) (hsep : IsSep sep)
    (ws : List GoString) (h : ∀ w ∈ ws, LowerWord w) :
    splitWords U ([sep].intercalate ws) = ws := by
  induction ws with
  | nil =>
    have : ([sep].intercalate ([] : List GoString)) = [] := rfl
    rw [this, splitWords_token U [] (by simp)]
    rfl
  | cons w rest ih =>
    have hw : LowerWord w := h w (by simp)
    cases rest with
    | nil =>
      rw [intercalate_singleton, splitWords_token U w (lowerWord_notSep w hw.2),
        partWords_lowerWord U w hw]
    | cons w' rest =>
      rw [intercalate_cons_cons, List.append_assoc, List.singleton_append,
        splitWords_token_sep U w _ sep (lowerWord_notSep w hw.2) hsep,
        partWords_lowerWord U w hw, ih (fun v hv => h v (by simp [hv]))]
      rfl

theorem chunks_pascal (U : UnicodeTables) (ws : List GoString) (h : ∀ w ∈ ws, LowerWord w)
    (cur : GoString) : chunks U cur (pascalSpelling ws) = cur :: ws.map capitalise := by
  induction ws generalizing cur with
  | nil => simp [pascalSpelling, chunks]
  | cons w rest ih =>
    obtain ⟨hne, hl⟩ := h w (by simp)
    cases w with
    | nil => exact absurd rfl hne
    | cons c cs =>
      have hc := lower_facts c (hl c (by simp))
      have hup : U.IsUpper c.toUpper = true := by
        rw [U.isUpper_ascii _ hc.2.2.2.2.1]; exact hc.2.2.1
      have e : pascalSpelling ((c :: cs) :: rest) = c.toUpper :: (cs ++ pascalSpelling rest) := by
        simp [pascalSpelling, capitalise]
      rw [e, chunks_upper U _ _ _ hup,
        chunks_notUpper U cs _ _ (lowerWord_notUpper U cs (fun d hd => hl d (by simp [hd]))),
        ih (fun v hv => h v (by simp [hv]))]
      simp [capitalise]

theorem pascalSpelling_notSep (ws : List GoString) (h : ∀ w ∈ ws, LowerWord w) :
    ∀ c ∈ pascalSpelling ws, ¬ IsSep c := by
  intro c hc
  simp only [pascalSpelling, List.mem_flatten, List.mem_map] at hc
  obtain ⟨_, ⟨w, hw, rfl⟩, hcw⟩ := hc
  obtain ⟨_, hl⟩ := h w hw
  cases w with
  | nil => simp [capitalise] at hcw
  | cons d ds =>
    simp only [capitalise, List.mem_cons] at hcw
    rcases hcw with rfl | hcw
    · exact (lower_facts d (hl d (by simp))).2.2.2.2.2.2
    · exact (lower_facts c (hl c (by simp [hcw]))).2.2.2.2.2.1

theorem splitWords_pascal (U : UnicodeTables) (ws : List GoString) (h : ∀ w ∈ ws, LowerWord w) :
    splitWords U (pascalSpelling ws) = ws.map capitalise := by
  rw [splitWords_token U _ (pascalSpelling_notSep ws h)]
  cases ws with
  | nil => rfl
  | cons w rest =>
    obtain ⟨hne, hl⟩ := h w (by simp)
    cases w with
    | nil => exact absurd rfl hne
    | cons c cs =>
      have e : pascalSpelling ((c :: cs) :: rest) = c.toUpper :: (cs ++ pascalSpelling rest) := by
        simp [pascalSpelling, capitalise]
      rw [e]
      simp only [partWords]
      rw [chunks_notUpper U cs _ _ (lowerWord_notUpper U cs (fun d hd => hl d (by simp [hd]))),
        chunks_pascal U rest (fun v hv => h v (by simp [hv]))]
      simp [capitalise]

theorem splitWords_camel (U : UnicodeTables) (w : GoString) (rest : List GoString)
    (h : ∀ v ∈ w :: rest, LowerWord v) :
    splitWords U (camelSpelling (w :: rest)) = w :: rest.map capitalise := by
  obtain ⟨hne, hl⟩ := h w (by simp)
  cases w with
  | nil => exact absurd rfl hne
  | cons c cs =>
    have hc := lower_facts c (hl c (by simp))
    have e : camelSpelling ((c :: cs) :: rest) = c :: (cs ++ pascalSpelling rest) := by
      simp [camelSpelling, lowerFirst, pascalSpelling, capitalise, hc.2.2.2.1]
    have hns : ∀ d ∈ c :: (cs ++ pascalSpelling rest), ¬ IsSep d := by
      intro d hd
      rcases List.mem_cons.mp hd with rfl | hd
      · exact hc.2.2.2.2.2.1
      · rcases List.mem_append.mp hd with hd | hd
        · exact (lower_facts d (hl d (by simp [hd]))).2.2.2.2.2.1
        · exact pascalSpelling_notSep rest (fun v hv => h v (by simp [hv])) d hd
    rw [e, splitWords_token U _ hns]
    simp only [partWords]
    rw [chunks_notUpper U cs _ _ (lowerWord_notUpper U cs (fun d hd => hl d (by simp [hd]))),
      chunks_pascal U rest (fun v hv => h v (by simp [hv]))]
    simp

theorem forms_of_words (U : UnicodeTables) (s : GoString) (ws : List GoString)
    (hs : (splitWords U s).map (strings.ToLower U) = ws) (hw : ∀ w ∈ ws, LowerWord w) :
    toSnakeCase U s = snakeSpelling ws ∧ toKebabCase U s = kebabSpelling ws
      ∧ toPascalCase U s = pascalSpelling ws ∧ toCamelCase U s = camelSpelling ws := by
  have hp : toPascalCase U s = pascalSpelling ws := by
    simp only [toPascalCase, join_nil_sep, pascalSpelling]
    rw [← hs, List.map_map]
    congr 1
    apply List.map_congr_left
    intro p hp
    have : LowerWord (strings.ToLower U p) := hw _ (by rw [← hs]; exact List.mem_map_of_mem _ hp)
    simp only [Function.comp]
    exact title_lower U _ this.2
  refine ⟨?_, ?_, hp, ?_⟩
  · simp only [toSnakeCase, strings.Join, snakeSpelling, hs]
  · simp only [toKebabCase, strings.Join, kebabSpelling, hs]
  · simp only [toCamelCase, hp, camelSpelling]
    cases ws with
    | nil => rfl
    | cons w rest =>
      obtain ⟨hne, hl⟩ := hw w (by simp)
      cases w with
      | nil => exact absurd rfl hne
      | cons c cs =>
        have hc := lower_facts c (hl c (by simp))
        simp only [pascalSpelling, List.map_cons, capitalise, List.flatten_cons, List.cons_append,
          lowerFirst]
        rw [U.toLower_ascii _ hc.2.2.2.2.1]

theorem map_toLower_lowerWords (U : UnicodeTables) (ws : List GoString)
    (hw : ∀ w ∈ ws, LowerWord w) : ws.map (strings.ToLower U) = ws := by
  conv_rhs => rw [← List.map_id ws]
  apply List.map_congr_left
  intro w h
  exact toLower_lower U w (hw w h).2

theorem map_toLower_capitalise (U : UnicodeTables) (ws : List GoString)
    (hw : ∀ w ∈ ws, LowerWord w) : (ws.map capitalise).map (strings.ToLower U) = ws := by
  rw [List.map_map]
  conv_rhs => rw [← List.map_id ws]
  apply List.map_congr_left
  intro w h
  exact toLower_capitalise U w (hw w h).2

theorem splitWords_snake (U : UnicodeTables) (ws : List GoString) (h : ∀ w ∈ ws, LowerWord w) :
    splitWords U (snakeSpelling ws) = ws := splitWords_intercalate U '_' (Or.inl rfl) ws h

theorem splitWords_kebab (U : UnicodeTables) (ws : List GoString) (h : ∀ w ∈ ws, LowerWord w) :
    splitWords U (kebabSpelling ws) = ws := splitWords_intercalate U '-' (Or.inr rfl) ws h

/-- The words of a string of ASCII letters and separators, lowercased, are words
of lowercase letters. -/
theorem lowerWords_of_alpha (U : UnicodeTables) (x : GoString)
    (hx : ∀ c ∈ x, c.isAlpha = true ∨ IsSep c) :
    ∀ w ∈ (splitWords U x).map (strings.ToLower U), LowerWord w := by
  intro w hw
  obtain ⟨p, hp, rfl⟩ := List.mem_map.mp hw
  constructor
  · have := splitWords_nonempty U x p hp
    simpa [strings.ToLower] using this
  · intro c hc
    simp only [strings.ToLower, List.mem_map] at hc
    obtain ⟨d, hd, rfl⟩ := hc
    obtain ⟨hdx, hds⟩ := splitWords_mem U x p hp d hd
    have hda : d.isAlpha = true := (hx d hdx).resolve_right hds
    rw [U.toLower_ascii d (isAlpha_lt d hda)]
    exact (alpha_facts d hda).1

/-- C1: for every string `x` made only of ASCII letters and the separators `_`
and `-`, `toSnakeCase (toPascalCase (toSnakeCase x))` equals `toSnakeCase x`. -/
theorem snake_pascal_snake (U : UnicodeTables) (x : GoString)
    (hx : ∀ c ∈ x, c.isAlpha = true ∨ c = '_' ∨ c = '-') :
    toSnakeCase U (toPascalCase U (toSnakeCase U x)) = toSnakeCase U x := by
  have hw := lowerWords_of_alpha U x hx
  have h1 := (forms_of_words U x _ rfl hw).1
  have h2 := (forms_of_words U _ _
    (by rw [splitWords_snake U _ hw, map_toLower_lowerWords U _ hw]) hw).2.2.1
  have h3 := (forms_of_words U _ _
    (by rw [splitWords_pascal U _ hw, map_toLower_capitalise U _ hw]) hw).1
  rw [h1, h2, h3]

/-- The round trip of C1 at the input "Order-itemID_x". -/
theorem snake_pascal_snake_witness :
    (∀ c ∈ "Order-itemID_x".toList, c.isAlpha = true ∨ c = '_' ∨ c = '-') ∧
    toSnakeCase asciiTables "Order-itemID_x".toList = "order_item_i_d_x".toList ∧
    toSnakeCase asciiTables (toPascalCase asciiTables (toSnakeCase asciiTables "Order-itemID_x".toList))
      = toSnakeCase asciiTables "Order-itemID_x".toList :=
  ⟨by decide, by decide, snake_pascal_snake asciiTables _ (by decide)⟩

/-- C2: for every list `ws` of non-empty words of lowercase ASCII letters (the
empty list included), each of its four spellings (snake, kebab, Pascal, camel) is
converted by `toSnakeCase`, `toKebabCase`, `toPascalCase` and `toCamelCase` to the
snake, kebab, Pascal and camel spelling of `ws`; in particular "order-item" gives
Pascal "OrderItem", camel "orderItem", snake "order_item", kebab "order-item". -/
theorem spellings_converted (U : UnicodeTables) (ws : List GoString)
    (hw : ∀ w ∈ ws, LowerWord w) :
    (∀ sp ∈ [snakeSpelling ws, kebabSpelling ws, pascalSpelling ws, camelSpelling ws],
      toSnakeCase U sp = snakeSpelling ws ∧ toKebabCase U sp = kebabSpelling ws
        ∧ toPascalCase U sp = pascalSpelling ws ∧ toCamelCase U sp = camelSpelling ws) ∧
    toPascalCase U "order-item".toList = "OrderItem".toList ∧
    toCamelCase U "order-item".toList = "orderItem".toList ∧
    toSnakeCase U "order-item".toList = "order_item".toList ∧
    toKebabCase U "order-item".toList = "order-item".toList := by
  have key : ∀ vs : List GoString, (∀ w ∈ vs, LowerWord w) →
      ∀ sp ∈ [snakeSpelling vs, kebabSpelling vs, pascalSpelling vs, camelSpelling vs],
      toSnakeCase U sp = snakeSpelling vs ∧ toKebabCase U sp = kebabSpelling vs
        ∧ toPascalCase U sp = pascalSpelling vs ∧ toCamelCase U sp = camelSpelling vs := by
    intro vs hv sp hsp
    apply forms_of_words U sp vs _ hv
    simp only [List.mem_cons, List.mem_singleton, List.not_mem_nil, or_false] at hsp
    rcases hsp with rfl | rfl | rfl | rfl
    · rw [splitWords_snake U _ hv, map_toLower_lowerWords U _ hv]
    · rw [splitWords_kebab U _ hv, map_toLower_lowerWords U _ hv]
    · rw [splitWords_pascal U _ hv, map_toLower_capitalise U _ hv]
    · cases vs with
      | nil =>
        have : camelSpelling [] = [] := rfl
        rw [this, splitWords_token U [] (by simp)]
        rfl
      | cons w rest =>
        rw [splitWords_camel U w rest hv, List.map_cons,
          map_toLower_capitalise U rest (fun v h => hv v (by simp [h])),
          toLower_lower U w (hv w (by simp)).2]
  refine ⟨key ws hw, ?_⟩
  have ex := key ["order".toList, "item".toList] (by decide) (kebabSpelling ["order".toList, "item".toList])
    (by simp)
  exact ⟨ex.2.2.1, ex.2.2.2, ex.1, ex.2.1⟩

/-- The conversions of C2 at the words "user", "login", "log". -/
theorem spellings_converted_witness :
    (∀ w ∈ ["user".toList, "login".toList, "log".toList], LowerWord w) ∧
    camelSpelling ["user".toList, "login".toList, "log".toList] = "userLoginLog".toList ∧
    toSnakeCase asciiTables "userLoginLog".toList = "user_login_log".toList ∧
    toKebabCase asciiTables "UserLoginLog".toList = "user-login-log".toList :=
  ⟨by decide, by decide,
    ((spellings_converted asciiTables ["user".toList, "login".toList, "log".toList]
      (by decide)).1 "userLoginLog".toList (by decide)).1,
    ((spellings_converted asciiTables ["user".toList, "login".toList, "log".toList]
      (by decide)).1 "UserLoginLog".toList (by decide)).2.1⟩

/-! ### Consistency of the derived forms -/

theorem map_intercalate_noSep (f : Char → Char) (a b : Char) (hf : f a = b)
    (ws : List GoString) (h : ∀ w ∈ ws, ∀ c ∈ w, f c = c) :
    ([a].intercalate ws).map f = [b].intercalate ws := by
  have hmap : ∀ w ∈ ws, w.map f = w := by
    intro w hw
    conv_rhs => rw [← List.map_id w]
    exact List.map_congr_left (h w hw)
  induction ws with
  | nil => rfl
  | cons w rest ih =>
    cases rest with
    | nil => simp only [intercalate_singleton]; exact hmap w (by simp)
    | cons w' rest =>
      rw [intercalate_cons_cons, intercalate_cons_cons, List.map_append, List.map_append,
        ih (fun v hv => h v (by simp [hv])) (fun v hv => hmap v (by simp [hv])),
        hmap w (by simp)]
      simp [hf]

theorem filter_intercalate_noSep (a : Char) (ws : List GoString) (h : ∀ w ∈ ws, a ∉ w) :
    ([a].intercalate ws).filter (fun c => c ≠ a) = ws.flatten := by
  have hfil : ∀ w ∈ ws, w.filter (fun c => c ≠ a) = w := by
    intro w hw
    apply List.filter_eq_self.mpr
    intro c hc
    have : c ≠ a := fun e => h w hw (e ▸ hc)
    simpa using this
  induction ws with
  | nil => rfl
  | cons w rest ih =>
    cases rest with
    | nil => simp only [intercalate_singleton]; simpa using hfil w (by simp)
    | cons w' rest =>
      rw [intercalate_cons_cons, List.filter_append, List.filter_append,
        ih (fun v hv => h v (by simp [hv])) (fun v hv => hfil v (by simp [hv])),
        hfil w (by simp)]
      simp

/-- The lowercased words of an ASCII string hold only ASCII runes, none of them
a separator. -/
theorem lowered_words_ascii (U : UnicodeTables) (s : GoString) (hs : ∀ c ∈ s, c.toNat < 128) :
    ∀ w ∈ (splitWords U s).map (strings.ToLower U), ∀ c ∈ w, c.toNat < 128 ∧ ¬ IsSep c := by
  intro w hw c hc
  obtain ⟨p, hp, rfl⟩ := List.mem_map.mp hw
  simp only [strings.ToLower, List.mem_map] at hc
  obtain ⟨d, hd, rfl⟩ := hc
  obtain ⟨hdx, hds⟩ := splitWords_mem U s p hp d hd
  have hda := hs d hdx
  rw [U.toLower_ascii d hda]
  exact ⟨(ascii_facts d hda).1, (ascii_facts d hda).2.2.2.2.1 hds⟩

theorem toLower_titleFrom (U : UnicodeTables) (prev : Char) (p : GoString)
    (hp : ∀ c ∈ p, c.toNat < 128) :
    strings.ToLower U (strings.titleFrom U prev (strings.ToLower U p)) = strings.ToLower U p := by
  induction p generalizing prev with
  | nil => rfl
  | cons c cs ih =>
    have hc := hp c (by simp)
    have hf := ascii_facts c hc
    have ih' := ih (U.ToLower c) (fun d hd => hp d (by simp [hd]))
    simp only [strings.ToLower] at ih' ⊢
    simp only [List.map_cons, strings.titleFrom, ih', List.cons.injEq, and_true]
    rw [U.toLower_ascii c hc]
    split
    · rw [U.toTitle_ascii _ hf.1, U.toLower_ascii _ (ascii_facts _ hf.1).2.1]
      exact hf.2.2.2.1
    · rw [U.toLower_ascii _ hf.1]
      exact hf.2.2.1

theorem toCamelCase_ascii_head (U : UnicodeTables) (s : GoString) (hs : ∀ c ∈ s, c.toNat < 128) :
    ∀ c ∈ toPascalCase U s, c.toNat < 128 := by
  intro c hc
  simp only [toPascalCase, join_nil_sep, List.mem_flatten, List.mem_map] at hc
  obtain ⟨_, ⟨p, hp, rfl⟩, hcp⟩ := hc
  have hlow : ∀ d ∈ strings.ToLower U p, d.toNat < 128 := fun d hd =>
    (lowered_words_ascii U s hs _ (List.mem_map_of_mem _ hp) d hd).1
  have key : ∀ (prev : Char) (q : GoString), (∀ d ∈ q, d.toNat < 128) →
      ∀ d ∈ strings.titleFrom U prev q, d.toNat < 128 := by
    intro prev q
    induction q generalizing prev with
    | nil => simp [strings.titleFrom]
    | cons e es ih =>
      intro hq d hd
      simp only [strings.titleFrom, List.mem_cons] at hd
      rcases hd with rfl | hd
      · split
        · rw [U.toTitle_ascii e (hq e (by simp))]
          exact (ascii_facts e (hq e (by simp))).2.1
        · exact hq _ (by simp)
      · exact ih e (fun x hx => hq x (by simp [hx])) d hd
  exact key ' ' _ hlow c hcp

/-- C6: for every ASCII input `s`, `toKebabCase s` is `toSnakeCase s` with every
`_` replaced by `-`; `toCamelCase s` is `toPascalCase s` with its first rune
lowercased (and is empty when `toPascalCase s` is empty); and lowercasing
`toPascalCase s` gives `toSnakeCase s` with every `_` removed. -/
theorem forms_consistent (U : UnicodeTables) (s : GoString) (hs : ∀ c ∈ s, c.toNat < 128) :
    toKebabCase U s = strings.ReplaceAll (toSnakeCase U s) '_' '-' ∧
    toCamelCase U s = lowerFirst (toPascalCase U s) ∧
    (toPascalCase U s = [] → toCamelCase U s = []) ∧
    strings.ToLower U (toPascalCase U s) = (toSnakeCase U s).filter (fun c => c ≠ '_') := by
  have hw := lowered_words_ascii U s hs
  refine ⟨?_, ?_, ?_, ?_⟩
  · simp only [toKebabCase, toSnakeCase, strings.Join, strings.ReplaceAll]
    refine (map_intercalate_noSep _ '_' '-' (by simp) _ ?_).symm
    intro w hw' c hc
    have : c ≠ '_' := fun e => (hw w hw' c hc).2 (Or.inl e)
    simp [this]
  · have ha := toCamelCase_ascii_head U s hs
    simp only [toCamelCase]
    cases h : toPascalCase U s with
    | nil => rfl
    | cons c cs =>
      simp only [lowerFirst]
      rw [U.toLower_ascii c (ha c (by simp [h]))]
  · intro h
    simp only [toCamelCase, h]
  · have e1 : toPascalCase U s
        = ((splitWords U s).map fun p => strings.Title U (strings.ToLower U p)).flatten :=
      join_nil_sep _
    have e2 : toSnakeCase U s = ['_'].intercalate ((splitWords U s).map (strings.ToLower U)) :=
      rfl
    rw [e1, e2, filter_intercalate_noSep '_' _ (fun w hw' hc => (hw w hw' _ hc).2 (Or.inl rfl))]
    simp only [strings.ToLower, List.map_flatten, List.map_map]
    congr 1
    apply List.map_congr_left
    intro p hp
    have hpa : ∀ c ∈ p, c.toNat < 128 := fun c hc => hs c (splitWords_mem U s p hp c hc).1
    have := toLower_titleFrom U ' ' p hpa
    simpa [strings.ToLower, strings.Title] using this

/-- The relations of C6 at the input "http2Server_v1-beta". -/
theorem forms_consistent_witness :
    (∀ c ∈ "http2Server_v1-beta".toList, c.toNat < 128) ∧
    toSnakeCase asciiTables "http2Server_v1-beta".toList = "http2_server_v1_beta".toList ∧
    toKebabCase asciiTables "http2Server_v1-beta".toList = "http2-server-v1-beta".toList ∧
    toPascalCase asciiTables "http2Server_v1-beta".toList = "Http2ServerV1Beta".toList ∧
    toCamelCase asciiTables "http2Server_v1-beta".toList
      = lowerFirst (toPascalCase asciiTables "http2Server_v1-beta".toList) :=
  ⟨by decide, by decide, by decide, by decide,
    (forms_consistent asciiTables "http2Server_v1-beta".toList (by decide)).2.1⟩

/-! ### Where a token is cut -/

theorem cutPositionsFrom_cons (off : Nat) (w : GoString) (ws : List GoString) (h : ws ≠ []) :
    cutPositionsFrom off (w :: ws)
      = (off + w.length) :: cutPositionsFrom (off + w.length) ws := by
  cases ws with
  | nil => exact absurd rfl h
  | cons w' ws => rfl

theorem filter_range_succ (p : Nat → Bool) (n : Nat) :
    (List.range (n + 1)).filter p
      = (if p 0 then [0] else []) ++ ((List.range n).filter fun i => p (i + 1)).map (· + 1) := by
  rw [List.range_succ_eq_map, List.filter_cons, List.filter_map]
  have : (p ∘ Nat.succ) = fun i => p (i + 1) := rfl
  rw [this]
  split <;> rfl

theorem cutPositionsFrom_chunks (U : UnicodeTables) (rs cur : GoString) (off : Nat) :
    cutPositionsFrom off (chunks U cur rs)
      = ((List.range rs.length).filter fun i => U.IsUpper (rs.getD i ' ')).map
          fun i => off + cur.length + i := by
  induction rs generalizing cur off with
  | nil => simp [chunks, cutPositionsFrom]
  | cons r rs ih =>
    rw [List.length_cons, filter_range_succ]
    simp only [List.getD_cons_zero, List.getD_cons_succ, List.map_append, List.map_map]
    by_cases hr : U.IsUpper r = true
    · rw [chunks_upper U r rs cur hr, cutPositionsFrom_cons _ _ _ (chunks_ne_nil U rs [r]), ih]
      simp only [hr, if_true, List.map_cons, List.map_nil, Nat.add_zero, List.length_singleton,
        List.singleton_append]
      congr 1
      apply List.map_congr_left
      intro i _
      simp only [Function.comp]
      omega
    · have e : chunks U cur (r :: rs) = chunks U (cur ++ [r]) rs := by simp [chunks, hr]
      rw [e, ih]
      simp only [hr, Bool.false_eq_true, if_false, List.length_append,
        List.length_singleton, List.map_nil, List.nil_append]
      apply List.map_congr_left
      intro i _
      simp only [Function.comp]
      omega

theorem cutPositions_partWords (U : UnicodeTables) (t : GoString) :
    cutPositions (partWords U t) = boundaries (fun _ c => U.IsUpper c) t := by
  cases t with
  | nil => rfl
  | cons r rs =>
    simp only [cutPositions, partWords, cutPositionsFrom_chunks, boundaries, List.length_cons]
    rw [filter_range_succ]
    simp only [lt_self_iff_false, decide_False, Bool.false_and, Bool.false_eq_true, if_false,
      List.nil_append, List.getD_cons_succ, Nat.zero_lt_succ, decide_True, Bool.true_and,
      List.length_singleton, List.length_nil]
    apply List.map_congr_left
    intro i _
    omega

/-- C5, as amended: for every token `t` that contains no `_` or `-`, the words of
`splitWords t` are non-empty, concatenate to `t`, and cut `t` exactly at the
positions other than the token start that hold an uppercase rune, whatever
precedes it. -/
theorem splitWords_token_cuts (U : UnicodeTables) (t : GoString)
    (ht : ∀ c ∈ t, c ≠ '_' ∧ c ≠ '-') :
    (splitWords U t).flatten = t ∧ (∀ w ∈ splitWords U t, w ≠ []) ∧
      cutPositions (splitWords U t) = boundaries (fun _ c => U.IsUpper c) t := by
  have h : ∀ c ∈ t, ¬ IsSep c := fun c hc hs => by
    rcases hs with e | e
    · exact (ht c hc).1 e
    · exact (ht c hc).2 e
  rw [splitWords_token U t h]
  exact ⟨partWords_flatten U t, partWords_nonempty U t, cutPositions_partWords U t⟩

/-- The cuts of C5 (amended) at the token "userIDCard". -/
theorem splitWords_token_cuts_witness :
    (∀ c ∈ "userIDCard".toList, c ≠ '_' ∧ c ≠ '-') ∧
    splitWords asciiTables "userIDCard".toList
      = ["user".toList, "I".toList, "D".toList, "Card".toList] ∧
    cutPositions (splitWords asciiTables "userIDCard".toList) = [4, 5, 6] ∧
    cutPositions (splitWords asciiTables "userIDCard".toList)
      = boundaries (fun _ c => asciiTables.IsUpper c) "userIDCard".toList :=
  ⟨by decide, by decide, by decide,
    (splitWords_token_cuts asciiTables "userIDCard".toList (by decide)).2.2⟩

/-- C5 as stated fails: "userID" is cut at offsets 4 and 5, into "user", "I",
"D", although only at offset 4 does an uppercase letter follow a lowercase one. -/
theorem splitWords_cuts_counterexample :
    splitWords asciiTables "userID".toList = ["user".toList, "I".toList, "D".toList] ∧
    boundaries (fun p c => p.isLower && asciiTables.IsUpper c) "userID".toList = [4] ∧
    cutPositions (splitWords asciiTables "userID".toList)
      ≠ boundaries (fun p c => p.isLower && asciiTables.IsUpper c) "userID".toList := by
  decide

/-! ### The plural form in the naming record -/

theorem toLower_ascii_string (U : UnicodeTables) (s : GoString) (hs : ∀ c ∈ s, c.toNat < 128) :
    strings.ToLower U s = strings.ToLower asciiTables s := by
  unfold strings.ToLower
  apply List.map_congr_left
  intro c hc
  exact U.toLower_ascii c (hs c hc)

/-- For the raw input "order-item" and every Unicode table, `main` computes the
field `PluralName` as "order-items". -/
theorem pluralName_order_item (U : UnicodeTables) (fs : FS) (cn modulePath : GoString) :
    (mainModuleData U fs "order-item".toList cn modulePath).PluralName = "order-items".toList := by
  simp only [mainModuleData]
  rw [toLower_ascii_string U _ (by decide)]
  decide

set_option maxRecDepth 100000 in
/-- C4, evaluated at the raw input "order-item": the field `PluralName` is
"order-items", not "order_items" (the snake form is "order_item"), and the route
snippet uses it as the name of a Go variable, in the line
`order-items := authorized.Group("/order-items")`. -/
theorem pluralName_hyphen_in_route :
    (mainModuleData asciiTables (fun _ => none) "order-item".toList [] []).PluralName
      = "order-items".toList ∧
    (mainModuleData asciiTables (fun _ => none) "order-item".toList [] []).PluralName
      ≠ "order_items".toList ∧
    (mainModuleData asciiTables (fun _ => none) "order-item".toList [] []).SnakeName
      = "order_item".toList ∧
    strings.Contains (routeCode (mainModuleData asciiTables (fun _ => none) "order-item".toList [] []))
      "\t\t\torder-items := authorized.Group(\"/order-items\")\n".toList = true := by
  decide

/-! ### Occurrences of a substring -/

theorem contains_iff (s sub : GoString) : strings.Contains s sub = true ↔ sub <:+: s := by
  induction s with
  | nil =>
    simp only [strings.Contains, List.isPrefixOf_iff_prefix]
    constructor
    · intro h; exact h.isInfix
    · intro h; exact List.infix_nil.mp h ▸ List.prefix_refl _
  | cons c cs ih =>
    simp only [strings.Contains, Bool.or_eq_true, List.isPrefixOf_iff_prefix, ih,
      List.infix_cons_iff]

theorem replaceFirst_cons_neg (c : Char) (cs old new : GoString) (h : ¬ old <+: c :: cs) :
    strings.ReplaceFirst (c :: cs) old new = c :: strings.ReplaceFirst cs old new := by
  have hp : old.isPrefixOf (c :: cs) = false := by
    rw [Bool.eq_false_iff]
    intro e
    exact h (List.isPrefixOf_iff_prefix.mp e)
  rw [strings.ReplaceFirst, hp]
  rfl

theorem countOccurrences_cons (c : Char) (cs pat : GoString) :
    countOccurrences (c :: cs) pat
      = (if pat <+: c :: cs then 1 else 0) + countOccurrences cs pat := by
  rw [countOccurrences]
  congr 1
  by_cases h : pat <+: c :: cs
  · rw [if_pos h, if_pos (List.isPrefixOf_iff_prefix.mpr h)]
  · rw [if_neg h, if_neg (fun e => h (List.isPrefixOf_iff_prefix.mp e))]

theorem countOccurrences_nil (pat : GoString) (hne : pat ≠ []) :
    countOccurrences [] pat = 0 := by
  rw [countOccurrences, if_neg]
  intro e
  exact hne (List.prefix_nil.mp (List.isPrefixOf_iff_prefix.mp e))

theorem firstOccurrence_exists (s old : GoString) (h : old <:+: s) :
    ∃ pre post, FirstOccurrence s pre old post := by
  induction s with
  | nil =>
    have : old = [] := List.infix_nil.mp h
    subst this
    exact ⟨[], [], rfl, by simp⟩
  | cons c cs ih =>
    by_cases hp : old <+: c :: cs
    · obtain ⟨post, hpost⟩ := hp
      exact ⟨[], post, by simp [hpost], by simp⟩
    · have hcs : old <:+: cs := (List.infix_cons_iff.mp h).resolve_left hp
      obtain ⟨pre, post, h1, h2⟩ := ih hcs
      refine ⟨c :: pre, post, by simp [h1], ?_⟩
      intro k hk
      cases k with
      | zero => simpa using hp
      | succ k =>
        simp only [List.drop_succ_cons]
        exact h2 k (by simpa using hk)

theorem firstOccurrence_isInfix (s pre old post : GoString) (h : FirstOccurrence s pre old post) :
    old <:+: s := ⟨pre, post, h.1.symm⟩

theorem firstOccurrence_cons (c : Char) (pre old post : GoString)
    (h : FirstOccurrence (c :: pre ++ old ++ post) (c :: pre) old post) :
    ¬ old <+: c :: (pre ++ old ++ post) ∧ FirstOccurrence (pre ++ old ++ post) pre old post := by
  obtain ⟨_, h2⟩ := h
  constructor
  · have := h2 0 (by simp)
    simpa using this
  · refine ⟨rfl, ?_⟩
    intro k hk
    have := h2 (k + 1) (by simpa using hk)
    simpa using this

theorem replaceFirst_first (new : GoString) (s pre old post : GoString)
    (h : FirstOccurrence s pre old post) :
    strings.ReplaceFirst s old new = pre ++ new ++ post := by
  induction pre generalizing s with
  | nil =>
    obtain ⟨h1, _⟩ := h
    simp only [List.nil_append] at h1
    subst h1
    have hp : old.isPrefixOf (old ++ post) = true :=
      List.isPrefixOf_iff_prefix.mpr (List.prefix_append _ _)
    cases hs : old ++ post with
    | nil =>
      have e1 : old = [] := (List.append_eq_nil.mp hs).1
      have e2 : post = [] := (List.append_eq_nil.mp hs).2
      subst e1 e2
      simp [strings.ReplaceFirst]
    | cons c cs =>
      rw [hs] at hp
      simp only [strings.ReplaceFirst, hp, if_true, List.nil_append]
      rw [← hs, List.drop_left]
  | cons c pre ih =>
    have h1 := h.1
    subst h1
    obtain ⟨hnp, hrest⟩ := firstOccurrence_cons c pre old post h
    rw [show c :: pre ++ old ++ post = c :: (pre ++ old ++ post) by rfl,
      replaceFirst_cons_neg c _ old new hnp, ih _ hrest]
    rfl

theorem replaceFirst_absent (new : GoString) (s old : GoString) (h : ¬ old <:+: s) :
    strings.ReplaceFirst s old new = s := by
  induction s with
  | nil =>
    have hp : old.isPrefixOf ([] : GoString) = false := by
      rw [Bool.eq_false_iff]
      intro e
      exact h (List.isPrefixOf_iff_prefix.mp e).isInfix
    simp [strings.ReplaceFirst, hp]
  | cons c cs ih =>
    have hp : old.isPrefixOf (c :: cs) = false := by
      rw [Bool.eq_false_iff]
      intro e
      exact h (List.isPrefixOf_iff_prefix.mp e).isInfix
    have hcs : ¬ old <:+: cs := fun e => h (List.infix_cons_iff.mpr (Or.inr e))
    simp [strings.ReplaceFirst, hp, ih hcs]

theorem countOccurrences_eq_zero (s pat : GoString) (h : ¬ pat <:+: s) :
    countOccurrences s pat = 0 := by
  induction s with
  | nil =>
    have hp : pat.isPrefixOf ([] : GoString) = false := by
      rw [Bool.eq_false_iff]
      intro e
      exact h (List.isPrefixOf_iff_prefix.mp e).isInfix
    simp [countOccurrences, hp]
  | cons c cs ih =>
    have hp : pat.isPrefixOf (c :: cs) = false := by
      rw [Bool.eq_false_iff]
      intro e
      exact h (List.isPrefixOf_iff_prefix.mp e).isInfix
    have hcs : ¬ pat <:+: cs := fun e => h (List.infix_cons_iff.mpr (Or.inr e))
    simp [countOccurrences, hp, ih hcs]

theorem countOccurrences_pos (s pat : GoString) (h : pat <:+: s) :
    0 < countOccurrences s pat := by
  by_contra hc
  induction s with
  | nil =>
    have : pat = [] := List.infix_nil.mp h
    subst this
    simp [countOccurrences] at hc
  | cons c cs ih =>
    simp only [countOccurrences, not_lt, Nat.le_zero, Nat.add_eq_zero] at hc
    rcases List.infix_cons_iff.mp h with hp | hi
    · have := List.isPrefixOf_iff_prefix.mpr hp
      simp [this] at hc
    · exact ih hi (by omega)

/-- A rune that does not occur in the pattern separates the occurrences. -/
theorem prefix_append_sep (pat a b : GoString) (x : Char) (hx : x ∉ pat) :
    pat <+: a ++ x :: b ↔ pat <+: a := by
  constructor
  · intro h
    by_cases hl : pat.length ≤ a.length
    · exact List.prefix_of_prefix_length_le h (List.prefix_append _ _) hl
    · exfalso
      have h1 : a ++ [x] <+: a ++ x :: b := by
        rw [show a ++ x :: b = (a ++ [x]) ++ b by simp]
        exact List.prefix_append _ _
      have h2 : a ++ [x] <+: pat :=
        List.prefix_of_prefix_length_le h1 h (by simp; omega)
      exact hx (h2.subset (by simp))
  · intro h
    exact h.trans (List.prefix_append _ _)

theorem countOccurrences_sep (pat a b : GoString) (x : Char) (hx : x ∉ pat) (hne : pat ≠ []) :
    countOccurrences (a ++ x :: b) pat = countOccurrences a pat + countOccurrences b pat := by
  induction a with
  | nil =>
    have hp : ¬ pat <+: x :: b := by
      intro e
      have := (prefix_append_sep pat [] b x hx).mp e
      exact hne (List.prefix_nil.mp this)
    rw [List.nil_append, countOccurrences_cons, if_neg hp, countOccurrences_nil pat hne]
  | cons c cs ih =>
    rw [List.cons_append, countOccurrences_cons, countOccurrences_cons, ih]
    have e : (pat <+: c :: (cs ++ x :: b)) ↔ (pat <+: c :: cs) :=
      prefix_append_sep pat (c :: cs) b x hx
    by_cases h : pat <+: c :: cs
    · rw [if_pos h, if_pos (e.mpr h)]
      omega
    · rw [if_neg h, if_neg (fun k => h (e.mp k))]
      omega

theorem countOccurrences_first (s pre pat post : GoString) (hne : pat ≠ [])
    (h : FirstOccurrence s pre pat post) :
    countOccurrences s pat = countOccurrences (pat ++ post) pat ∧ countOccurrences pre pat = 0 := by
  induction pre generalizing s with
  | nil =>
    obtain ⟨h1, _⟩ := h
    subst h1
    exact ⟨by simp, countOccurrences_nil pat hne⟩
  | cons c pre ih =>
    have h1 := h.1
    subst h1
    obtain ⟨hnp, hrest⟩ := firstOccurrence_cons c pre pat post h
    have hp2 : ¬ pat <+: c :: pre := by
      intro e
      apply hnp
      have := e.trans (List.prefix_append (c :: pre) (pat ++ post))
      simpa using this
    obtain ⟨i1, i2⟩ := ih _ hrest
    rw [show c :: pre ++ pat ++ post = c :: (pre ++ pat ++ post) by rfl,
      countOccurrences_cons, countOccurrences_cons, if_neg hnp, if_neg hp2, i1, i2]
    simp

/-! ### The two injections -/

set_option maxRecDepth 100000 in
theorem routeCode_eq (data : ModuleData) :
    routeCode data = '\t' :: ("\t\t// ".toList ++ (data.PascalName ++ (" module\n\t\t\t".toList ++
      (data.CamelName ++ ("Handler := New".toList ++ (data.PascalName ++ ("Handler(".toList ++
      (data.CamelName ++ ("Svc)\n\t\t\t".toList ++ (data.PluralName ++
      (" := authorized.Group(\"/".toList ++ (data.PluralName ++ ("\")\n\t\t\t\x7b\n\t\t\t\t".toList ++
      (data.PluralName ++ (".GET(\"\", ".toList ++ (data.CamelName ++
      ("Handler.List)\n\t\t\t\t".toList ++ (data.PluralName ++ (".POST(\"\", ".toList ++
      (data.CamelName ++ ("Handler.Create)\n\t\t\t\t".toList ++ (data.PluralName ++
      (".GET(\"/:id\", ".toList ++ (data.CamelName ++ ("Handler.Get)\n\t\t\t\t".toList ++
      (data.PluralName ++ (".PUT(\"/:id\", ".toList ++ (data.CamelName ++
      ("Handler.Update)\n\t\t\t\t".toList ++ (data.PluralName ++ (".DELETE(\"/:id\", ".toList ++
      (data.CamelName ++ "Handler.Delete)\n\t\t\t\x7d\n\n\t\t\t".toList)))))))))))))))))))))))))))))))) := rfl

theorem migrationCode_eq (data : ModuleData) :
    migrationCode data = '\t' :: ("\t&model.".toList ++ (data.PascalName ++ "\x7b\x7d,\n\t\t".toList)) :=
  rfl

theorem routeCode_ne_nil (data : ModuleData) : routeCode data ≠ [] := by
  rw [routeCode_eq]; exact List.cons_ne_nil _ _

theorem migrationCode_ne_nil (data : ModuleData) : migrationCode data ≠ [] := by
  rw [migrationCode_eq]; exact List.cons_ne_nil _ _

theorem insert_ne (pre code marker post : GoString) (h : code ≠ []) :
    pre ++ (code ++ marker) ++ post ≠ pre ++ marker ++ post := by
  intro e
  have := congrArg List.length e
  simp only [List.length_append] at this
  have : code.length = 0 := by omega
  exact h (List.length_eq_zero.mp this)

theorem appendRoute_found (data : ModuleData) (fs : FS) (content pre post : GoString)
    (hread : fs routerFile = some content) (h : FirstOccurrence content pre routeMarker post) :
    appendRoute data fs
      = (.ok (), fs.write routerFile (pre ++ routeCode data ++ routeMarker ++ post)) := by
  have hr := replaceFirst_first (routeCode data ++ routeMarker) content pre routeMarker post h
  have hne : strings.ReplaceFirst content routeMarker (routeCode data ++ routeMarker) ≠ content := by
    rw [hr]
    conv_rhs => rw [h.1]
    exact insert_ne _ _ _ _ (routeCode_ne_nil data)
  unfold appendRoute
  simp only [os.ReadFile, hread]
  rw [if_neg hne, hr]
  simp only [os.WriteFile, List.append_assoc]

theorem appendRoute_missing (data : ModuleData) (fs : FS) (content : GoString)
    (hread : fs routerFile = some content) (h : ¬ routeMarker <:+: content) :
    appendRoute data fs = (.error (.errorf "route marker comment not found"), fs) := by
  have hr := replaceFirst_absent (routeCode data ++ routeMarker) content routeMarker h
  simp only [appendRoute, os.ReadFile, hread, hr, if_true]

theorem appendMigration_found (data : ModuleData) (fs : FS) (content pre post : GoString)
    (hread : fs storeFile = some content) (h : FirstOccurrence content pre migrationMarker post) :
    appendMigration data fs
      = (.ok (), fs.write storeFile
          (ensureModelImport data (pre ++ migrationCode data ++ migrationMarker ++ post))) := by
  have hr := replaceFirst_first (migrationCode data ++ migrationMarker) content pre
    migrationMarker post h
  have hne : insertMigration data content ≠ content := by
    rw [insertMigration, hr]
    conv_rhs => rw [h.1]
    exact insert_ne _ _ _ _ (migrationCode_ne_nil data)
  unfold appendMigration
  simp only [os.ReadFile, hread]
  rw [if_neg hne]
  simp only [insertMigration, hr, os.WriteFile, List.append_assoc]

theorem appendMigration_missing (data : ModuleData) (fs : FS) (content : GoString)
    (hread : fs storeFile = some content) (h : ¬ migrationMarker <:+: content) :
    appendMigration data fs = (.error (.errorf "migration marker comment not found"), fs) := by
  have hr := replaceFirst_absent (migrationCode data ++ migrationMarker) content migrationMarker h
  simp only [appendMigration, os.ReadFile, hread, insertMigration, hr, if_true]

/-- C7: for every naming record and every content of `router.go` that contains
the route marker, the content has a leftmost occurrence of the marker, and
`appendRoute` succeeds and writes the text before that occurrence, then the route
snippet, then the marker, then the text that followed the occurrence. -/
theorem appendRoute_inserts (data : ModuleData) (fs : FS) (content : GoString)
    (hread : fs routerFile = some content) (hc : routeMarker <:+: content) :
    (∃ pre post, FirstOccurrence content pre routeMarker post) ∧
    ∀ pre post, FirstOccurrence content pre routeMarker post →
      appendRoute data fs
        = (.ok (), fs.write routerFile (pre ++ routeCode data ++ routeMarker ++ post)) :=
  ⟨firstOccurrence_exists content routeMarker hc,
    fun pre post h => appendRoute_found data fs content pre post hread h⟩

/-- C9: for every naming record and every readable target content, `appendRoute`
(and likewise `appendMigration`) returns its marker-not-found error if and only
if the content does not contain the marker, and in that case the file system is
left as it was. -/
theorem marker_missing (data : ModuleData) (fs : FS) :
    (∀ content, fs routerFile = some content →
      ((appendRoute data fs).1 = .error (.errorf "route marker comment not found")
          ↔ ¬ routeMarker <:+: content) ∧
      (¬ routeMarker <:+: content → (appendRoute data fs).2 = fs)) ∧
    (∀ content, fs storeFile = some content →
      ((appendMigration data fs).1 = .error (.errorf "migration marker comment not found")
          ↔ ¬ migrationMarker <:+: content) ∧
      (¬ migrationMarker <:+: content → (appendMigration data fs).2 = fs)) := by
  refine ⟨fun content hread => ⟨⟨?_, ?_⟩, ?_⟩, fun content hread => ⟨⟨?_, ?_⟩, ?_⟩⟩
  · intro he hc
    obtain ⟨pre, post, hf⟩ := firstOccurrence_exists content routeMarker hc
    rw [appendRoute_found data fs content pre post hread hf] at he
    cases he
  · intro h
    rw [appendRoute_missing data fs content hread h]
  · intro h
    rw [appendRoute_missing data fs content hread h]
  · intro he hc
    obtain ⟨pre, post, hf⟩ := firstOccurrence_exists content migrationMarker hc
    rw [appendMigration_found data fs content pre post hread hf] at he
    cases he
  · intro h
    rw [appendMigration_missing data fs content hread h]
  · intro h
    rw [appendMigration_missing data fs content hread h]

theorem ensureModelImport_noop (data : ModuleData) (x : GoString)
    (h : modelImport <:+: x ∨ modelImportOf data <:+: x ∨ ¬ loggerImport <:+: x) :
    ensureModelImport data x = x := by
  unfold ensureModelImport
  split
  · rename_i hc
    simp only [Bool.and_eq_true, Bool.not_eq_true', ← Bool.not_eq_true, contains_iff] at hc
    rcases h with h | h | h
    · exact absurd h hc.1
    · exact absurd h hc.2
    · exact replaceFirst_absent _ _ _ h
  · rfl

/-- C8, as amended: for every naming record and every content of `store.go` whose
leftmost migration marker stands between `pre` and `post`, if the content with the
snippet inserted imports the model package (under the default or the record's
module path) or has no logger import line, then `appendMigration` writes exactly
`pre`, the snippet, the marker and `post`. -/
theorem appendMigration_inserts (data : ModuleData) (fs : FS) (content pre post : GoString)
    (hread : fs storeFile = some content)
    (hfirst : FirstOccurrence content pre migrationMarker post)
    (himport : modelImport <:+: pre ++ migrationCode data ++ migrationMarker ++ post
      ∨ modelImportOf data <:+: pre ++ migrationCode data ++ migrationMarker ++ post
      ∨ ¬ loggerImport <:+: pre ++ migrationCode data ++ migrationMarker ++ post) :
    appendMigration data fs
      = (.ok (), fs.write storeFile (pre ++ migrationCode data ++ migrationMarker ++ post)) := by
  rw [appendMigration_found data fs content pre post hread hfirst,
    ensureModelImport_noop data _ himport]

/-! ### Snippets never hold their marker -/

theorem underscoreBefore_cons (y a : Char) (l : GoString) (h : a ≠ '_') :
    underscoreBefore y (a :: l) = underscoreBefore y l := by
  cases l with
  | nil => rfl
  | cons b rest => simp [underscoreBefore, h]

theorem underscoreBefore_append (y : Char) (a b : GoString)
    (ha : underscoreBefore y a = false) (hb : underscoreBefore y b = false)
    (hl : a.getLast? ≠ some '_') : underscoreBefore y (a ++ b) = false := by
  induction a with
  | nil => simpa using hb
  | cons c cs ih =>
    cases cs with
    | nil =>
      have hc : c ≠ '_' := by simpa using hl
      simpa [underscoreBefore_cons y c b hc] using hb
    | cons d ds =>
      simp only [underscoreBefore, Bool.or_eq_false_iff] at ha
      have hl' : (d :: ds).getLast? ≠ some '_' := by simpa [List.getLast?_cons_cons] using hl
      have := ih ha.2 hl'
      simp only [List.cons_append, underscoreBefore, Bool.or_eq_false_iff] at this ⊢
      exact ⟨ha.1, this⟩

theorem underscoreBefore_of_no_underscore (y : Char) (l : GoString) (h : ∀ c ∈ l, c ≠ '_') :
    underscoreBefore y l = false := by
  induction l with
  | nil => rfl
  | cons c cs ih =>
    rw [underscoreBefore_cons y c cs (h c (by simp))]
    exact ih (fun d hd => h d (by simp [hd]))

theorem underscoreBefore_of_no_follower (y : Char) (l : GoString) (h : ∀ c ∈ l, c ≠ y) :
    underscoreBefore y l = false := by
  induction l with
  | nil => rfl
  | cons c cs ih =>
    cases cs with
    | nil => rfl
    | cons d ds =>
      have hd : d ≠ y := h d (by simp)
      have := ih (fun e he => h e (by simp [he]))
      simp [underscoreBefore, hd, this]

theorem underscoreBefore_suffix (y : Char) (a b : GoString)
    (h : underscoreBefore y (a ++ b) = false) : underscoreBefore y b = false := by
  induction a with
  | nil => simpa using h
  | cons c cs ih =>
    apply ih
    cases hcs : cs ++ b with
    | nil => rfl
    | cons d ds =>
      rw [List.cons_append, hcs] at h
      simp only [underscoreBefore, Bool.or_eq_false_iff] at h
      exact h.2

theorem underscoreBefore_left (y : Char) (a b : GoString)
    (h : underscoreBefore y (a ++ b) = false) : underscoreBefore y a = false := by
  induction a with
  | nil => rfl
  | cons c cs ih =>
    cases cs with
    | nil => rfl
    | cons d ds =>
      simp only [List.cons_append, underscoreBefore, Bool.or_eq_false_iff] at h ⊢
      exact ⟨h.1, ih h.2⟩

theorem underscoreBefore_infix (y : Char) (m l : GoString) (hm : m <:+: l)
    (h : underscoreBefore y l = false) : underscoreBefore y m = false := by
  obtain ⟨p, s, rfl⟩ := hm
  rw [List.append_assoc] at h
  exact underscoreBefore_left y m s (underscoreBefore_suffix y p _ h)

theorem sprintf_underscoreBefore (y : Char) (format : GoString) (args : List GoString) :
    (∀ c ∈ format, c ≠ '_') →
    (∀ a ∈ args, underscoreBefore y a = false ∧ a.getLast? ≠ some '_') →
    underscoreBefore y (fmt.Sprintf format args) = false := by
  induction format, args using fmt.Sprintf.induct with
  | case1 args => intro _ _; simp [fmt.Sprintf, underscoreBefore]
  | case2 rest args ih =>
    intro hf ha
    rw [fmt.Sprintf, underscoreBefore_cons y _ _ (by decide)]
    exact ih (fun c hc => hf c (by simp [hc])) ha
  | case3 rest a args ih =>
    intro hf ha
    rw [fmt.Sprintf]
    exact underscoreBefore_append y _ _ (ha a (by simp)).1
      (ih (fun c hc => hf c (by simp [hc])) (fun b hb => ha b (by simp [hb])))
      (ha a (by simp)).2
  | case4 rest ih =>
    intro hf ha
    rw [fmt.Sprintf]
    exact underscoreBefore_append y _ _
      (underscoreBefore_of_no_underscore y _ (by decide))
      (ih (fun c hc => hf c (by simp [hc])) ha) (by decide)
  | case5 c rest args h1 h2 h3 ih =>
    intro hf ha
    rw [fmt.Sprintf.eq_5 _ _ _ h1 h2 h3, underscoreBefore_cons y c _ (hf c (by simp))]
    exact ih (fun d hd => hf d (by simp [hd])) ha

/-! ### What the generated names are made of -/

theorem toLower_ne_underscore (U : UnicodeTables) (c : Char) (h : c ≠ '_') :
    U.ToLower c ≠ '_' := by
  by_cases hc : c.toNat < 128
  · rw [U.toLower_ascii c hc]
    exact (ascii_facts c hc).2.2.2.2.2.1 h
  · intro e
    have := U.toLower_nonascii c (by omega) (by rw [e]; decide)
    rw [e] at this
    exact absurd this (by decide)

theorem toTitle_ne_underscore (U : UnicodeTables) (c : Char) (h : c ≠ '_') :
    U.ToTitle c ≠ '_' := by
  by_cases hc : c.toNat < 128
  · rw [U.toTitle_ascii c hc]
    exact (ascii_facts c hc).2.2.2.2.2.2 h
  · intro e
    have := U.toTitle_nonascii c (by omega) (by rw [e]; decide)
    rw [e] at this
    exact absurd this (by decide)

theorem toLower_not_upper (U : UnicodeTables) (c : Char) : (U.ToLower c).isUpper = false := by
  by_cases hc : c.toNat < 128
  · rw [U.toLower_ascii c hc]
    exact ascii_forall (fun c => c.toLower.isUpper = false) (by decide) c hc
  · by_cases hl : (U.ToLower c).toNat < 128
    · have := U.toLower_nonascii c (by omega) hl
      exact (lower_facts _ this).1
    · by_contra hu
      exact hl (isUpper_lt _ (by simpa using hu))

theorem titleFrom_no_underscore (U : UnicodeTables) (prev : Char) (q : GoString)
    (h : ∀ c ∈ q, c ≠ '_') : ∀ c ∈ strings.titleFrom U prev q, c ≠ '_' := by
  induction q generalizing prev with
  | nil => simp [strings.titleFrom]
  | cons e es ih =>
    intro d hd
    simp only [strings.titleFrom, List.mem_cons] at hd
    rcases hd with rfl | hd
    · split
      · exact toTitle_ne_underscore U e (h e (by simp))
      · exact h _ (by simp)
    · exact ih e (fun x hx => h x (by simp [hx])) d hd

theorem toPascalCase_no_underscore (U : UnicodeTables) (s : GoString) :
    ∀ c ∈ toPascalCase U s, c ≠ '_' := by
  intro c hc
  simp only [toPascalCase, join_nil_sep, List.mem_flatten, List.mem_map] at hc
  obtain ⟨_, ⟨p, hp, rfl⟩, hcp⟩ := hc
  refine titleFrom_no_underscore U ' ' _ ?_ c hcp
  intro d hd
  simp only [strings.ToLower, List.mem_map] at hd
  obtain ⟨e, he, rfl⟩ := hd
  exact toLower_ne_underscore U e (fun k => (splitWords_mem U s p hp e he).2 (Or.inl k))

theorem toCamelCase_no_underscore (U : UnicodeTables) (s : GoString) :
    ∀ c ∈ toCamelCase U s, c ≠ '_' := by
  have hp := toPascalCase_no_underscore U s
  simp only [toCamelCase]
  cases h : toPascalCase U s with
  | nil => simp
  | cons r rs =>
    rw [h] at hp
    intro c hc
    rcases List.mem_cons.mp hc with rfl | hc
    · exact toLower_ne_underscore U r (hp r (by simp))
    · exact hp c (by simp [hc])

theorem toPlural_mem (s : GoString) : ∀ c ∈ toPlural s, c ∈ s ∨ c = 'e' ∨ c = 's' ∨ c = 'i' := by
  intro c hc
  unfold toPlural at hc
  split at hc
  · simp only [List.mem_append, List.mem_cons, List.mem_singleton, List.not_mem_nil, or_false] at hc
    tauto
  · split at hc
    · simp only at hc
      split at hc
      · simp only [List.mem_append, List.mem_cons, List.mem_singleton, List.not_mem_nil,
          or_false] at hc
        rcases hc with hc | hc
        · exact Or.inl (List.mem_of_mem_take hc)
        · tauto
      · simp only [List.mem_append, List.mem_singleton] at hc
        tauto
    · simp only [List.mem_append, List.mem_singleton] at hc
      tauto

theorem toPlural_getLast (s : GoString) : (toPlural s).getLast? = some 's' := by
  unfold toPlural
  split
  · simp [List.getLast?_append]
  · split
    · simp only
      split <;> simp [List.getLast?_append]
    · simp [List.getLast?_append]

theorem pluralName_underscoreBefore (U : UnicodeTables) (s : GoString) (y : Char)
    (hy : y.isUpper = true) :
    underscoreBefore y (toPlural (strings.ToLower U s)) = false
      ∧ (toPlural (strings.ToLower U s)).getLast? ≠ some '_' := by
  constructor
  · apply underscoreBefore_of_no_follower
    intro c hc e
    subst e
    rcases toPlural_mem _ c hc with h | h | h | h
    · simp only [strings.ToLower, List.mem_map] at h
      obtain ⟨d, _, hd⟩ := h
      have := toLower_not_upper U d
      rw [hd, hy] at this
      exact absurd this (by decide)
    all_goals (subst h; exact absurd hy (by decide))
  · rw [toPlural_getLast]
    decide

theorem noUnderscore_facts (y : Char) (a : GoString) (h : ∀ c ∈ a, c ≠ '_') :
    underscoreBefore y a = false ∧ a.getLast? ≠ some '_' := by
  refine ⟨underscoreBefore_of_no_underscore y a h, ?_⟩
  intro e
  exact h '_' (List.mem_of_mem_getLast? e) rfl

set_option maxRecDepth 100000 in
/-- The route snippet of a derived naming record does not contain the route marker. -/
theorem routeCode_no_marker (U : UnicodeTables) (fs : FS) (raw cn modulePath : GoString) :
    ¬ routeMarker <:+: routeCode (mainModuleData U fs raw cn modulePath) := by
  intro h
  have hP := noUnderscore_facts 'R' _ (toPascalCase_no_underscore U raw)
  have hC := noUnderscore_facts 'R' _ (toCamelCase_no_underscore U raw)
  have hL := pluralName_underscoreBefore U raw 'R' (by decide)
  have key : underscoreBefore 'R' (routeCode (mainModuleData U fs raw cn modulePath)) = false := by
    apply sprintf_underscoreBefore
    · decide
    · intro a ha
      simp only [mainModuleData, List.mem_cons, List.mem_singleton, List.not_mem_nil,
        or_false] at ha
      rcases ha with rfl | rfl | rfl | rfl | rfl | rfl | rfl | rfl | rfl | rfl | rfl | rfl | rfl
        | rfl | rfl | rfl <;> assumption
  have := underscoreBefore_infix 'R' _ _ h key
  exact absurd this (by decide)

/-- The migration snippet of a derived naming record does not contain the migration marker. -/
theorem migrationCode_no_marker (U : UnicodeTables) (fs : FS) (raw cn modulePath : GoString) :
    ¬ migrationMarker <:+: migrationCode (mainModuleData U fs raw cn modulePath) := by
  intro h
  have hP := noUnderscore_facts 'M' _ (toPascalCase_no_underscore U raw)
  have key : underscoreBefore 'M' (migrationCode (mainModuleData U fs raw cn modulePath)) = false := by
    apply sprintf_underscoreBefore
    · decide
    · intro a ha
      simp only [mainModuleData, List.mem_singleton] at ha
      subst ha
      exact hP
  have := underscoreBefore_infix 'M' _ _ h key
  exact absurd this (by decide)

/-! ### The marker stays unique -/

theorem countOccurrences_wrapped (pat a m b : GoString) (x : Char) (hx : x ∉ pat)
    (hne : pat ≠ []) :
    countOccurrences (a ++ x :: (m ++ x :: b)) pat
      = countOccurrences a pat + countOccurrences m pat + countOccurrences b pat := by
  rw [countOccurrences_sep pat a _ x hx hne, countOccurrences_sep pat m b x hx hne]
  omega

theorem countOccurrences_insert (pat s pre post mid : GoString) (x : Char) (hx : x ∉ pat)
    (hne : pat ≠ []) (hmid : ¬ pat <:+: mid) (h : FirstOccurrence s pre pat post) :
    countOccurrences (pre ++ (x :: (mid ++ [x])) ++ pat ++ post) pat = countOccurrences s pat := by
  obtain ⟨h1, h2⟩ := countOccurrences_first s pre pat post hne h
  have e : pre ++ (x :: (mid ++ [x])) ++ pat ++ post = pre ++ x :: (mid ++ x :: (pat ++ post)) := by
    simp
  rw [e, countOccurrences_wrapped pat pre mid _ x hx hne, h1, h2,
    countOccurrences_eq_zero mid pat hmid]
  omega

theorem routeCode_wrapped (data : ModuleData) :
    ∃ mid, routeCode data = '\t' :: (mid ++ ['\t']) := by
  rw [routeCode_eq]
  have e : "Handler.Delete)\n\t\t\t\x7d\n\n\t\t\t".toList
      = "Handler.Delete)\n\t\t\t\x7d\n\n\t\t".toList ++ ['\t'] := by decide
  rw [e]
  simp only [← List.append_assoc]
  exact ⟨_, rfl⟩

theorem migrationCode_wrapped (data : ModuleData) :
    ∃ mid, migrationCode data = '\t' :: (mid ++ ['\t']) := by
  rw [migrationCode_eq]
  have e : "\x7b\x7d,\n\t\t".toList = "\x7b\x7d,\n\t".toList ++ ['\t'] := by decide
  rw [e]
  simp only [← List.append_assoc]
  exact ⟨_, rfl⟩

theorem count_one_isInfix (s pat : GoString) (h : countOccurrences s pat = 1) : pat <:+: s := by
  by_contra hc
  rw [countOccurrences_eq_zero s pat hc] at h
  omega

theorem countOccurrences_routeInsert (data : ModuleData) (hno : ¬ routeMarker <:+: routeCode data)
    (s pre post : GoString) (h : FirstOccurrence s pre routeMarker post) :
    countOccurrences (pre ++ routeCode data ++ routeMarker ++ post) routeMarker
      = countOccurrences s routeMarker := by
  obtain ⟨mid, hmid⟩ := routeCode_wrapped data
  have hm : ¬ routeMarker <:+: mid := by
    intro e
    apply hno
    rw [hmid]
    exact e.trans ⟨['\t'], ['\t'], by simp⟩
  rw [hmid]
  exact countOccurrences_insert routeMarker s pre post mid '\t' (by decide) (by decide) hm h

theorem countOccurrences_migrationInsert (data : ModuleData)
    (hno : ¬ migrationMarker <:+: migrationCode data)
    (s pre post : GoString) (h : FirstOccurrence s pre migrationMarker post) :
    countOccurrences (pre ++ migrationCode data ++ migrationMarker ++ post) migrationMarker
      = countOccurrences s migrationMarker := by
  obtain ⟨mid, hmid⟩ := migrationCode_wrapped data
  have hm : ¬ migrationMarker <:+: mid := by
    intro e
    apply hno
    rw [hmid]
    exact e.trans ⟨['\t'], ['\t'], by simp⟩
  rw [hmid]
  exact countOccurrences_insert migrationMarker s pre post mid '\t' (by decide) (by decide) hm h

theorem countOccurrences_ensureModelImport (data : ModuleData) (x : GoString) :
    countOccurrences (ensureModelImport data x) migrationMarker
      = countOccurrences x migrationMarker := by
  unfold ensureModelImport
  split
  · by_cases hl : loggerImport <:+: x
    · obtain ⟨a, b, hf⟩ := firstOccurrence_exists x loggerImport hl
      rw [replaceFirst_first _ x a loggerImport b hf]
      conv_rhs => rw [hf.1]
      have e1 : loggerImport = '"' :: ("go-api-scaffold/pkg/logger".toList ++ ['"']) := by decide
      have e2 : loggerImportReplacement
          = '"' :: ("go-api-scaffold/internal/model\"\\n\\t\"go-api-scaffold/pkg/logger".toList
              ++ ['"']) := by decide
      have c1 : countOccurrences "go-api-scaffold/pkg/logger".toList migrationMarker = 0 := by
        decide
      have c2 : countOccurrences
          "go-api-scaffold/internal/model\"\\n\\t\"go-api-scaffold/pkg/logger".toList
          migrationMarker = 0 := by decide
      have hx : '"' ∉ migrationMarker := by decide
      have hne : migrationMarker ≠ [] := by decide
      rw [e1, e2]
      have r1 := countOccurrences_wrapped migrationMarker a
        "go-api-scaffold/pkg/logger".toList b '"' hx hne
      have r2 := countOccurrences_wrapped migrationMarker a
        "go-api-scaffold/internal/model\"\\n\\t\"go-api-scaffold/pkg/logger".toList b '"' hx hne
      simp only [List.append_assoc, List.cons_append, List.nil_append] at r1 r2 ⊢
      rw [r1, r2, c1, c2]
    · rw [replaceFirst_absent _ x loggerImport hl]
  · rfl

/-- C10: for every raw module name, with the naming record built as `main` does,
neither snippet contains its marker, and for every target content that contains
the marker exactly once `appendRoute` (resp. `appendMigration`) succeeds and the
content it writes again contains the marker exactly once. -/
theorem sentinel_stays_unique (U : UnicodeTables) (fs0 : FS) (raw cn modulePath : GoString) :
    ¬ routeMarker <:+: routeCode (mainModuleData U fs0 raw cn modulePath) ∧
    ¬ migrationMarker <:+: migrationCode (mainModuleData U fs0 raw cn modulePath) ∧
    (∀ (fs : FS) (content : GoString), fs routerFile = some content →
      countOccurrences content routeMarker = 1 →
      ∃ written, appendRoute (mainModuleData U fs0 raw cn modulePath) fs
          = (.ok (), fs.write routerFile written)
        ∧ countOccurrences written routeMarker = 1) ∧
    (∀ (fs : FS) (content : GoString), fs storeFile = some content →
      countOccurrences content migrationMarker = 1 →
      ∃ written, appendMigration (mainModuleData U fs0 raw cn modulePath) fs
          = (.ok (), fs.write storeFile written)
        ∧ countOccurrences written migrationMarker = 1) := by
  have hr := routeCode_no_marker U fs0 raw cn modulePath
  have hm := migrationCode_no_marker U fs0 raw cn modulePath
  refine ⟨hr, hm, ?_, ?_⟩
  · intro fs content hread hone
    obtain ⟨pre, post, hf⟩ := firstOccurrence_exists content routeMarker
      (count_one_isInfix _ _ hone)
    refine ⟨_, appendRoute_found _ fs content pre post hread hf, ?_⟩
    rw [countOccurrences_routeInsert _ hr content pre post hf, hone]
  · intro fs content hread hone
    obtain ⟨pre, post, hf⟩ := firstOccurrence_exists content migrationMarker
      (count_one_isInfix _ _ hone)
    refine ⟨_, appendMigration_found _ fs content pre post hread hf, ?_⟩
    rw [countOccurrences_ensureModelImport,
      countOccurrences_migrationInsert _ hm content pre post hf, hone]

set_option maxRecDepth 100000 in
/-- C8 as stated fails: on a store file that imports the logger package but not
the model package, the written content differs from the original with the
snippet inserted, because the logger import line is rewritten as well. -/
theorem appendMigration_counterexample :
    (appendMigration paymentData (singleFile storeFile sampleStore)).2 storeFile
      = some ("import (\n\t\"go-api-scaffold/internal/model\"\\n\\t\"go-api-scaffold/pkg/logger\"\n)\n\t\t\t\t&model.Payment\x7b\x7d,\n\t\t".toList
          ++ migrationMarker ++ "\n".toList) ∧
    FirstOccurrence sampleStore "import (\n\t\"go-api-scaffold/pkg/logger\"\n)\n\t\t".toList
      migrationMarker "\n".toList ∧
    (appendMigration paymentData (singleFile storeFile sampleStore)).2 storeFile
      ≠ some ("import (\n\t\"go-api-scaffold/pkg/logger\"\n)\n\t\t".toList
          ++ migrationCode paymentData ++ migrationMarker ++ "\n".toList) := by
  refine ⟨by decide, ⟨by decide, by decide⟩, by decide⟩

/-- The insertion of C7 into the example router file. -/
theorem appendRoute_inserts_witness :
    singleFile routerFile sampleRouter routerFile = some sampleRouter ∧
    routeMarker <:+: sampleRouter ∧
    appendRoute paymentData (singleFile routerFile sampleRouter)
      = (.ok (), (singleFile routerFile sampleRouter).write routerFile
          ("\t\tauthorized.Use(auth)\n\t\t".toList ++ routeCode paymentData ++ routeMarker
            ++ "\n\treturn r\n".toList)) :=
  ⟨by decide, ⟨_, _, rfl⟩,
    (appendRoute_inserts paymentData _ sampleRouter (by decide) ⟨_, _, rfl⟩).2 _ _
      ⟨by decide, by decide⟩⟩

/-- The insertion of C8 (amended) into an example store file that imports the
model package. -/
theorem appendMigration_inserts_witness :
    FirstOccurrence sampleStoreWithModel
      "import (\n\t\"go-api-scaffold/internal/model\"\n)\n\t\t".toList migrationMarker "\n".toList ∧
    appendMigration paymentData (singleFile storeFile sampleStoreWithModel)
      = (.ok (), (singleFile storeFile sampleStoreWithModel).write storeFile
          ("import (\n\t\"go-api-scaffold/internal/model\"\n)\n\t\t".toList
            ++ migrationCode paymentData ++ migrationMarker ++ "\n".toList)) :=
  ⟨⟨by decide, by decide⟩,
    appendMigration_inserts paymentData _ sampleStoreWithModel _ _ (by decide)
      ⟨by decide, by decide⟩ (Or.inl ((contains_iff _ _).mp (by decide)))⟩

/-- The failure of C9 on a router file without the marker. -/
theorem marker_missing_witness :
    (appendRoute paymentData (singleFile routerFile "package handler\n".toList)).1
      = .error (.errorf "route marker comment not found") ∧
    (appendRoute paymentData (singleFile routerFile "package handler\n".toList)).2
      = singleFile routerFile "package handler\n".toList :=
  ⟨((marker_missing paymentData _).1 "package handler\n".toList (by decide)).1.mpr
      (fun h => absurd ((contains_iff _ _).mpr h) (by decide)),
    ((marker_missing paymentData _).1 "package handler\n".toList (by decide)).2
      (fun h => absurd ((contains_iff _ _).mpr h) (by decide))⟩

/-- The uniqueness of C10 on the example router file. -/
theorem sentinel_stays_unique_witness :
    countOccurrences sampleRouter routeMarker = 1 ∧
    ∃ written, appendRoute paymentData (singleFile routerFile sampleRouter)
        = (.ok (), (singleFile routerFile sampleRouter).write routerFile written)
      ∧ countOccurrences written routeMarker = 1 :=
  ⟨by decide,
    (sentinel_stays_unique asciiTables (fun _ => none) "payment".toList [] []).2.2.1
      _ sampleRouter (by decide) (by decide)⟩

/-! ### Running an injection twice -/

theorem firstOccurrence_of_unique (pat a b : GoString)
    (h : countOccurrences (a ++ pat ++ b) pat = 1) : FirstOccurrence (a ++ pat ++ b) a pat b := by
  induction a with
  | nil => exact ⟨rfl, by simp⟩
  | cons c cs ih =>
    have hpos : 0 < countOccurrences (cs ++ pat ++ b) pat :=
      countOccurrences_pos _ _ ⟨cs, b, rfl⟩
    rw [show c :: cs ++ pat ++ b = c :: (cs ++ pat ++ b) by rfl, countOccurrences_cons] at h
    have hnp : ¬ pat <+: c :: (cs ++ pat ++ b) := by
      intro hp
      rw [if_pos hp] at h
      omega
    rw [if_neg hnp] at h
    obtain ⟨_, h2⟩ := ih (by omega)
    refine ⟨rfl, ?_⟩
    intro k hk
    cases k with
    | zero => simpa using hnp
    | succ k =>
      have := h2 k (by simpa using hk)
      simpa using this

theorem write_write (fs : FS) (path a b : GoString) :
    (fs.write path a).write path b = fs.write path b := by
  funext p
  simp only [FS.write]
  split <;> rfl

theorem write_same (fs : FS) (path a : GoString) : (fs.write path a) path = some a := by
  simp [FS.write]

/-- C11: injection is not idempotent. For every naming record built from a raw
name and every content `pre + marker + post` of `router.go` in which the marker
occurs exactly once, running `appendRoute` twice with the same record succeeds
both times and leaves `pre + snippet + snippet + marker + post`, in which the
marker still occurs exactly once. -/
theorem appendRoute_twice (U : UnicodeTables) (fs0 : FS) (raw cn modulePath : GoString)
    (fs : FS) (pre post : GoString)
    (hread : fs routerFile = some (pre ++ routeMarker ++ post))
    (hone : countOccurrences (pre ++ routeMarker ++ post) routeMarker = 1) :
    ∃ fs1, appendRoute (mainModuleData U fs0 raw cn modulePath) fs = (.ok (), fs1) ∧
      appendRoute (mainModuleData U fs0 raw cn modulePath) fs1
        = (.ok (), fs.write routerFile
            (pre ++ routeCode (mainModuleData U fs0 raw cn modulePath)
              ++ routeCode (mainModuleData U fs0 raw cn modulePath) ++ routeMarker ++ post)) ∧
      countOccurrences
        (pre ++ routeCode (mainModuleData U fs0 raw cn modulePath)
          ++ routeCode (mainModuleData U fs0 raw cn modulePath) ++ routeMarker ++ post)
        routeMarker = 1 := by
  have hno := routeCode_no_marker U fs0 raw cn modulePath
  have hf := firstOccurrence_of_unique routeMarker pre post hone
  have h1 := appendRoute_found (mainModuleData U fs0 raw cn modulePath) fs _ pre post hread hf
  have hc1 := countOccurrences_routeInsert _ hno _ pre post hf
  rw [hone] at hc1
  have e : pre ++ routeCode (mainModuleData U fs0 raw cn modulePath) ++ routeMarker ++ post
      = (pre ++ routeCode (mainModuleData U fs0 raw cn modulePath)) ++ routeMarker ++ post := rfl
  rw [e] at hc1
  have hf2 := firstOccurrence_of_unique routeMarker _ post hc1
  have h2 := appendRoute_found (mainModuleData U fs0 raw cn modulePath)
    (fs.write routerFile (pre ++ routeCode (mainModuleData U fs0 raw cn modulePath)
      ++ routeMarker ++ post)) _ _ post (write_same _ _ _) hf2
  have hc2 := countOccurrences_routeInsert _ hno _ _ post hf2
  rw [hc1] at hc2
  refine ⟨_, h1, ?_, hc2⟩
  rw [h2, write_write]

/-- The double insertion of C11 into the example router file. -/
theorem appendRoute_twice_witness :
    singleFile routerFile sampleRouter routerFile
      = some ("\t\tauthorized.Use(auth)\n\t\t".toList ++ routeMarker ++ "\n\treturn r\n".toList) ∧
    countOccurrences
      ("\t\tauthorized.Use(auth)\n\t\t".toList ++ routeMarker ++ "\n\treturn r\n".toList)
      routeMarker = 1 ∧
    ∃ fs1, appendRoute paymentData (singleFile routerFile sampleRouter) = (.ok (), fs1) ∧
      appendRoute paymentData fs1
        = (.ok (), (singleFile routerFile sampleRouter).write routerFile
            ("\t\tauthorized.Use(auth)\n\t\t".toList ++ routeCode paymentData
              ++ routeCode paymentData ++ routeMarker ++ "\n\treturn r\n".toList)) ∧
      countOccurrences
        ("\t\tauthorized.Use(auth)\n\t\t".toList ++ routeCode paymentData
          ++ routeCode paymentData ++ routeMarker ++ "\n\treturn r\n".toList) routeMarker = 1 :=
  ⟨by decide, by decide,
    appendRoute_twice asciiTables (fun _ => none) "payment".toList [] []
      (singleFile routerFile sampleRouter) _ _ (by decide) (by decide)⟩

/-! ### Rendering one file -/

theorem generateFile_exists (L : StdLib) (tmplPath outPath : GoString) (data : ModuleData)
    (d : Disk) (h : os.Stat d outPath = true) :
    generateFile L tmplPath outPath data d
      = (.error (.errorf ("file already exists: " ++ String.mk outPath)), d) := by
  unfold generateFile
  rw [if_pos h]

theorem generateFile_parse_error (L : StdLib) (tmplPath outPath : GoString) (data : ModuleData)
    (d : Disk) (content : GoString) (err : GoError) (hstat : os.Stat d outPath = false)
    (hread : d.files tmplPath = some content)
    (hparse : L.Parse (L.Base tmplPath) content = .error err) :
    generateFile L tmplPath outPath data d = (.error (.wrapf "parse template: %w" err), d) := by
  unfold generateFile
  simp only [hstat, Bool.false_eq_true, if_false, os.ReadFile, hread, hparse]

theorem generateFile_execute (L : StdLib) (tmplPath outPath : GoString) (data : ModuleData)
    (d d1 d2 : Disk) (content : GoString) (t : L.Template) (hstat : os.Stat d outPath = false)
    (hread : d.files tmplPath = some content)
    (hparse : L.Parse (L.Base tmplPath) content = .ok t)
    (hmk : L.MkdirAll d (L.Dir outPath) = (.ok (), d1))
    (hcreate : os.Create d1 outPath = (.ok (), d2)) :
    generateFile L tmplPath outPath data d
      = (match (L.Execute t data).2 with
          | some err => .error err
          | none => .ok (),
         { d2 with files := d2.files.write outPath (L.Execute t data).1 }) := by
  unfold generateFile
  simp only [hstat, Bool.false_eq_true, if_false, os.ReadFile, hread, hparse, hmk, hcreate]
  rcases h : L.Execute t data with ⟨written, _ | err⟩ <;> rfl

theorem write_other (fs : FS) (path a p : GoString) (h : p ≠ path) :
    (fs.write path a) p = fs p := by
  simp [FS.write, h]

theorem create_files_other (d : Disk) (name p : GoString) (h : p ≠ name) :
    (os.Create d name).2.files p = d.files p := by
  unfold os.Create
  split
  · rfl
  · exact write_other _ _ _ _ h

/-- Rendering changes no regular file but the one at the output path. -/
theorem generateFile_files_other (L : StdLib) (tmplPath outPath : GoString) (data : ModuleData)
    (d : Disk) (p : GoString) (h : p ≠ outPath) :
    (generateFile L tmplPath outPath data d).2.files p = d.files p := by
  unfold generateFile
  split
  · rfl
  · split
    · rfl
    · split
      · rfl
      · have hm := L.mkdirAll_files d (L.Dir outPath)
        split
        · rename_i e1 d1 hmk
          rw [hmk] at hm
          rw [← hm]
        · rename_i d1 hmk
          rw [hmk] at hm
          have hc := create_files_other d1 outPath p h
          split
          · rename_i e2 d2 hcr
            rw [hcr] at hc
            rw [← hm, ← hc]
          · rename_i d2 hcr
            rw [hcr] at hc
            split
            · simp only
              rw [write_other _ _ _ _ h, ← hm, ← hc]
            · simp only
              rw [write_other _ _ _ _ h, ← hm, ← hc]

/-- After a successful rendering a file exists at the output path. -/
theorem generateFile_ok_exists (L : StdLib) (tmplPath outPath : GoString) (data : ModuleData)
    (d d' : Disk) (h : generateFile L tmplPath outPath data d = (.ok (), d')) :
    (d'.files outPath).isSome = true := by
  unfold generateFile at h
  split at h
  · cases h
  · split at h
    · cases h
    · split at h
      · cases h
      · split at h
        · cases h
        · split at h
          · cases h
          · split at h
            · cases h
            · have := congrArg Prod.snd h
              simp only at this
              rw [← this]
              simp [FS.write]

/-! ### The output paths -/

theorem outputFiles_paths (data : ModuleData) :
    (outputFiles data).map Prod.snd
      = ["internal/handler/".toList ++ (data.SnakeName ++ "_handler.go".toList),
         "internal/service/".toList ++ (data.SnakeName ++ "_service.go".toList),
         "internal/model/".toList ++ (data.SnakeName ++ ".go".toList),
         "internal/store/".toList ++ (data.SnakeName ++ "_repo.go".toList)] := rfl

theorem outputFiles_nodup (data : ModuleData) : ((outputFiles data).map Prod.snd).Nodup := by
  apply List.Nodup.of_map (List.take 11)
  rw [outputFiles_paths]
  have : List.map (List.take 11)
      ["internal/handler/".toList ++ (data.SnakeName ++ "_handler.go".toList),
       "internal/service/".toList ++ (data.SnakeName ++ "_service.go".toList),
       "internal/model/".toList ++ (data.SnakeName ++ ".go".toList),
       "internal/store/".toList ++ (data.SnakeName ++ "_repo.go".toList)]
      = ["internal/ha".toList, "internal/se".toList, "internal/mo".toList,
         "internal/st".toList] := rfl
  rw [this]
  decide

theorem ne_of_take (n : Nat) (a b ka kb : GoString) (ha : a.take n = ka) (hb : b.take n = kb)
    (hk : ka ≠ kb) : a ≠ b := by
  intro e
  rw [e, hb] at ha
  exact hk ha.symm

theorem take_handler (s : GoString) :
    ("internal/handler/".toList ++ s).take 11 = "internal/ha".toList := rfl

theorem take_service (s : GoString) :
    ("internal/service/".toList ++ s).take 11 = "internal/se".toList := rfl

theorem take_model (s : GoString) :
    ("internal/model/".toList ++ s).take 11 = "internal/mo".toList := rfl

theorem take_store (s : GoString) :
    ("internal/store/".toList ++ s).take 11 = "internal/st".toList := rfl

theorem take_routerFile : routerFile.take 11 = "internal/ha".toList := by decide

theorem take_storeFile : storeFile.take 11 = "internal/st".toList := by decide

theorem routerFile_not_output (data : ModuleData) :
    routerFile ∉ (outputFiles data).map Prod.snd := by
  rw [outputFiles_paths]
  intro h
  simp only [List.mem_cons, List.mem_singleton, List.not_mem_nil, or_false] at h
  rcases h with h | h | h | h
  · have := congrArg (fun l => (List.drop 17 l).length) h
    simp [routerFile] at this
  · exact ne_of_take 11 _ _ _ _ take_routerFile (take_service _) (by decide) h
  · exact ne_of_take 11 _ _ _ _ take_routerFile (take_model _) (by decide) h
  · exact ne_of_take 11 _ _ _ _ take_routerFile (take_store _) (by decide) h

theorem storeFile_not_output (data : ModuleData) :
    storeFile ∉ (outputFiles data).map Prod.snd := by
  rw [outputFiles_paths]
  intro h
  simp only [List.mem_cons, List.mem_singleton, List.not_mem_nil, or_false] at h
  rcases h with h | h | h | h
  · exact ne_of_take 11 _ _ _ _ take_storeFile (take_handler _) (by decide) h
  · exact ne_of_take 11 _ _ _ _ take_storeFile (take_service _) (by decide) h
  · exact ne_of_take 11 _ _ _ _ take_storeFile (take_model _) (by decide) h
  · have h1 := congrArg (List.drop 15) h
    have e1 : List.drop 15 storeFile = "store.go".toList := by decide
    have e2 : List.drop 15 ("internal/store/".toList ++ (data.SnakeName ++ "_repo.go".toList))
        = data.SnakeName ++ "_repo.go".toList := rfl
    rw [e1, e2] at h1
    have h2 := congrArg List.length h1
    simp only [List.length_append] at h2
    have h3 : data.SnakeName = [] := List.length_eq_zero.mp (by
      have : "store.go".toList.length = 8 := by decide
      have : "_repo.go".toList.length = 8 := by decide
      omega)
    rw [h3] at h1
    exact absurd h1 (by decide)

/-! ### The emit loop -/

theorem emitLoop_append (L : StdLib) (data : ModuleData) (a b : List (GoString × GoString))
    (d : Disk) (output : List Message) :
    emitLoop L data (a ++ b) d output
      = match emitLoop L data a d output with
        | .ok (d1, output1) => emitLoop L data b d1 output1
        | .error exited => .error exited := by
  induction a generalizing d output with
  | nil => rfl
  | cons f fs ih =>
    obtain ⟨tmpl, out⟩ := f
    simp only [List.cons_append, emitLoop]
    rcases h : generateFile L tmpl out data d with ⟨_ | _, d1⟩
    · rfl
    · exact ih d1 _

theorem emitLoop_ok (L : StdLib) (data : ModuleData) (files : List (GoString × GoString))
    (d d1 : Disk) (output output1 : List Message)
    (h : emitLoop L data files d output = .ok (d1, output1)) :
    output1 = output ++ files.map (fun f => Message.emitted f.2) ∧
    (∀ p, p ∉ files.map Prod.snd → d1.files p = d.files p) ∧
    ((files.map Prod.snd).Nodup → ∀ f ∈ files, (d1.files f.2).isSome = true) := by
  induction files generalizing d output with
  | nil =>
    simp only [emitLoop, Except.ok.injEq, Prod.mk.injEq] at h
    obtain ⟨rfl, rfl⟩ := h
    simp
  | cons f fs ih =>
    obtain ⟨tmpl, out⟩ := f
    simp only [emitLoop] at h
    rcases hg : generateFile L tmpl out data d with ⟨err | u, d2⟩
    · rw [hg] at h
      cases h
    · rw [hg] at h
      obtain ⟨i1, i2, i3⟩ := ih d2 _ h
      have hother := generateFile_files_other L tmpl out data d
      rw [hg] at hother
      refine ⟨by simp [i1], ?_, ?_⟩
      · intro p hp
        simp only [List.map_cons, List.mem_cons, not_or] at hp
        rw [i2 p hp.2, hother p hp.1]
      · intro hnd f hf
        simp only [List.map_cons, List.nodup_cons] at hnd
        rcases List.mem_cons.mp hf with rfl | hf
        · rw [i2 _ hnd.1]
          exact generateFile_ok_exists L tmpl _ data d d2 hg
        · exact i3 hnd.2 f hf

theorem appendRoute_files_other (data : ModuleData) (fs : FS) (p : GoString)
    (h : p ≠ routerFile) : (appendRoute data fs).2 p = fs p := by
  unfold appendRoute
  split
  · rfl
  · simp only
    split
    · rfl
    · exact write_other _ _ _ _ h

theorem appendMigration_files_other (data : ModuleData) (fs : FS) (p : GoString)
    (h : p ≠ storeFile) : (appendMigration data fs).2 p = fs p := by
  unfold appendMigration
  split
  · rfl
  · simp only
    split
    · rfl
    · exact write_other _ _ _ _ h

/-! ### The command as a whole -/

theorem main_unfold (U : UnicodeTables) (L : StdLib) (name cn modulePath : GoString) (d : Disk)
    (hname : name ≠ []) :
    main U L name cn modulePath d
      = match emitLoop L (mainModuleData U d.files name cn modulePath)
            (outputFiles (mainModuleData U d.files name cn modulePath)) d
            [Message.generating (mainModuleData U d.files name cn modulePath).PascalName
              (mainModuleData U d.files name cn modulePath).ChineseName] with
        | .error exited => exited
        | .ok (d4, output) =>
          ⟨0, { d4 with files := (appendMigration (mainModuleData U d.files name cn modulePath)
                  (appendRoute (mainModuleData U d.files name cn modulePath) d4.files).2).2 },
            output ++
              [match (appendRoute (mainModuleData U d.files name cn modulePath) d4.files).1 with
                | .error err => Message.routeFailed err
                | .ok () => Message.routeRegistered] ++
              [match (appendMigration (mainModuleData U d.files name cn modulePath)
                  (appendRoute (mainModuleData U d.files name cn modulePath) d4.files).2).1 with
                | .error err => Message.migrationFailed err
                | .ok () => Message.migrationRegistered] ++
              [.generated (mainModuleData U d.files name cn modulePath).PascalName,
               .nextSteps (mainModuleData U d.files name cn modulePath).SnakeName]⟩ := by
  unfold main
  rw [if_neg hname]

/-- C14: the emits run in the order handler, service, model, repository and the
run stops at the first failure. If the emits before `out` succeeded and the emit
of `out` fails, `main` exits with status one on the disk that emit left, having
reported the earlier outputs and the failure; the earlier output files exist and
are as their emits left them, the later output paths are as they were before
the run, and so are `router.go` and `store.go`. -/
theorem emit_aborts_at_first_failure (U : UnicodeTables) (L : StdLib)
    (name cn modulePath : GoString) (d d1 d2 : Disk)
    (done later : List (GoString × GoString)) (tmpl out : GoString) (output1 : List Message)
    (err : GoError) (hname : name ≠ [])
    (hsplit : outputFiles (mainModuleData U d.files name cn modulePath)
      = done ++ (tmpl, out) :: later)
    (hdone : emitLoop L (mainModuleData U d.files name cn modulePath) done d
        [Message.generating (mainModuleData U d.files name cn modulePath).PascalName
          (mainModuleData U d.files name cn modulePath).ChineseName] = .ok (d1, output1))
    (hfail : generateFile L tmpl out (mainModuleData U d.files name cn modulePath) d1
      = (.error err, d2)) :
    done.map Prod.snd ++ out :: later.map Prod.snd
      = ["internal/handler/".toList
          ++ ((mainModuleData U d.files name cn modulePath).SnakeName ++ "_handler.go".toList),
        "internal/service/".toList
          ++ ((mainModuleData U d.files name cn modulePath).SnakeName ++ "_service.go".toList),
        "internal/model/".toList
          ++ ((mainModuleData U d.files name cn modulePath).SnakeName ++ ".go".toList),
        "internal/store/".toList
          ++ ((mainModuleData U d.files name cn modulePath).SnakeName ++ "_repo.go".toList)] ∧
    main U L name cn modulePath d
      = ⟨1, d2,
          Message.generating (mainModuleData U d.files name cn modulePath).PascalName
              (mainModuleData U d.files name cn modulePath).ChineseName
            :: done.map (fun f => Message.emitted f.2) ++ [Message.emitFailed out err]⟩ ∧
    (∀ f ∈ done, (d2.files f.2).isSome = true ∧ d2.files f.2 = d1.files f.2) ∧
    (∀ f ∈ later, d2.files f.2 = d.files f.2) ∧
    d2.files routerFile = d.files routerFile ∧ d2.files storeFile = d.files storeFile := by
  have hnd := outputFiles_nodup (mainModuleData U d.files name cn modulePath)
  have hr := routerFile_not_output (mainModuleData U d.files name cn modulePath)
  have hs := storeFile_not_output (mainModuleData U d.files name cn modulePath)
  have hpaths := outputFiles_paths (mainModuleData U d.files name cn modulePath)
  rw [hsplit] at hnd hr hs hpaths
  simp only [List.map_append, List.map_cons, List.mem_append, List.mem_cons, not_or] at hr hs
  simp only [List.map_append, List.map_cons] at hnd
  obtain ⟨ndDone, ndRest, hdisj⟩ := List.nodup_append.mp hnd
  obtain ⟨o1, keep1, ex1⟩ := emitLoop_ok L _ done d d1 _ output1 hdone
  have hother := generateFile_files_other L tmpl out (mainModuleData U d.files name cn modulePath) d1
  rw [hfail] at hother
  refine ⟨?_, ?_, ?_, ?_, ?_, ?_⟩
  · rw [← hpaths]
    simp
  · rw [main_unfold U L name cn modulePath d hname, hsplit, emitLoop_append, hdone]
    simp only [emitLoop, hfail, o1, List.cons_append, List.nil_append]
  · intro f hf
    have hne : f.2 ≠ out := by
      intro e
      exact hdisj (List.mem_map_of_mem Prod.snd hf) (by simp [e])
    rw [hother _ hne]
    exact ⟨ex1 ndDone f hf, rfl⟩
  · intro f hf
    have hmem : f.2 ∈ List.map Prod.snd later := List.mem_map_of_mem Prod.snd hf
    have hne : f.2 ≠ out := by
      intro e
      rw [e] at hmem
      exact (List.nodup_cons.mp ndRest).1 hmem
    have hnot : f.2 ∉ List.map Prod.snd done := by
      intro hm
      exact hdisj hm (List.mem_cons_of_mem _ hmem)
    rw [hother _ hne, keep1 _ hnot]
  · rw [hother _ hr.2.1, keep1 _ hr.1]
  · rw [hother _ hs.2.1, keep1 _ hs.1]

/-- The result of a run whose four emits succeed. -/
theorem main_of_emits (U : UnicodeTables) (L : StdLib)
    (name cn modulePath : GoString) (d d4 : Disk) (output4 : List Message) (hname : name ≠ [])
    (hemits : emitLoop L (mainModuleData U d.files name cn modulePath)
        (outputFiles (mainModuleData U d.files name cn modulePath)) d
        [Message.generating (mainModuleData U d.files name cn modulePath).PascalName
          (mainModuleData U d.files name cn modulePath).ChineseName] = .ok (d4, output4)) :
    main U L name cn modulePath d
      = ⟨0, { d4 with files := (appendMigration (mainModuleData U d.files name cn modulePath)
                (appendRoute (mainModuleData U d.files name cn modulePath) d4.files).2).2 },
          output4 ++
            [match (appendRoute (mainModuleData U d.files name cn modulePath) d4.files).1 with
              | .error err => Message.routeFailed err
              | .ok () => Message.routeRegistered] ++
            [match (appendMigration (mainModuleData U d.files name cn modulePath)
                (appendRoute (mainModuleData U d.files name cn modulePath) d4.files).2).1 with
              | .error err => Message.migrationFailed err
              | .ok () => Message.migrationRegistered] ++
            [.generated (mainModuleData U d.files name cn modulePath).PascalName,
             .nextSteps (mainModuleData U d.files name cn modulePath).SnakeName]⟩ := by
  rw [main_unfold U L name cn modulePath d hname, hemits]

/-- The two injections leave the output files of the emits as they are. -/
theorem outputs_survive_injections (data : ModuleData) (fs : FS) (f : GoString × GoString)
    (hf : f ∈ outputFiles data) :
    (appendMigration data (appendRoute data fs).2).2 f.2 = fs f.2 := by
  have hmem : f.2 ∈ (outputFiles data).map Prod.snd := List.mem_map_of_mem Prod.snd hf
  have hr : f.2 ≠ routerFile := fun e => routerFile_not_output _ (e ▸ hmem)
  have hs : f.2 ≠ storeFile := fun e => storeFile_not_output _ (e ▸ hmem)
  rw [appendMigration_files_other _ _ _ hs, appendRoute_files_other _ _ _ hr]

/-- C15: when the four emits succeed, `main` exits with status zero whatever the
two injections return; `appendMigration` runs on what `appendRoute` left,
whether or not `appendRoute` failed; and the four emitted files are left as the
emits wrote them. -/
theorem injections_are_nonfatal (U : UnicodeTables) (L : StdLib)
    (name cn modulePath : GoString) (d d4 : Disk) (output4 : List Message) (hname : name ≠ [])
    (hemits : emitLoop L (mainModuleData U d.files name cn modulePath)
        (outputFiles (mainModuleData U d.files name cn modulePath)) d
        [Message.generating (mainModuleData U d.files name cn modulePath).PascalName
          (mainModuleData U d.files name cn modulePath).ChineseName] = .ok (d4, output4)) :
    (main U L name cn modulePath d).exitCode = 0 ∧
    (main U L name cn modulePath d).disk.files
      = (appendMigration (mainModuleData U d.files name cn modulePath)
          (appendRoute (mainModuleData U d.files name cn modulePath) d4.files).2).2 ∧
    (main U L name cn modulePath d).disk.dirs = d4.dirs ∧
    (∀ f ∈ outputFiles (mainModuleData U d.files name cn modulePath),
      (d4.files f.2).isSome = true ∧
      (main U L name cn modulePath d).disk.files f.2 = d4.files f.2) ∧
    (main U L name cn modulePath d).output
      = output4 ++
          [match (appendRoute (mainModuleData U d.files name cn modulePath) d4.files).1 with
            | .error err => Message.routeFailed err
            | .ok () => Message.routeRegistered,
           match (appendMigration (mainModuleData U d.files name cn modulePath)
              (appendRoute (mainModuleData U d.files name cn modulePath) d4.files).2).1 with
            | .error err => Message.migrationFailed err
            | .ok () => Message.migrationRegistered,
           .generated (mainModuleData U d.files name cn modulePath).PascalName,
           .nextSteps (mainModuleData U d.files name cn modulePath).SnakeName] := by
  rw [main_of_emits U L name cn modulePath d d4 output4 hname hemits]
  refine ⟨rfl, rfl, rfl, ?_, by simp⟩
  intro f hf
  obtain ⟨_, _, ex⟩ := emitLoop_ok L _ _ d d4 _ output4 hemits
  exact ⟨ex (outputFiles_nodup _) f hf, outputs_survive_injections _ _ f hf⟩

set_option maxRecDepth 100000 in
/-- The abort of C14 on the example disk whose model template fails. -/
theorem emit_aborts_witness :
    (main asciiTables miniLib "payment".toList [] [] (templatesDisk badFieldTemplate)).exitCode = 1 ∧
    (main asciiTables miniLib "payment".toList [] [] (templatesDisk badFieldTemplate)).output
      = [Message.generating "Payment".toList "payment".toList,
         Message.emitted "internal/handler/payment_handler.go".toList,
         Message.emitted "internal/service/payment_service.go".toList,
         Message.emitFailed "internal/model/payment.go".toList
           (.errorf "template: can't evaluate field")] ∧
    (main asciiTables miniLib "payment".toList [] [] (templatesDisk badFieldTemplate)).disk.files
        "internal/store/payment_repo.go".toList = none :=
  have h := emit_aborts_at_first_failure asciiTables miniLib "payment".toList [] []
    (templatesDisk badFieldTemplate)
    (generateFile miniLib "templates/service.go.tmpl".toList
      "internal/service/payment_service.go".toList paymentData
      (generateFile miniLib "templates/handler.go.tmpl".toList
        "internal/handler/payment_handler.go".toList paymentData
        (templatesDisk badFieldTemplate)).2).2
    (generateFile miniLib "templates/model.go.tmpl".toList
      "internal/model/payment.go".toList paymentData
      (generateFile miniLib "templates/service.go.tmpl".toList
        "internal/service/payment_service.go".toList paymentData
        (generateFile miniLib "templates/handler.go.tmpl".toList
          "internal/handler/payment_handler.go".toList paymentData
          (templatesDisk badFieldTemplate)).2).2).2
    [("templates/handler.go.tmpl".toList, "internal/handler/payment_handler.go".toList),
     ("templates/service.go.tmpl".toList, "internal/service/payment_service.go".toList)]
    [("templates/store.go.tmpl".toList, "internal/store/payment_repo.go".toList)]
    "templates/model.go.tmpl".toList "internal/model/payment.go".toList
    [Message.generating "Payment".toList "payment".toList,
     Message.emitted "internal/handler/payment_handler.go".toList,
     Message.emitted "internal/service/payment_service.go".toList]
    (.errorf "template: can't evaluate field") (by decide) (by decide) rfl rfl
  ⟨by rw [h.2.1], by rw [h.2.1]; decide,
    by rw [h.2.1]; exact (h.2.2.2.1 _ (List.mem_singleton.mpr rfl)).trans (by decide)⟩

theorem stat_of_file (d : Disk) (p : GoString) (h : (d.files p).isSome = true) :
    os.Stat d p = true := by
  simp [os.Stat, h]

theorem emitLoop_error_exit (L : StdLib) (data : ModuleData)
    (files : List (GoString × GoString)) (d : Disk) (output : List Message) (r : RunResult)
    (h : emitLoop L data files d output = .error r) : r.exitCode = 1 := by
  induction files generalizing d output with
  | nil => simp [emitLoop] at h
  | cons f fs ih =>
    obtain ⟨tmpl, out⟩ := f
    simp only [emitLoop] at h
    rcases hg : generateFile L tmpl out data d with ⟨err | u, d2⟩
    · rw [hg] at h
      simp only [Except.error.injEq] at h
      rw [← h]
    · rw [hg] at h
      exact ih d2 _ h

/-- A run on a disk that already holds the first output file stops there. -/
theorem main_first_exists (U : UnicodeTables) (L : StdLib) (name cn modulePath : GoString)
    (d : Disk) (hname : name ≠ [])
    (h : (d.files ("internal/handler/".toList
      ++ ((mainModuleData U d.files name cn modulePath).SnakeName ++ "_handler.go".toList))).isSome
        = true) :
    (main U L name cn modulePath d).exitCode = 1 ∧ (main U L name cn modulePath d).disk = d := by
  have hg := generateFile_exists L "templates/handler.go.tmpl".toList _
    (mainModuleData U d.files name cn modulePath) d (stat_of_file d _ h)
  have he : ∀ output, ∃ r, emitLoop L (mainModuleData U d.files name cn modulePath)
      (outputFiles (mainModuleData U d.files name cn modulePath)) d output = .error r
      ∧ r.exitCode = 1 ∧ r.disk = d := by
    intro output
    have e : outputFiles (mainModuleData U d.files name cn modulePath)
        = ("templates/handler.go.tmpl".toList, "internal/handler/".toList
            ++ ((mainModuleData U d.files name cn modulePath).SnakeName ++ "_handler.go".toList))
          :: (outputFiles (mainModuleData U d.files name cn modulePath)).tail := rfl
    rw [e]
    simp only [emitLoop, hg]
    exact ⟨_, rfl, rfl, rfl⟩
  obtain ⟨r, hr, h1, h2⟩ := he _
  rw [main_unfold U L name cn modulePath d hname, hr]
  exact ⟨h1, h2⟩

/-- C12: when a file already exists at the output path, `generateFile` returns
the "file already exists" error and leaves the disk as it was; and after a run
that ended with status zero the four output files exist, so that a second run
for the same module exits with status one and leaves the disk, those four files
included, exactly as the first run left it. -/
theorem emit_refuses_existing (U : UnicodeTables) (L : StdLib) :
    (∀ (tmplPath outPath : GoString) (data : ModuleData) (d : Disk),
      (d.files outPath).isSome = true →
      generateFile L tmplPath outPath data d
        = (.error (.errorf ("file already exists: " ++ String.mk outPath)), d)) ∧
    (∀ (name cn modulePath : GoString) (d0 : Disk),
      (main U L name cn modulePath d0).exitCode = 0 →
      (∀ f ∈ outputFiles (mainModuleData U d0.files name cn modulePath),
        ((main U L name cn modulePath d0).disk.files f.2).isSome = true) ∧
      (main U L name cn modulePath (main U L name cn modulePath d0).disk).exitCode = 1 ∧
      (main U L name cn modulePath (main U L name cn modulePath d0).disk).disk
        = (main U L name cn modulePath d0).disk) := by
  refine ⟨fun tmplPath outPath data d h =>
    generateFile_exists L tmplPath outPath data d (stat_of_file d outPath h), ?_⟩
  intro name cn modulePath d0 h0
  have hname : name ≠ [] := by
    intro e
    subst e
    simp [main] at h0
  have hm := main_unfold U L name cn modulePath d0 hname
  rcases he : emitLoop L (mainModuleData U d0.files name cn modulePath)
      (outputFiles (mainModuleData U d0.files name cn modulePath)) d0
      [Message.generating (mainModuleData U d0.files name cn modulePath).PascalName
        (mainModuleData U d0.files name cn modulePath).ChineseName] with r | ⟨d4, o4⟩
  · rw [he] at hm
    simp only at hm
    rw [hm, emitLoop_error_exit L _ _ _ _ r he] at h0
    omega
  · obtain ⟨_, _, ex⟩ := emitLoop_ok L _ _ d0 d4 _ o4 he
    have hall : ∀ f ∈ outputFiles (mainModuleData U d0.files name cn modulePath),
        ((main U L name cn modulePath d0).disk.files f.2).isSome = true := by
      intro f hf
      rw [main_of_emits U L name cn modulePath d0 d4 o4 hname he]
      simp only
      rw [outputs_survive_injections _ _ f hf]
      exact ex (outputFiles_nodup _) f hf
    refine ⟨hall, ?_⟩
    apply main_first_exists U L name cn modulePath _ hname
    exact hall ("templates/handler.go.tmpl".toList, _) (List.mem_cons_self _ _)

set_option maxRecDepth 100000 in
/-- The two runs of C12 on the example disk. -/
theorem emit_refuses_existing_witness :
    (main asciiTables miniLib "payment".toList [] [] (templatesDisk goodTemplate)).exitCode = 0 ∧
    (main asciiTables miniLib "payment".toList [] []
      (main asciiTables miniLib "payment".toList [] [] (templatesDisk goodTemplate)).disk).exitCode
      = 1 ∧
    (main asciiTables miniLib "payment".toList [] []
      (main asciiTables miniLib "payment".toList [] [] (templatesDisk goodTemplate)).disk).disk
      = (main asciiTables miniLib "payment".toList [] [] (templatesDisk goodTemplate)).disk :=
  ⟨by decide,
    ((emit_refuses_existing asciiTables miniLib).2 "payment".toList [] []
      (templatesDisk goodTemplate) (by decide)).2⟩

/-- C13, as amended: when nothing exists at the output path and the template
file is readable, a template that cannot be parsed makes `generateFile` return
an error with the disk unchanged, so no file exists at the output path
afterwards; a template whose execution fails also makes it return that error,
but the output file has been created by then and holds what was written before
the failure. -/
theorem render_failure (L : StdLib) (tmplPath outPath : GoString) (data : ModuleData)
    (d : Disk) (content : GoString) (hstat : os.Stat d outPath = false)
    (hread : d.files tmplPath = some content) :
    (∀ err, L.Parse (L.Base tmplPath) content = .error err →
      generateFile L tmplPath outPath data d = (.error (.wrapf "parse template: %w" err), d) ∧
      (generateFile L tmplPath outPath data d).2.files outPath = none) ∧
    (∀ (t : L.Template) (d1 d2 : Disk) (err : GoError),
      L.Parse (L.Base tmplPath) content = .ok t →
      L.MkdirAll d (L.Dir outPath) = (.ok (), d1) →
      os.Create d1 outPath = (.ok (), d2) →
      (L.Execute t data).2 = some err →
      (generateFile L tmplPath outPath data d).1 = .error err ∧
      (generateFile L tmplPath outPath data d).2.files outPath = some (L.Execute t data).1) := by
  constructor
  · intro err hparse
    have h := generateFile_parse_error L tmplPath outPath data d content err hstat hread hparse
    refine ⟨h, ?_⟩
    rw [h]
    simp only [os.Stat, Bool.or_eq_false_iff] at hstat
    cases hf : d.files outPath with
    | none => rfl
    | some x => rw [hf] at hstat; simp at hstat
  · intro t d1 d2 err hparse hmk hcreate hexec
    rw [generateFile_execute L tmplPath outPath data d d1 d2 content t hstat hread hparse hmk
      hcreate, hexec]
    exact ⟨rfl, write_same _ _ _⟩

set_option maxRecDepth 100000 in
/-- The parse failure of C13 (amended) on a template whose action is not closed. -/
theorem render_failure_witness :
    generateFile miniLib "templates/model.go.tmpl".toList "internal/model/payment.go".toList
        paymentData (templatesDisk unclosedTemplate)
      = (.error (.wrapf "parse template: %w" (.errorf "template: unclosed action")),
          templatesDisk unclosedTemplate) ∧
    (generateFile miniLib "templates/model.go.tmpl".toList "internal/model/payment.go".toList
        paymentData (templatesDisk unclosedTemplate)).2.files "internal/model/payment.go".toList
      = none :=
  (render_failure miniLib "templates/model.go.tmpl".toList "internal/model/payment.go".toList
    paymentData (templatesDisk unclosedTemplate) unclosedTemplate (by decide) (by decide)).1
    (.errorf "template: unclosed action") rfl

set_option maxRecDepth 100000 in
/-- C13 as stated fails: a template that names a field `ModuleData` does not have
makes `generateFile` return an error, and the output file, which did not exist
before, exists afterwards with the text that precedes the action. -/
theorem render_failure_counterexample :
    (generateFile miniLib "templates/model.go.tmpl".toList "internal/model/payment.go".toList
        paymentData (templatesDisk badFieldTemplate)).1
      = .error (.errorf "template: can't evaluate field") ∧
    (templatesDisk badFieldTemplate).files "internal/model/payment.go".toList = none ∧
    (generateFile miniLib "templates/model.go.tmpl".toList "internal/model/payment.go".toList
        paymentData (templatesDisk badFieldTemplate)).2.files "internal/model/payment.go".toList
      = some "package model\n\n// ".toList :=
  ⟨rfl, by decide, by decide⟩

set_option maxRecDepth 100000 in
/-- The run of C15 on an example disk without `router.go` and `store.go`: both
injections fail and the run still ends with status zero. -/
theorem injections_are_nonfatal_witness :
    (main asciiTables miniLib "payment".toList [] [] (templatesDisk goodTemplate)).exitCode = 0 ∧
    (main asciiTables miniLib "payment".toList [] [] (templatesDisk goodTemplate)).output
      = [Message.generating "Payment".toList "payment".toList,
         Message.emitted "internal/handler/payment_handler.go".toList,
         Message.emitted "internal/service/payment_service.go".toList,
         Message.emitted "internal/model/payment.go".toList,
         Message.emitted "internal/store/payment_repo.go".toList,
         Message.routeFailed (.os "open" routerFile),
         Message.migrationFailed (.os "open" storeFile),
         Message.generated "Payment".toList,
         Message.nextSteps "payment".toList] :=
  have h := injections_are_nonfatal asciiTables miniLib "payment".toList [] []
    (templatesDisk goodTemplate)
    (generateFile miniLib "templates/store.go.tmpl".toList
      "internal/store/payment_repo.go".toList paymentData
      (generateFile miniLib "templates/model.go.tmpl".toList
        "internal/model/payment.go".toList paymentData
        (generateFile miniLib "templates/service.go.tmpl".toList
          "internal/service/payment_service.go".toList paymentData
          (generateFile miniLib "templates/handler.go.tmpl".toList
            "internal/handler/payment_handler.go".toList paymentData
            (templatesDisk goodTemplate)).2).2).2).2
    [Message.generating "Payment".toList "payment".toList,
     Message.emitted "internal/handler/payment_handler.go".toList,
     Message.emitted "internal/service/payment_service.go".toList,
     Message.emitted "internal/model/payment.go".toList,
     Message.emitted "internal/store/payment_repo.go".toList]
    (by decide) rfl
  ⟨h.1, by rw [h.2.2.2.2]; decide⟩

/-! ### The end-to-end scenario -/

theorem forms_of_single_lower (U : UnicodeTables) (w : GoString) (hw : LowerWord w) :
    toSnakeCase U w = w ∧ toKebabCase U w = w ∧ toPascalCase U w = capitalise w
      ∧ toCamelCase U w = lowerFirst (capitalise w) := by
  have hws : ∀ v ∈ [w], LowerWord v := by
    intro v hv
    rw [List.mem_singleton.mp hv]
    exact hw
  have hsplit : (splitWords U w).map (strings.ToLower U) = [w] := by
    have := splitWords_snake U [w] hws
    rw [show snakeSpelling [w] = w from intercalate_singleton _ _] at this
    rw [this, map_toLower_lowerWords U [w] hws]
  obtain ⟨h1, h2, h3, h4⟩ := forms_of_words U w [w] hsplit hws
  refine ⟨?_, ?_, ?_, ?_⟩
  · rw [h1]; exact intercalate_singleton _ _
  · rw [h2]; exact intercalate_singleton _ _
  · rw [h3]; simp [pascalSpelling]
  · rw [h4]; simp [camelSpelling, pascalSpelling]

set_option maxRecDepth 100000 in
/-- The naming record, the output paths and the two snippets for the raw input
"payment" with an empty display label. -/
theorem payment_record (U : UnicodeTables) (fs : FS) (modulePath : GoString) :
    (mainModuleData U fs "payment".toList [] modulePath).Name = "payment".toList ∧
    (mainModuleData U fs "payment".toList [] modulePath).PascalName = "Payment".toList ∧
    (mainModuleData U fs "payment".toList [] modulePath).CamelName = "payment".toList ∧
    (mainModuleData U fs "payment".toList [] modulePath).SnakeName = "payment".toList ∧
    (mainModuleData U fs "payment".toList [] modulePath).KebabName = "payment".toList ∧
    (mainModuleData U fs "payment".toList [] modulePath).PluralName = "payments".toList ∧
    (mainModuleData U fs "payment".toList [] modulePath).ChineseName = "payment".toList ∧
    (outputFiles (mainModuleData U fs "payment".toList [] modulePath)).map Prod.snd
      = ["internal/handler/payment_handler.go".toList,
         "internal/service/payment_service.go".toList,
         "internal/model/payment.go".toList,
         "internal/store/payment_repo.go".toList] ∧
    routeCode (mainModuleData U fs "payment".toList [] modulePath)
      = ("\t\t\t// Payment module\n" ++
         "\t\t\tpaymentHandler := NewPaymentHandler(paymentSvc)\n" ++
         "\t\t\tpayments := authorized.Group(\"/payments\")\n" ++
         "\t\t\t\x7b\n" ++
         "\t\t\t\tpayments.GET(\"\", paymentHandler.List)\n" ++
         "\t\t\t\tpayments.POST(\"\", paymentHandler.Create)\n" ++
         "\t\t\t\tpayments.GET(\"/:id\", paymentHandler.Get)\n" ++
         "\t\t\t\tpayments.PUT(\"/:id\", paymentHandler.Update)\n" ++
         "\t\t\t\tpayments.DELETE(\"/:id\", paymentHandler.Delete)\n" ++
         "\t\t\t\x7d\n" ++
         "\n" ++
         "\t\t\t").toList ∧
    migrationCode (mainModuleData U fs "payment".toList [] modulePath)
      = "\t\t&model.Payment\x7b\x7d,\n\t\t".toList := by
  obtain ⟨h1, h2, h3, h4⟩ := forms_of_single_lower U "payment".toList (by decide)
  have hlow : strings.ToLower U "payment".toList = "payment".toList :=
    toLower_lower U _ (by decide)
  have hN : (mainModuleData U fs "payment".toList [] modulePath).Name = "payment".toList := hlow
  have hP : (mainModuleData U fs "payment".toList [] modulePath).PascalName
      = "Payment".toList := h3.trans (by decide)
  have hC : (mainModuleData U fs "payment".toList [] modulePath).CamelName
      = "payment".toList := h4.trans (by decide)
  have hS : (mainModuleData U fs "payment".toList [] modulePath).SnakeName
      = "payment".toList := h1
  have hK : (mainModuleData U fs "payment".toList [] modulePath).KebabName
      = "payment".toList := h2
  have hL : (mainModuleData U fs "payment".toList [] modulePath).PluralName
      = "payments".toList := by
    show toPlural (strings.ToLower U "payment".toList) = _
    rw [hlow]
    decide
  refine ⟨hN, hP, hC, hS, hK, hL, rfl, ?_, ?_, ?_⟩
  · rw [outputFiles_paths, hS]
    decide
  · rw [routeCode, hP, hC, hL]
    decide
  · rw [migrationCode, hP]
    decide

/-- An emit that succeeds found nothing at its output path. -/
theorem generateFile_ok_fresh (L : StdLib) (tmplPath outPath : GoString) (data : ModuleData)
    (d d' : Disk) (h : generateFile L tmplPath outPath data d = (.ok (), d')) :
    (d.files outPath).isSome = false := by
  by_contra hc
  have hs : (d.files outPath).isSome = true := by
    cases hv : (d.files outPath).isSome with
    | true => rfl
    | false => exact absurd hv hc
  rw [generateFile_exists L tmplPath outPath data d (stat_of_file d outPath hs)] at h
  cases h

/-- The emits that succeed found nothing at their output paths. -/
theorem emitLoop_ok_fresh (L : StdLib) (data : ModuleData) (files : List (GoString × GoString))
    (d d1 : Disk) (output output1 : List Message)
    (h : emitLoop L data files d output = .ok (d1, output1))
    (hnd : (files.map Prod.snd).Nodup) : ∀ f ∈ files, (d.files f.2).isSome = false := by
  induction files generalizing d output with
  | nil => simp
  | cons f fs ih =>
    obtain ⟨tmpl, out⟩ := f
    simp only [emitLoop] at h
    rcases hg : generateFile L tmpl out data d with ⟨err | u, d2⟩
    · rw [hg] at h
      cases h
    · rw [hg] at h
      simp only [List.map_cons, List.nodup_cons] at hnd
      have hother := generateFile_files_other L tmpl out data d
      rw [hg] at hother
      intro g hgm
      rcases List.mem_cons.mp hgm with rfl | hgm
      · exact generateFile_ok_fresh L tmpl _ data d d2 hg
      · have hne : g.2 ≠ out := fun e => hnd.1 (e ▸ List.mem_map_of_mem Prod.snd hgm)
        rw [← hother _ hne]
        exact ih d2 _ h hnd.2 g hgm

/-- The whole run for "payment". -/
theorem payment_run (U : UnicodeTables) (L : StdLib) (modulePath : GoString) (d d4 : Disk)
    (output4 : List Message) (rc rpre rpost sc spre spost : GoString)
    (hemits : emitLoop L (mainModuleData U d.files "payment".toList [] modulePath)
        (outputFiles (mainModuleData U d.files "payment".toList [] modulePath)) d
        [Message.generating "Payment".toList "payment".toList] = .ok (d4, output4))
    (hrouter : d.files routerFile = some rc)
    (hrfirst : FirstOccurrence rc rpre routeMarker rpost)
    (hstore : d.files storeFile = some sc)
    (hsfirst : FirstOccurrence sc spre migrationMarker spost)
    (himport : modelImport <:+: spre ++ paymentMigrationSnippet ++ migrationMarker ++ spost
      ∨ modelImportOf (mainModuleData U d.files "payment".toList [] modulePath)
          <:+: spre ++ paymentMigrationSnippet ++ migrationMarker ++ spost
      ∨ ¬ loggerImport <:+: spre ++ paymentMigrationSnippet ++ migrationMarker ++ spost) :
    main U L "payment".toList [] modulePath d
      = ⟨0,
          Disk.mk
            (FS.write
              (FS.write d4.files routerFile (rpre ++ paymentRouteSnippet ++ routeMarker ++ rpost))
              storeFile (spre ++ paymentMigrationSnippet ++ migrationMarker ++ spost))
            d4.dirs,
          [Message.generating "Payment".toList "payment".toList,
           Message.emitted "internal/handler/payment_handler.go".toList,
           Message.emitted "internal/service/payment_service.go".toList,
           Message.emitted "internal/model/payment.go".toList,
           Message.emitted "internal/store/payment_repo.go".toList,
           Message.routeRegistered, Message.migrationRegistered,
           Message.generated "Payment".toList, Message.nextSteps "payment".toList]⟩ ∧
    (∀ p ∈ ["internal/handler/payment_handler.go".toList,
            "internal/service/payment_service.go".toList,
            "internal/model/payment.go".toList,
            "internal/store/payment_repo.go".toList],
      (d.files p).isSome = false ∧
      ((main U L "payment".toList [] modulePath d).disk.files p).isSome = true) := by
  obtain ⟨hN, hP, hC, hS, hK, hPl, hCn, hpaths, hroute, hmig⟩ :=
    payment_record U d.files modulePath
  have hroute' : routeCode (mainModuleData U d.files "payment".toList [] modulePath)
      = paymentRouteSnippet := hroute
  have hmig' : migrationCode (mainModuleData U d.files "payment".toList [] modulePath)
      = paymentMigrationSnippet := hmig
  have hemits' : emitLoop L (mainModuleData U d.files "payment".toList [] modulePath)
      (outputFiles (mainModuleData U d.files "payment".toList [] modulePath)) d
      [Message.generating (mainModuleData U d.files "payment".toList [] modulePath).PascalName
        (mainModuleData U d.files "payment".toList [] modulePath).ChineseName]
      = .ok (d4, output4) := by
    rw [hP, hCn]
    exact hemits
  obtain ⟨ho, keep, ex⟩ := emitLoop_ok L _ _ d d4 _ output4 hemits'
  have hfresh := emitLoop_ok_fresh L _ _ d d4 _ output4 hemits' (outputFiles_nodup _)
  have hr4 : d4.files routerFile = some rc := by
    rw [keep _ (routerFile_not_output _), hrouter]
  have hA := appendRoute_found (mainModuleData U d.files "payment".toList [] modulePath)
    d4.files rc rpre rpost hr4 hrfirst
  rw [hroute'] at hA
  have hne : storeFile ≠ routerFile := by decide
  have hs4 : (d4.files.write routerFile (rpre ++ paymentRouteSnippet ++ routeMarker ++ rpost))
      storeFile = some sc := by
    rw [write_other _ _ _ _ hne, keep _ (storeFile_not_output _), hstore]
  have hB := appendMigration_found (mainModuleData U d.files "payment".toList [] modulePath)
    _ sc spre spost hs4 hsfirst
  rw [hmig', ensureModelImport_noop _ _ himport] at hB
  have hmain := main_of_emits U L "payment".toList [] modulePath d d4 output4 (by decide) hemits'
  rw [hA] at hmain
  simp only at hmain
  rw [hB] at hmain
  simp only at hmain
  have hout : output4 = [Message.generating "Payment".toList "payment".toList,
      Message.emitted "internal/handler/payment_handler.go".toList,
      Message.emitted "internal/service/payment_service.go".toList,
      Message.emitted "internal/model/payment.go".toList,
      Message.emitted "internal/store/payment_repo.go".toList] := by
    rw [ho, hP, hCn]
    have : (outputFiles (mainModuleData U d.files "payment".toList [] modulePath)).map
        (fun f => Message.emitted f.2)
        = ((outputFiles (mainModuleData U d.files "payment".toList [] modulePath)).map
            Prod.snd).map Message.emitted := by
      rw [List.map_map]; rfl
    rw [this, hpaths]
    rfl
  constructor
  · rw [hmain, hout, hP, hS]
    rfl
  · intro p hp
    rw [← hpaths] at hp
    obtain ⟨f, hf, rfl⟩ := List.mem_map.mp hp
    refine ⟨hfresh f hf, ?_⟩
    rw [hmain]
    simp only
    have hmem : f.2 ∈ (outputFiles (mainModuleData U d.files "payment".toList [] modulePath)).map
        Prod.snd := List.mem_map_of_mem Prod.snd hf
    have h1 : f.2 ≠ routerFile := fun e => routerFile_not_output _ (e ▸ hmem)
    have h2 : f.2 ≠ storeFile := fun e => storeFile_not_output _ (e ▸ hmem)
    rw [write_other _ _ _ _ h2, write_other _ _ _ _ h1]
    exact ex (outputFiles_nodup _) f hf

/-- C16: the end-to-end scenario for the raw input "payment" with an empty
display label. The naming record has the forms "payment", "Payment", "payment",
"payment", "payment", "payments" and the display label "payment"; the four
output paths are those of the handler, service, model and repository files named
from "payment"; the two snippets are `paymentRouteSnippet` and
`paymentMigrationSnippet`; `appendRoute` and `appendMigration` write them
immediately before the leftmost marker of the file they edit; and a run of `main`
whose four emits succeed on a disk holding both markers exits with status zero,
has created the four files, and leaves each snippet inserted before its marker. -/
theorem payment_scenario (U : UnicodeTables) (L : StdLib) (modulePath : GoString) (d : Disk) :
    ((mainModuleData U d.files "payment".toList [] modulePath).Name = "payment".toList ∧
     (mainModuleData U d.files "payment".toList [] modulePath).PascalName = "Payment".toList ∧
     (mainModuleData U d.files "payment".toList [] modulePath).CamelName = "payment".toList ∧
     (mainModuleData U d.files "payment".toList [] modulePath).SnakeName = "payment".toList ∧
     (mainModuleData U d.files "payment".toList [] modulePath).KebabName = "payment".toList ∧
     (mainModuleData U d.files "payment".toList [] modulePath).PluralName = "payments".toList ∧
     (mainModuleData U d.files "payment".toList [] modulePath).ChineseName
       = "payment".toList) ∧
    (outputFiles (mainModuleData U d.files "payment".toList [] modulePath)).map Prod.snd
      = ["internal/handler/payment_handler.go".toList,
         "internal/service/payment_service.go".toList,
         "internal/model/payment.go".toList,
         "internal/store/payment_repo.go".toList] ∧
    (routeCode (mainModuleData U d.files "payment".toList [] modulePath) = paymentRouteSnippet ∧
     migrationCode (mainModuleData U d.files "payment".toList [] modulePath)
       = paymentMigrationSnippet) ∧
    (∀ (fs : FS) (content pre post : GoString), fs routerFile = some content →
      FirstOccurrence content pre routeMarker post →
      appendRoute (mainModuleData U d.files "payment".toList [] modulePath) fs
        = (.ok (), fs.write routerFile (pre ++ paymentRouteSnippet ++ routeMarker ++ post))) ∧
    (∀ (fs : FS) (content pre post : GoString), fs storeFile = some content →
      FirstOccurrence content pre migrationMarker post →
      (modelImport <:+: pre ++ paymentMigrationSnippet ++ migrationMarker ++ post
        ∨ modelImportOf (mainModuleData U d.files "payment".toList [] modulePath)
            <:+: pre ++ paymentMigrationSnippet ++ migrationMarker ++ post
        ∨ ¬ loggerImport <:+: pre ++ paymentMigrationSnippet ++ migrationMarker ++ post) →
      appendMigration (mainModuleData U d.files "payment".toList [] modulePath) fs
        = (.ok (), fs.write storeFile
            (pre ++ paymentMigrationSnippet ++ migrationMarker ++ post))) ∧
    (∀ (d4 : Disk) (output4 : List Message) (rc rpre rpost sc spre spost : GoString),
      emitLoop L (mainModuleData U d.files "payment".toList [] modulePath)
        (outputFiles (mainModuleData U d.files "payment".toList [] modulePath)) d
        [Message.generating "Payment".toList "payment".toList] = .ok (d4, output4) →
      d.files routerFile = some rc → FirstOccurrence rc rpre routeMarker rpost →
      d.files storeFile = some sc → FirstOccurrence sc spre migrationMarker spost →
      (modelImport <:+: spre ++ paymentMigrationSnippet ++ migrationMarker ++ spost
        ∨ modelImportOf (mainModuleData U d.files "payment".toList [] modulePath)
            <:+: spre ++ paymentMigrationSnippet ++ migrationMarker ++ spost
        ∨ ¬ loggerImport <:+: spre ++ paymentMigrationSnippet ++ migrationMarker ++ spost) →
      main U L "payment".toList [] modulePath d
        = ⟨0,
            Disk.mk
              (FS.write
                (FS.write d4.files routerFile
                  (rpre ++ paymentRouteSnippet ++ routeMarker ++ rpost))
                storeFile (spre ++ paymentMigrationSnippet ++ migrationMarker ++ spost))
              d4.dirs,
            [Message.generating "Payment".toList "payment".toList,
             Message.emitted "internal/handler/payment_handler.go".toList,
             Message.emitted "internal/service/payment_service.go".toList,
             Message.emitted "internal/model/payment.go".toList,
             Message.emitted "internal/store/payment_repo.go".toList,
             Message.routeRegistered, Message.migrationRegistered,
             Message.generated "Payment".toList, Message.nextSteps "payment".toList]⟩ ∧
      (∀ p ∈ ["internal/handler/payment_handler.go".toList,
              "internal/service/payment_service.go".toList,
              "internal/model/payment.go".toList,
              "internal/store/payment_repo.go".toList],
        (d.files p).isSome = false ∧
        ((main U L "payment".toList [] modulePath d).disk.files p).isSome = true)) := by
  obtain ⟨hN, hP, hC, hS, hK, hPl, hCn, hpaths, hroute, hmig⟩ :=
    payment_record U d.files modulePath
  have hroute' : routeCode (mainModuleData U d.files "payment".toList [] modulePath)
      = paymentRouteSnippet := hroute
  have hmig' : migrationCode (mainModuleData U d.files "payment".toList [] modulePath)
      = paymentMigrationSnippet := hmig
  refine ⟨⟨hN, hP, hC, hS, hK, hPl, hCn⟩, hpaths, ⟨hroute', hmig'⟩, ?_, ?_, ?_⟩
  · intro fs content pre post hread hfirst
    rw [appendRoute_found _ fs content pre post hread hfirst, hroute']
  · intro fs content pre post hread hfirst himport
    rw [appendMigration_found _ fs content pre post hread hfirst, hmig',
      ensureModelImport_noop _ _ himport]
  · intro d4 output4 rc rpre rpost sc spre spost hemits hrouter hrfirst hstore hsfirst himport
    exact payment_run U L modulePath d d4 output4 rc rpre rpost sc spre spost hemits hrouter
      hrfirst hstore hsfirst himport

set_option maxRecDepth 100000 in
/-- The run of C16 on the example disk with templates, router file and store file. -/
theorem payment_scenario_witness :
    (main asciiTables miniLib "payment".toList [] [] paymentDisk).exitCode = 0 ∧
    (main asciiTables miniLib "payment".toList [] [] paymentDisk).disk.files routerFile
      = some ("\t\tauthorized.Use(auth)\n\t\t".toList ++ paymentRouteSnippet ++ routeMarker
          ++ "\n\treturn r\n".toList) ∧
    (main asciiTables miniLib "payment".toList [] [] paymentDisk).disk.files storeFile
      = some ("import (\n\t\"go-api-scaffold/internal/model\"\n)\n\t\t".toList
          ++ paymentMigrationSnippet ++ migrationMarker ++ "\n".toList) ∧
    (main asciiTables miniLib "payment".toList [] [] paymentDisk).disk.files
        "internal/model/payment.go".toList
      = some "package model\n\ntype Payment struct\n".toList :=
  have h := (payment_scenario asciiTables miniLib [] paymentDisk).2.2.2.2.2
    (generateFile miniLib "templates/store.go.tmpl".toList
      "internal/store/payment_repo.go".toList paymentData
      (generateFile miniLib "templates/model.go.tmpl".toList
        "internal/model/payment.go".toList paymentData
        (generateFile miniLib "templates/service.go.tmpl".toList
          "internal/service/payment_service.go".toList paymentData
          (generateFile miniLib "templates/handler.go.tmpl".toList
            "internal/handler/payment_handler.go".toList paymentData
            paymentDisk).2).2).2).2
    [Message.generating "Payment".toList "payment".toList,
     Message.emitted "internal/handler/payment_handler.go".toList,
     Message.emitted "internal/service/payment_service.go".toList,
     Message.emitted "internal/model/payment.go".toList,
     Message.emitted "internal/store/payment_repo.go".toList]
    sampleRouter "\t\tauthorized.Use(auth)\n\t\t".toList "\n\treturn r\n".toList
    sampleStoreWithModel "import (\n\t\"go-api-scaffold/internal/model\"\n)\n\t\t".toList
    "\n".toList
    rfl (by decide) ⟨by decide, by decide⟩ (by decide) ⟨by decide, by decide⟩
    (Or.inl ((contains_iff _ _).mp (by decide)))
  ⟨by rw [h.1], by rw [h.1]; decide, by rw [h.1]; decide, by rw [h.1]; decide⟩

/-! ### The import line written by `appendMigration` -/

set_option maxRecDepth 100000 in
/-- C18, evaluated on the example store file that imports the logger package
but not the model package: between the two import strings `appendMigration`
writes a backslash, `n`, a backslash and `t`, not a newline and a tab. -/
theorem import_rewrite_keeps_backslashes :
    (appendMigration paymentData (singleFile storeFile sampleStore)).2 storeFile
      = some ("import (\n\t".toList ++ modelImport ++ ['\\', 'n', '\\', 't'] ++ loggerImport
          ++ "\n)\n\t\t".toList ++ migrationCode paymentData ++ migrationMarker ++ "\n".toList) ∧
    (appendMigration paymentData (singleFile storeFile sampleStore)).2 storeFile
      ≠ some ("import (\n\t".toList ++ modelImport ++ ['\n', '\t'] ++ loggerImport
          ++ "\n)\n\t\t".toList ++ migrationCode paymentData ++ migrationMarker ++ "\n".toList) := by
  decide

/-! ### What the words of a string are -/

/-- C19: every word returned by `splitWords s` is non-empty and contains neither
`_` nor `-`, and the words concatenate to `s` with every `_` and `-` removed. -/
theorem splitWords_words (U : UnicodeTables) (s : GoString) :
    (∀ w ∈ splitWords U s, w ≠ [] ∧ '_' ∉ w ∧ '-' ∉ w) ∧
    (splitWords U s).flatten = s.filter (fun c => decide (c ≠ '_' ∧ c ≠ '-')) := by
  constructor
  · intro w hw
    refine ⟨splitWords_nonempty U s w hw, ?_, ?_⟩
    · intro h
      exact (splitWords_mem U s w hw _ h).2 (Or.inl rfl)
    · intro h
      exact (splitWords_mem U s w hw _ h).2 (Or.inr rfl)
  · rw [splitWords_flatten]
    apply List.filter_congr
    intro c _
    simp [IsSep, not_or]

/-! ### Names that consist of separators -/

theorem splitWords_ne_nil (U : UnicodeTables) (raw : GoString)
    (h : ∃ c ∈ raw, c ≠ '_' ∧ c ≠ '-') : ∃ w rest, splitWords U raw = w :: rest ∧ w ≠ [] := by
  obtain ⟨c, hc, h1, h2⟩ := h
  have hf : c ∈ (splitWords U raw).flatten := by
    rw [splitWords_flatten]
    simp [hc, IsSep, h1, h2]
  cases hs : splitWords U raw with
  | nil => rw [hs] at hf; simp at hf
  | cons w rest =>
    exact ⟨w, rest, rfl, splitWords_nonempty U raw w (by rw [hs]; simp)⟩

theorem intercalate_ne_nil (sep x : GoString) (xs : List GoString) (hx : x ≠ []) :
    sep.intercalate (x :: xs) ≠ [] := by
  cases xs with
  | nil => rw [intercalate_singleton]; exact hx
  | cons v vs =>
    rw [intercalate_cons_cons]
    intro e
    exact hx (List.append_eq_nil.mp (List.append_eq_nil.mp e).1).1

theorem toLower_ne_nil (U : UnicodeTables) (w : GoString) (hw : w ≠ []) :
    strings.ToLower U w ≠ [] := by
  cases w with
  | nil => exact absurd rfl hw
  | cons c cs => simp [strings.ToLower]

theorem title_ne_nil (U : UnicodeTables) (w : GoString) (hw : w ≠ []) :
    strings.Title U w ≠ [] := by
  cases w with
  | nil => exact absurd rfl hw
  | cons c cs => simp [strings.Title, strings.titleFrom]

/-- C20, as amended: for every raw module name that holds at least one rune
other than `_` and `-`, `toSnakeCase`, `toPascalCase` and `toCamelCase` of it are
non-empty. -/
theorem names_nonempty (U : UnicodeTables) (raw : GoString)
    (h : ∃ c ∈ raw, c ≠ '_' ∧ c ≠ '-') :
    toSnakeCase U raw ≠ [] ∧ toPascalCase U raw ≠ [] ∧ toCamelCase U raw ≠ [] := by
  obtain ⟨w, rest, hs, hw⟩ := splitWords_ne_nil U raw h
  have hsnake : toSnakeCase U raw ≠ [] := by
    simp only [toSnakeCase, strings.Join, hs, List.map_cons]
    exact intercalate_ne_nil _ _ _ (toLower_ne_nil U w hw)
  have hpascal : toPascalCase U raw ≠ [] := by
    rw [toPascalCase, join_nil_sep, hs]
    simp only [List.map_cons, List.flatten_cons]
    intro e
    exact title_ne_nil U _ (toLower_ne_nil U w hw) (List.append_eq_nil.mp e).1
  refine ⟨hsnake, hpascal, ?_⟩
  simp only [toCamelCase]
  cases hp : toPascalCase U raw with
  | nil => exact absurd hp hpascal
  | cons r rs => simp

/-- The non-empty snake form of C20 (amended) at the raw name "_x-". -/
theorem names_nonempty_witness :
    (∃ c ∈ "_x-".toList, c ≠ '_' ∧ c ≠ '-') ∧
    toSnakeCase asciiTables "_x-".toList = "x".toList ∧
    toSnakeCase asciiTables "_x-".toList ≠ [] :=
  ⟨by decide, by decide, (names_nonempty asciiTables "_x-".toList (by decide)).1⟩

/-- C20 as stated fails: the raw name "_" is not empty, yet its snake and Pascal
forms are, and the output paths have an empty module stem. -/
theorem names_nonempty_counterexample :
    "_".toList ≠ [] ∧ toSnakeCase asciiTables "_".toList = [] ∧
    toPascalCase asciiTables "_".toList = [] ∧
    (outputFiles (mainModuleData asciiTables (fun _ => none) "_".toList [] [])).map Prod.snd
      = ["internal/handler/_handler.go".toList, "internal/service/_service.go".toList,
         "internal/model/.go".toList, "internal/store/_repo.go".toList] := by
  decide

/-! ### The module path -/

theorem split_intercalate (sep : Char) (lines : List GoString) (hne : lines ≠ [])
    (h : ∀ l ∈ lines, sep ∉ l) : strings.Split ([sep].intercalate lines) sep = lines := by
  induction lines with
  | nil => exact absurd rfl hne
  | cons l rest ih =>
    cases rest with
    | nil => rw [intercalate_singleton, split_token l sep (h l (by simp))]
    | cons l' rest =>
      rw [intercalate_cons_cons, List.append_assoc, List.singleton_append,
        split_token_sep l _ sep (h l (by simp)),
        ih (by simp) (fun x hx => h x (by simp [hx]))]

theorem intercalate_split (sep : Char) (s : GoString) :
    [sep].intercalate (strings.Split s sep) = s ∧ strings.Split s sep ≠ []
      ∧ ∀ l ∈ strings.Split s sep, sep ∉ l := by
  induction s with
  | nil => simp [strings.Split, intercalate_singleton]
  | cons c cs ih =>
    obtain ⟨i1, i2, i3⟩ := ih
    unfold strings.Split
    by_cases hc : c = sep
    · rw [if_pos hc]
      refine ⟨?_, by simp, ?_⟩
      · cases hs : strings.Split cs sep with
        | nil => exact absurd hs i2
        | cons p ps =>
          rw [intercalate_cons_cons, ← hs, i1, hc]
          rfl
      · intro l hl
        rcases List.mem_cons.mp hl with rfl | hl
        · simp
        · exact i3 l hl
    · rw [if_neg hc]
      cases hs : strings.Split cs sep with
      | nil => exact absurd hs i2
      | cons p ps =>
        rw [hs] at i1 i3
        refine ⟨?_, by simp, ?_⟩
        · simp only
          cases ps with
          | nil =>
            rw [intercalate_singleton] at i1 ⊢
            rw [i1]
          | cons q qs =>
            rw [intercalate_cons_cons] at i1 ⊢
            rw [← i1]
            simp
        · intro l hl
          simp only at hl
          rcases List.mem_cons.mp hl with rfl | hl
          · intro hm
            rcases List.mem_cons.mp hm with e | hm
            · exact hc e.symm
            · exact i3 p (by simp) hm
          · exact i3 l (by simp [hl])

theorem trimSpace_isTrimOf (U : UnicodeTables) (s : GoString) :
    IsTrimOf U (strings.TrimSpace U s) s := by
  have h1 : s = s.takeWhile U.IsSpace ++ s.dropWhile U.IsSpace :=
    (List.takeWhile_append_dropWhile _ _).symm
  have h2 : (s.dropWhile U.IsSpace).reverse
      = (s.dropWhile U.IsSpace).reverse.takeWhile U.IsSpace
        ++ (s.dropWhile U.IsSpace).reverse.dropWhile U.IsSpace :=
    (List.takeWhile_append_dropWhile _ _).symm
  have h3 : s.dropWhile U.IsSpace
      = strings.TrimSpace U s ++ ((s.dropWhile U.IsSpace).reverse.takeWhile U.IsSpace).reverse := by
    have := congrArg List.reverse h2
    rw [List.reverse_reverse, List.reverse_append] at this
    exact this
  have hhead : ∀ (l : GoString), ∀ c ∈ (l.dropWhile U.IsSpace).head?, U.IsSpace c = false := by
    intro l c hc
    induction l with
    | nil => simp at hc
    | cons x xs ih =>
      rw [List.dropWhile_cons] at hc
      split at hc
      · exact ih hc
      · rename_i hx
        simp only [List.head?_cons, Option.mem_def, Option.some.injEq] at hc
        rw [← hc]
        simpa using hx
  unfold IsTrimOf
  refine ⟨⟨s.takeWhile U.IsSpace,
    ((s.dropWhile U.IsSpace).reverse.takeWhile U.IsSpace).reverse, ?_, ?_, ?_⟩, ?_, ?_⟩
  · conv_lhs => rw [h1, h3]
    rw [List.append_assoc]
  · intro c hc
    exact List.mem_takeWhile_imp hc
  · intro c hc
    exact List.mem_takeWhile_imp (List.mem_reverse.mp hc)
  · intro c hc
    cases ht : strings.TrimSpace U s with
    | nil => rw [ht] at hc; simp at hc
    | cons x xs =>
      rw [ht] at hc h3
      simp only [List.head?_cons, Option.mem_def, Option.some.injEq] at hc
      subst hc
      apply hhead s
      rw [h3]
      simp
  · intro c hc
    unfold strings.TrimSpace at hc
    rw [List.getLast?_reverse] at hc
    exact hhead _ c hc

theorem find_first (p : GoString → Bool) (before after : List GoString) (x : GoString)
    (hb : ∀ l ∈ before, p l = false) (hx : p x = true) :
    (before ++ x :: after).find? p = some x := by
  induction before with
  | nil => simp [hx]
  | cons b bs ih =>
    rw [List.cons_append, List.find?_cons, hb b (by simp)]
    exact ih (fun l hl => hb l (by simp [hl]))

theorem find_none (p : GoString → Bool) (lines : List GoString)
    (h : ∀ l ∈ lines, p l = false) : lines.find? p = none := by
  simpa using h

theorem hasPrefix_iff (s p : GoString) : strings.HasPrefix s p = true ↔ p <+: s := by
  unfold strings.HasPrefix
  exact List.isPrefixOf_iff_prefix

theorem hasPrefix_false (s p : GoString) (h : ¬ p <+: s) : strings.HasPrefix s p = false := by
  rw [Bool.eq_false_iff]
  exact fun e => h ((hasPrefix_iff s p).mp e)

theorem detectModulePath_unreadable (U : UnicodeTables) (fs : FS)
    (h : fs "go.mod".toList = none) : detectModulePath U fs = "go-api-scaffold".toList := by
  unfold detectModulePath os.ReadFile
  rw [h]

theorem detectModulePath_readable (U : UnicodeTables) (fs : FS) (content : GoString)
    (h : fs "go.mod".toList = some content) :
    detectModulePath U fs
      = match (strings.Split content '\n').find?
            fun line => strings.HasPrefix line "module ".toList with
        | some line => strings.TrimSpace U (strings.TrimPrefix line "module ".toList)
        | none => "go-api-scaffold".toList := by
  unfold detectModulePath os.ReadFile
  rw [h]

/-- C17: `detectModulePath` returns "go-api-scaffold" when `go.mod` cannot be
read or when none of its lines begins with "module "; otherwise it returns the
remainder of the first line that begins with "module ", with the surrounding
white space trimmed. -/
theorem detectModulePath_spec (U : UnicodeTables) (fs : FS) :
    (fs "go.mod".toList = none → detectModulePath U fs = "go-api-scaffold".toList) ∧
    (∀ content, fs "go.mod".toList = some content →
      ∃ lines : List GoString, lines ≠ [] ∧ (∀ l ∈ lines, '\n' ∉ l)
        ∧ content = ['\n'].intercalate lines) ∧
    (∀ lines : List GoString, lines ≠ [] → (∀ l ∈ lines, '\n' ∉ l) →
      fs "go.mod".toList = some (['\n'].intercalate lines) →
      ((∀ l ∈ lines, ¬ "module ".toList <+: l) →
        detectModulePath U fs = "go-api-scaffold".toList) ∧
      (∀ (before after : List GoString) (rest : GoString),
        lines = before ++ ("module ".toList ++ rest) :: after →
        (∀ l ∈ before, ¬ "module ".toList <+: l) →
        detectModulePath U fs = strings.TrimSpace U rest
          ∧ IsTrimOf U (detectModulePath U fs) rest)) := by
  refine ⟨?_, ?_, ?_⟩
  · exact detectModulePath_unreadable U fs
  · intro content _
    obtain ⟨h1, h2, h3⟩ := intercalate_split '\n' content
    exact ⟨_, h2, h3, h1.symm⟩
  · intro lines hne hnl hread
    have hsplit := split_intercalate '\n' lines hne hnl
    constructor
    · intro hnone
      have hf := find_none (fun line => strings.HasPrefix line "module ".toList) lines
        (fun l hl => hasPrefix_false l _ (hnone l hl))
      rw [detectModulePath_readable U fs _ hread, hsplit, hf]
    · intro before after rest hl hb
      have hf := find_first (fun line => strings.HasPrefix line "module ".toList) before after
        ("module ".toList ++ rest) (fun l hl => hasPrefix_false l _ (hb l hl))
        ((hasPrefix_iff _ _).mpr (List.prefix_append _ _))
      have ht : strings.TrimPrefix ("module ".toList ++ rest) "module ".toList = rest := by
        unfold strings.TrimPrefix
        rw [if_pos ((hasPrefix_iff _ _).mpr (List.prefix_append _ _)), List.drop_left]
      have hd : detectModulePath U fs = strings.TrimSpace U rest := by
        rw [detectModulePath_readable U fs _ hread, hsplit, hl, hf]
        simp only [ht]
      exact ⟨hd, hd ▸ trimSpace_isTrimOf U rest⟩

set_option maxRecDepth 100000 in
/-- The module path of C17 read from an example `go.mod`. -/
theorem detectModulePath_spec_witness :
    detectModulePath asciiTables
        (singleFile "go.mod".toList "// demo\nmodule  example.com/shop \r\n\ngo 1.21\n".toList)
      = "example.com/shop".toList :=
  (((detectModulePath_spec asciiTables
      (singleFile "go.mod".toList "// demo\nmodule  example.com/shop \r\n\ngo 1.21\n".toList)).2.2
    ["// demo".toList, "module  example.com/shop \r".toList, [], "go 1.21".toList, []]
    (by decide) (by decide) (by decide)).2
    ["// demo".toList] [[], "go 1.21".toList, []] " example.com/shop \r".toList (by decide)
    (by decide)).1.trans (by decide)

end GoApiScaffold
